import Mathlib

/-!
# casper: the component message envelope

A shallow embedding of `component_message.go` (package `casper`): the envelope
`ComponentMessage`, its `Payload`, the routing-graph operations, the wire codec
(`Serialize`, `FromJson`, `UnmarshalResult`) and the typed accessors over the
`context` and `command` containers; and of the HTTP handler of `handler.go`.

Conventions of the embedding.

* A Go pointer is an `Option`: `none` is the nil pointer.
* A Go slice or map field is an `Option` of a list: `none` is the nil slice
  (or nil map), `some l` an allocated one; both `none` and `some []` have
  length zero.
* A Go map is an association list read with first-match lookup; a well-formed
  map has pairwise distinct keys.
* A Go string is a byte string: it is held as the sequence of its characters
  (the maximal valid UTF-8 sequences) and of the bytes that belong to none.
* A method with a pointer receiver takes the receiver and returns the updated
  receiver next to its Go results.
* A runtime panic is the outcome `none` of an `Option`-valued operation.
-/

namespace Casper

/-! ## Data model -/

/-- One byte of a Go `[]byte`. -/
abbrev Byte := Fin 256

/-- The Go type `uint64`. -/
abbrev U64 := Fin 18446744073709551616

/-- One unit of a Go string: a character, that is a valid UTF-8 sequence of the
string, or a byte of the string that is part of no valid UTF-8 sequence. -/
inductive StrUnit where
  | char (c : Char)
  | byte (b : Byte)
deriving DecidableEq, Repr

/-- The Go type `string`: a byte string, split into its characters and the bytes
that are not valid UTF-8. The string of a Go value has no `byte` unit that is
an ASCII byte or that forms a valid sequence with its neighbours; the bytes
0xfe and 0xff, used in the examples, occur in no valid sequence. -/
abbrev GoString := List StrUnit

/-- The Go string of a text. -/
def gs (s : String) : GoString := s.data.map StrUnit.char

instance : Coe String GoString := ⟨gs⟩

/-- The replacement character U+FFFD. -/
def replacementChar : Char := Char.ofNat 0xFFFD

/-- The text `encoding/json` writes for a Go string: every byte that is not
valid UTF-8 is replaced by U+FFFD. -/
def toValidUTF8 (s : GoString) : String :=
  String.mk (s.map fun u =>
    match u with
    | .char c => c
    | .byte _ => replacementChar)

/-- Whether a Go string is valid UTF-8. -/
def validUTF8 (s : GoString) : Bool :=
  s.all fun u =>
    match u with
    | .char _ => true
    | .byte _ => false

/-- The struct `ComponentMetadata`: one hop of the routing graph. -/
structure ComponentMetadata where
  Name : GoString
  MQType : GoString
  In : GoString
deriving DecidableEq, Repr

/-- The pointer type `*ComponentMetadata`; `none` is nil. -/
abbrev MetadataPtr := Option ComponentMetadata

/-- A JSON number literal, of the value `mant * 10 ^ exp`. A literal that is a
sequence of digits, with a minus sign before it when its value is not zero,
is held with `exp = 0`; every other literal (one with a fraction or an
exponent part, and `-0`) is held with `exp ≠ 0` and the mantissa scaled to it
(`1.0` and `1e0` are `⟨10, -1⟩`). -/
structure JNum where
  mant : Int
  exp : Int
deriving DecidableEq, Repr

/-- The dynamic values an `interface{}` slot of the `context` and `command`
containers holds in this development: the untyped nil, the values
`encoding/json` decodes into an `interface{}` (`bool`, `float64`, `string`,
`[]interface{}`, `map[string]interface{}`), the integer types the typed
accessors ask for (`int`, `int32`, `int64`), containers of other types
(`[]string`, `map[string]string`), and a channel, standing for the values
`encoding/json` cannot encode. An integer is held by its value, which is in the
range of its type. A `float64` is identified by a decimal literal whose
nearest `float64` it is. `slice` and `map` are allocated values of the
types `[]interface{}` and `map[string]interface{}`, `nilSlice` and `nilMap` the
nil values of these types; for `[]string` and `map[string]string`, `none` is
the nil value. Values have value semantics (no aliasing). -/
inductive GoVal where
  | nil
  | bool (b : Bool)
  | int (n : Int)
  | int32 (n : Int)
  | int64 (n : Int)
  | float64 (lit : JNum)
  | string (s : GoString)
  | slice (l : List GoVal)
  | nilSlice
  | map (m : List (GoString × GoVal))
  | nilMap
  | strSlice (l : Option (List GoString))
  | strMap (m : Option (List (GoString × GoString)))
  | chan

/-- The type `componentContext` / `componentCommands`: `map[string]interface{}`,
`none` being the nil map. -/
abbrev Container := Option (List (GoString × GoVal))

/-- The struct `Payload`. -/
structure Payload where
  Code : U64
  Message : GoString
  context : Container
  command : Container
  result : Option (List Byte)

/-- The struct `ComponentMessage`; `Payload` is a pointer. -/
structure ComponentMessage where
  Id : GoString
  entrance : MetadataPtr
  graph : Option (List MetadataPtr)
  chain : Option (List GoString)
  Payload : Option Payload

/-! ## Routing graph -/

/-- `ComponentMessage.TopGraph`: the head hop when `len(p.graph) >= 1`, else nil.
The receiver is returned as it is left (no field is assigned). -/
def TopGraph (p : ComponentMessage) : ComponentMessage × MetadataPtr :=
  match p.graph with
  | some (h :: _) => (p, h)
  | _ => (p, none)

/-- `ComponentMessage.PopGraph`: when `len(p.graph) >= 1` the graph becomes
`p.graph[1:]`; then the head of the graph as it now is (or nil) is returned. -/
def PopGraph (p : ComponentMessage) : ComponentMessage × MetadataPtr :=
  let p1 : ComponentMessage :=
    match p.graph with
    | some (_ :: t) => { p with graph := some t }
    | _ => p
  match p1.graph with
  | some (h :: _) => (p1, h)
  | _ => (p1, none)

/-- The envelope after `k` successive `PopGraph` calls. -/
def afterPops : Nat → ComponentMessage → ComponentMessage
  | 0, p => p
  | k + 1, p => afterPops k (PopGraph p).1

/-! ## Dynamic types -/

/-- The `reflect.Type` of the dynamic values of `GoVal`. -/
inductive GoType where
  | bool | int | int32 | int64 | float64 | string
  | sliceIface
  | mapIface
  | sliceString
  | mapString
  | chan
deriving DecidableEq, Repr

/-- The `reflect.Kind` of those types. -/
inductive Kind where
  | Bool | Int | Int32 | Int64 | Float64 | String | Slice | Map | Chan
deriving DecidableEq, Repr

/-- `reflect.TypeOf`: the nil interface has the nil `Type` (`none`). -/
def GoVal.typeOf : GoVal → Option GoType
  | .nil => none
  | .bool _ => some .bool
  | .int _ => some .int
  | .int32 _ => some .int32
  | .int64 _ => some .int64
  | .float64 _ => some .float64
  | .string _ => some .string
  | .slice _ => some .sliceIface
  | .nilSlice => some .sliceIface
  | .map _ => some .mapIface
  | .nilMap => some .mapIface
  | .strSlice _ => some .sliceString
  | .strMap _ => some .mapString
  | .chan => some .chan

/-- `reflect.Type.Kind`. -/
def GoType.Kind : GoType → Kind
  | .bool => .Bool
  | .int => .Int
  | .int32 => .Int32
  | .int64 => .Int64
  | .float64 => .Float64
  | .string => .String
  | .sliceIface => .Slice
  | .mapIface => .Map
  | .sliceString => .Slice
  | .mapString => .Map
  | .chan => .Chan

/-- The shape of a value in the words of the spec: the tag of the JSON-value
union (null, bool, number, string, array, object); a channel has none of them.
A sequence of any Go type is an array and a mapping of any Go type an object,
nil or not. -/
inductive Shape where
  | null | bool | number | string | array | object | other
deriving DecidableEq, Repr

/-- The shape of a dynamic value. -/
def GoVal.shape : GoVal → Shape
  | .nil => .null
  | .bool _ => .bool
  | .int _ => .number
  | .int32 _ => .number
  | .int64 _ => .number
  | .float64 _ => .number
  | .string _ => .string
  | .slice _ => .array
  | .nilSlice => .array
  | .map _ => .object
  | .nilMap => .object
  | .strSlice _ => .array
  | .strMap _ => .object
  | .chan => .other

/-! ## Maps -/

/-- The keys of a map. -/
def keys (m : List (GoString × GoVal)) : List GoString := m.map Prod.fst

/-- The map assignment `m[k] = v`: the entry of `k` is replaced, or added when
`k` has none. -/
def mapSet : List (GoString × GoVal) → GoString → GoVal → List (GoString × GoVal)
  | [], k, v => [(k, v)]
  | (k', v') :: rest, k, v => if k' = k then (k, v) :: rest else (k', v') :: mapSet rest k v

/-- The map read `v, exist = c[k]`; reading a nil map finds nothing. -/
def Container.entry (c : Container) (k : GoString) : Option GoVal :=
  match c with
  | none => none
  | some m => m.lookup k

/-! ## Command container: set and append -/

/-- `Payload.SetCommand`: allocates the map when nil, then `p.command[key] = command`. -/
def SetCommand (p : Payload) (key : GoString) (command : GoVal) : Payload :=
  let cmd : List (GoString × GoVal) := match p.command with
    | none => []
    | some m => m
  { p with command := some (mapSet cmd key command) }

/-- The loop `for k, v := range command { old[k] = v }` of `AppendCommand`. -/
def mergeEntries (old : List (GoString × GoVal)) (command : List (GoString × GoVal)) :
    List (GoString × GoVal) :=
  command.foldl (fun acc kv => mapSet acc kv.1 kv.2) old

/-- The loop `for i := 0; i < len(command); i++ { old = append(old, command[i]) }`
of `AppendCommand`. -/
def appendEach (old : List GoVal) (command : List GoVal) : List GoVal :=
  command.foldl (fun acc x => acc ++ [x]) old

/-- The type assertion `v.(map[string]interface{})`: the entries of the map
(`none` for the nil map); the assertion fails (outer `none`) on every other
type. -/
def asIfaceMap : GoVal → Option (Option (List (GoString × GoVal)))
  | .map m => some (some m)
  | .nilMap => some none
  | _ => none

/-- The type assertion `v.([]interface{})`: the elements of the slice (`none`
for the nil slice); the assertion fails (outer `none`) on every other type. -/
def asIfaceSlice : GoVal → Option (Option (List GoVal))
  | .slice l => some (some l)
  | .nilSlice => some none
  | _ => none

/-- `Payload.AppendCommand`. The map is allocated when nil. When `key` has an
entry `tmp` and `reflect.TypeOf(tmp) == reflect.TypeOf(command)`, the switch on
`reflect.TypeOf(command).Kind()` merges two maps or appends to a slice and does
nothing for the other kinds; calling `Kind` on the nil `Type` panics (`none`).
In the two loops the type assertions to `map[string]interface{}` and to
`[]interface{}` panic on a map or slice of another type, and an assignment
into the nil map panics; over an empty `command` the map loop does nothing.
When the types differ nothing is done; when `key` has no entry,
`p.command[key] = command`. -/
def AppendCommand (p : Payload) (key : GoString) (command : GoVal) : Option Payload :=
  let cmd : List (GoString × GoVal) := match p.command with
    | none => []
    | some m => m
  match cmd.lookup key with
  | some tmp =>
    if tmp.typeOf = command.typeOf then
      match command.typeOf with
      | none => none
      | some t =>
        match t.Kind with
        | .Map =>
          match asIfaceMap command with
          | none => none
          | some none => some { p with command := some cmd }
          | some (some []) => some { p with command := some cmd }
          | some (some (e :: es)) =>
            match asIfaceMap tmp with
            | some (some old) =>
              some { p with command := some (mapSet cmd key (.map (mergeEntries old (e :: es)))) }
            | _ => none
        | .Slice =>
          match asIfaceSlice command with
          | none => none
          | some none => some { p with command := some cmd }
          | some (some []) => some { p with command := some cmd }
          | some (some (x :: xs)) =>
            match asIfaceSlice tmp with
            | some (some old) =>
              some { p with command := some (mapSet cmd key (.slice (appendEach old (x :: xs)))) }
            | some none =>
              some { p with command := some (mapSet cmd key (.slice (appendEach [] (x :: xs)))) }
            | none => none
        | _ => some { p with command := some cmd }
    else some { p with command := some cmd }
  | none => some { p with command := some (mapSet cmd key command) }

/-- `Payload.GetCommand`: `(val, exist)`. -/
def GetCommand (p : Payload) (key : GoString) : GoVal × Bool :=
  match p.command with
  | none => (.nil, false)
  | some m =>
    match m.lookup key with
    | some v => (v, true)
    | none => (.nil, false)

/-! ## Typed accessors

Each accessor returns its Go results `(val, err)`; `err` is `none` for the nil
error and otherwise the message built by `fmt.Errorf`. -/

/-- `Payload.GetContextString`. A present value that is not a string falls
through to the final bare `return`, with `val` and `err` at their zero values. -/
def GetContextString (p : Payload) (key : GoString) : GoString × Option GoString :=
  match p.context with
  | none => ("", some "the context container is nil")
  | some ctx =>
    match ctx.lookup key with
    | none => ("", some ("the context key of " ++ key ++ " is not exist"))
    | some (.string strVal) => (strVal, none)
    | some _ => ("", none)

/-- `Payload.GetContextInt`. -/
def GetContextInt (p : Payload) (key : GoString) : Int × Option GoString :=
  match p.context with
  | none => (0, some "the context container is nil")
  | some ctx =>
    match ctx.lookup key with
    | none => (0, some ("the context key of " ++ key ++ " is not exist"))
    | some (.int intVal) => (intVal, none)
    | some _ => (0, some ("the type of context key " ++ key ++ " is not int"))

/-- `Payload.GetContextInt32`. -/
def GetContextInt32 (p : Payload) (key : GoString) : Int × Option GoString :=
  match p.context with
  | none => (0, some "the context container is nil")
  | some ctx =>
    match ctx.lookup key with
    | none => (0, some ("the context key of " ++ key ++ " is not exist"))
    | some (.int32 intVal) => (intVal, none)
    | some _ => (0, some ("the type of context key " ++ key ++ " is not int32"))

/-- `Payload.GetContextInt64`. -/
def GetContextInt64 (p : Payload) (key : GoString) : Int × Option GoString :=
  match p.context with
  | none => (0, some "the context container is nil")
  | some ctx =>
    match ctx.lookup key with
    | none => (0, some ("the context key of " ++ key ++ " is not exist"))
    | some (.int64 intVal) => (intVal, none)
    | some _ => (0, some ("the type of context key " ++ key ++ " is not int64"))

/-- `Payload.GetCommandString`; like `GetContextString`, no error is set for a
present value that is not a string. -/
def GetCommandString (p : Payload) (key : GoString) : GoString × Option GoString :=
  match p.command with
  | none => ("", some "the command container is nil")
  | some cmd =>
    match cmd.lookup key with
    | none => ("", some ("the command key of " ++ key ++ " is not exist"))
    | some (.string strVal) => (strVal, none)
    | some _ => ("", none)

/-- `Payload.GetCommandInt`. -/
def GetCommandInt (p : Payload) (key : GoString) : Int × Option GoString :=
  match p.command with
  | none => (0, some "the command container is nil")
  | some cmd =>
    match cmd.lookup key with
    | none => (0, some ("the command key of " ++ key ++ " is not exist"))
    | some (.int intVal) => (intVal, none)
    | some _ => (0, some ("the type of command key " ++ key ++ " is not int"))

/-- `Payload.GetCommandInt32`. -/
def GetCommandInt32 (p : Payload) (key : GoString) : Int × Option GoString :=
  match p.command with
  | none => (0, some "the command container is nil")
  | some cmd =>
    match cmd.lookup key with
    | none => (0, some ("the command key of " ++ key ++ " is not exist"))
    | some (.int32 intVal) => (intVal, none)
    | some _ => (0, some ("the type of command key " ++ key ++ " is not int32"))

/-- `Payload.GetCommandInt64`. -/
def GetCommandInt64 (p : Payload) (key : GoString) : Int × Option GoString :=
  match p.command with
  | none => (0, some "the command container is nil")
  | some cmd =>
    match cmd.lookup key with
    | none => (0, some ("the command key of " ++ key ++ " is not exist"))
    | some (.int64 intVal) => (intVal, none)
    | some _ => (0, some ("the type of command key " ++ key ++ " is not int64"))

/-- The type assertion `v.(int)`. -/
def asInt : GoVal → Option Int
  | .int n => some n
  | _ => none

/-- The type assertion `v.(int32)`. -/
def asInt32 : GoVal → Option Int
  | .int32 n => some n
  | _ => none

/-- The type assertion `v.(int64)`. -/
def asInt64 : GoVal → Option Int
  | .int64 n => some n
  | _ => none

/-- Whether none of the type assertions `v.(int)`, `v.(int32)` and `v.(int64)`
succeeds. -/
def noInteger (v : GoVal) : Bool :=
  (asInt v).isNone && (asInt32 v).isNone && (asInt64 v).isNone

/-- Whether no value of a container is of an integer type. -/
def Container.noIntegers (c : Container) : Prop :=
  ∀ m, c = some m → ∀ kv ∈ m, noInteger kv.2 = true

/-- The four outcomes of an integer accessor with results `res` on container
`c` and key `key`: the error `eNil` exactly when the container is nil;
otherwise the error `eMissing` exactly when the key is absent; otherwise the
error `eWrong` exactly when the type assertion `assert` fails; otherwise the
stored integer and no error. The three errors differ from one another, and
with an error the value is 0. -/
def FourOutcomes (c : Container) (key : GoString) (assert : GoVal → Option Int)
    (res : Int × Option GoString) (eNil eMissing eWrong : GoString) : Prop :=
  (res.2 = some eNil ↔ c = none) ∧
  (∀ m, c = some m → (res.2 = some eMissing ↔ m.lookup key = none)) ∧
  (∀ m v, c = some m → m.lookup key = some v → (res.2 = some eWrong ↔ assert v = none)) ∧
  (∀ m v n, c = some m → m.lookup key = some v → assert v = some n → res = (n, none)) ∧
  (res.2 = none ∨ res.2 = some eNil ∨ res.2 = some eMissing ∨ res.2 = some eWrong) ∧
  (res.2 ≠ none → res.1 = 0) ∧
  eNil ≠ eMissing ∧ eNil ≠ eWrong ∧ eMissing ≠ eWrong

/-! ## Base64 (`encoding/base64`, `StdEncoding`)

The standard library is not part of the repository; the two functions the
code calls are written out here after their documented behaviour
(RFC 4648 alphabet, `=` padding required, `\r` and `\n` ignored by the
decoder, trailing padding bits not checked). -/

/-- The alphabet `encodeStd`. -/
def encodeStd : List Char :=
  ['A', 'B', 'C', 'D', 'E', 'F', 'G', 'H', 'I', 'J', 'K', 'L', 'M',
   'N', 'O', 'P', 'Q', 'R', 'S', 'T', 'U', 'V', 'W', 'X', 'Y', 'Z',
   'a', 'b', 'c', 'd', 'e', 'f', 'g', 'h', 'i', 'j', 'k', 'l', 'm',
   'n', 'o', 'p', 'q', 'r', 's', 't', 'u', 'v', 'w', 'x', 'y', 'z',
   '0', '1', '2', '3', '4', '5', '6', '7', '8', '9', '+', '/']

/-- The character of a 6-bit value. -/
def b64Char (i : Nat) : Char := encodeStd.getD i '='

/-- The 6-bit value of a character (`decodeMap`); `none` outside the alphabet. -/
def b64Index (c : Char) : Option Nat :=
  if encodeStd.indexOf c < 64 then some (encodeStd.indexOf c) else none

/-- The byte with the value `n % 256`. -/
def toByte (n : Nat) : Byte := ⟨n % 256, Nat.mod_lt _ (by decide)⟩

/-- `base64.StdEncoding.EncodeToString`. -/
def base64Encode : List Byte → List Char
  | [] => []
  | [a] => [b64Char (a.val / 4), b64Char (a.val % 4 * 16), '=', '=']
  | [a, b] =>
    [b64Char (a.val / 4), b64Char (a.val % 4 * 16 + b.val / 16), b64Char (b.val % 16 * 4), '=']
  | a :: b :: c :: rest =>
    b64Char (a.val / 4) :: b64Char (a.val % 4 * 16 + b.val / 16) ::
      b64Char (b.val % 16 * 4 + c.val / 64) :: b64Char (c.val % 64) :: base64Encode rest

/-- The decoder on input without line breaks: quanta of four characters, the
last of which may end in `=` or `==`; anything else is a `CorruptInputError`
(`none`). -/
def decodeQuanta : List Char → Option (List Byte)
  | [] => some []
  | c0 :: c1 :: c2 :: c3 :: rest =>
    match b64Index c0, b64Index c1 with
    | some i0, some i1 =>
      if c2 = '=' then
        if c3 = '=' ∧ rest = [] then some [toByte (i0 * 4 + i1 / 16)] else none
      else
        match b64Index c2 with
        | none => none
        | some i2 =>
          if c3 = '=' then
            if rest = [] then
              some [toByte (i0 * 4 + i1 / 16), toByte (i1 % 16 * 16 + i2 / 4)]
            else none
          else
            match b64Index c3 with
            | none => none
            | some i3 =>
              match decodeQuanta rest with
              | none => none
              | some out =>
                some (toByte (i0 * 4 + i1 / 16) :: toByte (i1 % 16 * 16 + i2 / 4) ::
                  toByte (i2 % 4 * 64 + i3) :: out)
    | _, _ => none
  | _ => none

/-- `base64.StdEncoding.DecodeString`: line breaks are skipped. -/
def base64Decode (s : List Char) : Option (List Byte) :=
  decodeQuanta (s.filter (fun c => c ≠ '\r' ∧ c ≠ '\n'))

/-- The conversion `string(b)` of one byte, read as the character of that code. -/
def byteToChar (b : Byte) : Char := Char.ofNat b.val

/-- The byte of a character of the base64 text. -/
def charToByte (c : Char) : Byte := toByte c.toNat

/-- The quote byte. -/
def quote : Byte := 0x22

/-! ## Decoding the result -/

/-- `Payload.UnmarshalResult`, over the decoder `unmarshal` standing for
`json.Unmarshal(data, v)` (the new target and the error). A nil result returns
nil at once. `p.result[0]` panics on a result of length 0; when that byte is a
quote, `p.result` is assigned `p.result[1:len(p.result)-1]`, which panics for
length 1. The text is then base64-decoded: on an error the (stripped) bytes
themselves are handed to `unmarshal`, else the decoded bytes. -/
def UnmarshalResult {T E : Type} (unmarshal : List Byte → T → T × Option E)
    (p : Payload) (v : T) : Option (Payload × T × Option E) :=
  match p.result with
  | none => some (p, v, none)
  | some [] => none
  | some (b0 :: rest) =>
    let stripped : Option (List Byte) :=
      if b0 = quote then
        if 1 ≤ (b0 :: rest).length - 1 then
          some (((b0 :: rest).take ((b0 :: rest).length - 1)).drop 1)
        else none
      else some (b0 :: rest)
    match stripped with
    | none => none
    | some r =>
      let p1 : Payload := { p with result := some r }
      match base64Decode (r.map byteToChar) with
      | none => some (p1, unmarshal r v)
      | some dst => some (p1, unmarshal dst v)

/-- `Payload.GetResult`. -/
def GetResult (p : Payload) : Option (List Byte) := p.result

/-! ## JSON documents

The text layer of `encoding/json` (rendering a value to bytes and parsing bytes
to a value) is not modelled: a wire document is held as the JSON value the
parser reads from it. The encoder and the decoder are written out after the
documented behaviour of `json.Marshal` and `json.Unmarshal` on the types the
code passes them.

`json.Marshal` writes the members of a map in the increasing order of the
keys; the encoders below write them in the order of the association list, so
the document of a map is the one `json.Marshal` writes when the list has its
keys in increasing order. The order matters only where two members of one
object have the same name. -/

/-- A JSON value as read from a document. An object is the list of its members
in the order of the document, and a name may occur more than once. Text is
Unicode text: the parser has replaced what is not valid UTF-8 by U+FFFD. A
number is its literal (see `JNum`). -/
inductive Json where
  | null
  | bool (b : Bool)
  | num (n : JNum)
  | str (s : String)
  | arr (l : List Json)
  | obj (l : List (String × Json))

/-- The value of the first member named `k` of an object. -/
def Json.field (j : Json) (k : String) : Option Json :=
  match j with
  | .obj l => l.lookup k
  | _ => none

/-- The outcome of `json.Unmarshal` in this development: the decoded value, an
error (`UnmarshalTypeError` and the like; the decoder of the library goes on
after the first one and returns it at the end), or a document on which the
decoding is not modelled. -/
inductive Decode (α : Type) where
  | ok (a : α)
  | error
  | outside

/-- The least magnitude that rounds to an infinity of `float64`:
`2^1024 - 2^970`, half a unit in the last place above the largest value. -/
def float64Bound : Nat :=
  179769313486231580793728971405303415079934132710037826936173778980444968292764750946649017977587207096330286416692887910946555547851940402630657488671505820681908902000708383676273854845817711531764475730270069855571366959622842914819860834936475292719074168444365510704342711559699508093042880177904174497792

/-- Whether `strconv.ParseFloat(lit, 64)` fails with a range error: the value
of the literal rounds to an infinity. -/
def floatOverflows (n : JNum) : Bool :=
  if 0 ≤ n.exp then decide (float64Bound ≤ n.mant.natAbs * 10 ^ n.exp.toNat)
  else decide (float64Bound * 10 ^ (-n.exp).toNat ≤ n.mant.natAbs)

/-- `json.Marshal` of a `[]string`. -/
def marshalStrings (l : List GoString) : List Json :=
  l.map fun s => Json.str (toValidUTF8 s)

/-- `json.Marshal` of the entries of a `map[string]string`. -/
def marshalStrEntries (m : List (GoString × GoString)) : List (String × Json) :=
  m.map fun kv => (toValidUTF8 kv.1, Json.str (toValidUTF8 kv.2))

mutual
/-- `json.Marshal` of an `interface{}` value. An integer is written as its
decimal literal, a `float64` as the literal `fmtFloat` gives (the shortest
literal of the `float64` nearest to the literal that identifies the value, as
`strconv` formats it); in a string and in a key every byte that is not valid
UTF-8 is replaced by U+FFFD; a nil slice and a nil map are written as null; a
channel is an `UnsupportedTypeError` (`none`). -/
def marshalValue (fmtFloat : JNum → JNum) : GoVal → Option Json
  | .nil => some .null
  | .bool b => some (.bool b)
  | .int n => some (.num ⟨n, 0⟩)
  | .int32 n => some (.num ⟨n, 0⟩)
  | .int64 n => some (.num ⟨n, 0⟩)
  | .float64 lit => some (.num (fmtFloat lit))
  | .string s => some (.str (toValidUTF8 s))
  | .slice l =>
    match marshalValues fmtFloat l with
    | some js => some (.arr js)
    | none => none
  | .nilSlice => some .null
  | .map m =>
    match marshalEntries fmtFloat m with
    | some js => some (.obj js)
    | none => none
  | .nilMap => some .null
  | .strSlice none => some .null
  | .strSlice (some l) => some (.arr (marshalStrings l))
  | .strMap none => some .null
  | .strMap (some m) => some (.obj (marshalStrEntries m))
  | .chan => none
/-- `json.Marshal` of the elements of a slice. -/
def marshalValues (fmtFloat : JNum → JNum) : List GoVal → Option (List Json)
  | [] => some []
  | v :: vs =>
    match marshalValue fmtFloat v, marshalValues fmtFloat vs with
    | some j, some js => some (j :: js)
    | _, _ => none
/-- `json.Marshal` of the entries of a map. -/
def marshalEntries (fmtFloat : JNum → JNum) :
    List (GoString × GoVal) → Option (List (String × Json))
  | [] => some []
  | (k, v) :: vs =>
    match marshalValue fmtFloat v, marshalEntries fmtFloat vs with
    | some j, some js => some ((toValidUTF8 k, j) :: js)
    | _, _ => none
end

mutual
/-- `json.Unmarshal` into an `interface{}`: null is nil, a number a `float64`
(an error when the literal is out of the range of the type), an array a
`[]interface{}`, an object a `map[string]interface{}`. -/
def ofJson : Json → Decode GoVal
  | .null => .ok .nil
  | .bool b => .ok (.bool b)
  | .num n => if floatOverflows n then .error else .ok (.float64 n)
  | .str s => .ok (.string (gs s))
  | .arr l =>
    match ofJsonList l with
    | .ok vs => .ok (.slice vs)
    | .error => .error
    | .outside => .outside
  | .obj l =>
    match ofJsonFields l [] with
    | .ok m => .ok (.map m)
    | .error => .error
    | .outside => .outside
/-- `json.Unmarshal` of the elements of an array. -/
def ofJsonList : List Json → Decode (List GoVal)
  | [] => .ok []
  | j :: js =>
    match ofJson j, ofJsonList js with
    | .ok v, .ok vs => .ok (v :: vs)
    | .outside, _ => .outside
    | _, .outside => .outside
    | _, _ => .error
/-- `json.Unmarshal` of the members of an object into the map `m`: each member
in turn is decoded into a new value and assigned under its name, so of the
members of one name the last one stays. -/
def ofJsonFields : List (String × Json) → List (GoString × GoVal) →
    Decode (List (GoString × GoVal))
  | [], m => .ok m
  | (k, j) :: js, m =>
    match ofJson j with
    | .ok v => ofJsonFields js (mapSet m (gs k) v)
    | .error => .error
    | .outside => .outside
end

mutual
/-- Whether every number literal of a JSON value is one that decoding into a
`float64` and encoding again gives back. -/
def stableNums (fmtFloat : JNum → JNum) : Json → Bool
  | .null => true
  | .bool _ => true
  | .num n => decide (fmtFloat n = n) && !floatOverflows n
  | .str _ => true
  | .arr l => stableNumsList fmtFloat l
  | .obj l => stableNumsFields fmtFloat l
/-- `stableNums` on the elements of an array. -/
def stableNumsList (fmtFloat : JNum → JNum) : List Json → Bool
  | [] => true
  | j :: js => stableNums fmtFloat j && stableNumsList fmtFloat js
/-- `stableNums` on the members of an object. -/
def stableNumsFields (fmtFloat : JNum → JNum) : List (String × Json) → Bool
  | [] => true
  | (_, j) :: js => stableNums fmtFloat j && stableNumsFields fmtFloat js
end

mutual
/-- Whether in every object of a JSON value the names of the members are
pairwise different. -/
def distinctNames : Json → Bool
  | .null => true
  | .bool _ => true
  | .num _ => true
  | .str _ => true
  | .arr l => distinctNamesList l
  | .obj l => distinctNamesFields l []
/-- `distinctNames` on the elements of an array. -/
def distinctNamesList : List Json → Bool
  | [] => true
  | j :: js => distinctNames j && distinctNamesList js
/-- `distinctNames` on the members of an object, after the names `seen`. -/
def distinctNamesFields : List (String × Json) → List String → Bool
  | [], _ => true
  | (k, j) :: js, seen => !seen.contains k && distinctNames j && distinctNamesFields js (k :: seen)
end

mutual
/-- Whether every number literal of a JSON value is in the range of `float64`.
It is so of every document `json.Marshal` writes: a Go integer has at most 64
bits and a `float64` that is written is finite. -/
def inRangeNums : Json → Bool
  | .null => true
  | .bool _ => true
  | .num n => !floatOverflows n
  | .str _ => true
  | .arr l => inRangeNumsList l
  | .obj l => inRangeNumsFields l
/-- `inRangeNums` on the elements of an array. -/
def inRangeNumsList : List Json → Bool
  | [] => true
  | j :: js => inRangeNums j && inRangeNumsList js
/-- `inRangeNums` on the members of an object. -/
def inRangeNumsFields : List (String × Json) → Bool
  | [] => true
  | (_, j) :: js => inRangeNums j && inRangeNumsFields js
end
/-! ## The wire struct -/

/-- The anonymous struct of the field `Payload` of `Msg`. -/
structure MsgPayload where
  Code : U64
  Message : GoString
  Context : Container
  Command : Container
  Result : Option (List Byte)

/-- The local struct `Msg` of `Serialize` (and `tmp` of `FromJson`). -/
structure Msg where
  Id : GoString
  Entrance : MetadataPtr
  Graph : Option (List MetadataPtr)
  Chain : Option (List GoString)
  Payload : MsgPayload

/-- The zero value of the payload struct. -/
def MsgPayload.zero : MsgPayload := ⟨0, "", none, none, none⟩

/-- The zero value of `Msg`. -/
def Msg.zero : Msg := ⟨"", none, none, none, MsgPayload.zero⟩

/-! ## Encoding -/

/-- `json.Marshal` of a `*ComponentMetadata`: null for nil, else the object with
the members `name`, `mq_type`, `in`. Here and below a string is written with
every byte that is not valid UTF-8 replaced by U+FFFD. -/
def marshalMetadataPtr : MetadataPtr → Json
  | none => .null
  | some m =>
    .obj [("name", .str (toValidUTF8 m.Name)), ("mq_type", .str (toValidUTF8 m.MQType)),
      ("in", .str (toValidUTF8 m.In))]

/-- `json.Marshal` of a `[]*ComponentMetadata`: null for the nil slice. -/
def marshalGraph : Option (List MetadataPtr) → Json
  | none => .null
  | some l => .arr (l.map marshalMetadataPtr)

/-- `json.Marshal` of a `[]string`: null for the nil slice. -/
def marshalChain : Option (List GoString) → Json
  | none => .null
  | some l => .arr (marshalStrings l)

/-- `json.Marshal` of a `map[string]interface{}`: null for the nil map. -/
def marshalContainer (fmtFloat : JNum → JNum) : Container → Option Json
  | none => some .null
  | some m =>
    match marshalEntries fmtFloat m with
    | some js => some (.obj js)
    | none => none

/-- `json.Marshal` of a `[]byte`: null for the nil slice, else a JSON string
holding the base64 text of the bytes. -/
def marshalBytes : Option (List Byte) → Json
  | none => .null
  | some b => .str (String.mk (base64Encode b))

/-- `json.Marshal` of a `uint64`. -/
def marshalU64 (n : U64) : Json := .num ⟨(n.val : Int), 0⟩

/-- `json.Marshal(tmp)` for `tmp` of type `*Msg`; `none` is an error. -/
def marshalMsg (fmtFloat : JNum → JNum) (tmp : Msg) : Option Json :=
  match marshalContainer fmtFloat tmp.Payload.Context,
      marshalContainer fmtFloat tmp.Payload.Command with
  | some ctx, some cmd =>
    some (.obj [("id", .str (toValidUTF8 tmp.Id)),
      ("entrance", marshalMetadataPtr tmp.Entrance),
      ("graph", marshalGraph tmp.Graph),
      ("chain", marshalChain tmp.Chain),
      ("payload", .obj [("code", marshalU64 tmp.Payload.Code),
        ("message", .str (toValidUTF8 tmp.Payload.Message)),
        ("context", ctx),
        ("command", cmd),
        ("result", marshalBytes tmp.Payload.Result)])])
  | _, _ => none

/-- `ComponentMessage.Serialize`: the fields are copied into `tmp`, those of the
payload only when `p.Payload != nil`, and `tmp` is marshalled. The result is
the wire document, or `none` for an error. -/
def Serialize (fmtFloat : JNum → JNum) (p : ComponentMessage) : Option Json :=
  let tmp : Msg := { Msg.zero with Id := p.Id, Entrance := p.entrance, Graph := p.graph,
                                   Chain := p.chain }
  let tmp : Msg :=
    match p.Payload with
    | some pl => { tmp with Payload := ⟨pl.Code, pl.Message, pl.context, pl.command, pl.result⟩ }
    | none => tmp
  marshalMsg fmtFloat tmp

/-- The value of the wire member `payload.result`. -/
def wireResult (w : Json) : Option Json :=
  match w.field "payload" with
  | some pl => pl.field "result"
  | none => none

/-- The value of the wire member `payload.context`. -/
def wireContext (w : Json) : Option Json :=
  match w.field "payload" with
  | some pl => pl.field "context"
  | none => none

/-- The value of the wire member `payload.command`. -/
def wireCommand (w : Json) : Option Json :=
  match w.field "payload" with
  | some pl => pl.field "command"
  | none => none

/-- The Go string `encoding/json` reads back from the text it has written for
`s`: `s` with every byte that is not valid UTF-8 replaced by U+FFFD. -/
def coerceUTF8 (s : GoString) : GoString := gs (toValidUTF8 s)

/-- A `ComponentMetadata` with its three strings read back from the wire. -/
def coerceMetadata (m : ComponentMetadata) : ComponentMetadata :=
  ⟨coerceUTF8 m.Name, coerceUTF8 m.MQType, coerceUTF8 m.In⟩

/-- A formatter that agrees with `strconv` on the literals of the examples:
9007199254740993 (`2^53 + 1`) is not a `float64`, the nearest one is `2^53`,
which is written 9007199254740992; the other literals used there are written
as they are. -/
def fmtFloatExample (t : JNum) : JNum :=
  if t = ⟨9007199254740993, 0⟩ then ⟨9007199254740992, 0⟩ else t
/-! ## Decoding

`json.Unmarshal` into a struct reads the members of the object in the order of
the document. The field of a member is the one whose name is the name of the
member, compared without regard to case; a member of no field is skipped. The
value of the member is decoded into the field as it stands at that point, so a
later member of the same field is decoded on top of what an earlier one left:
a string or number is overwritten, a null leaves a string, a number and a
struct as they are and sets a pointer, a map and a slice to nil, an object is
decoded into the struct or map at hand (allocated when nil). -/

/-- The `uint64` with the value `n % 2^64`. -/
def toU64 (n : Nat) : U64 := ⟨n % 18446744073709551616, Nat.mod_lt _ (by decide)⟩

/-- The folding of one character under which `encoding/json` compares names:
an upper-case ASCII letter is its lower-case letter, and the Kelvin sign
(U+212A) and the long s (U+017F), the only other characters that fold to an
ASCII letter, are `k` and `s`. -/
def foldChar (c : Char) : Char :=
  if 65 ≤ c.toNat ∧ c.toNat ≤ 90 then Char.ofNat (c.toNat + 32)
  else if c.toNat = 0x212A then Char.ofNat 107
  else if c.toNat = 0x017F then Char.ofNat 115
  else c

/-- Whether the member name `name` is that of the field with the (lower-case
ASCII) JSON name `field`. -/
def nameMatches (name : String) (field : String) : Bool :=
  name.data.map foldChar == field.data

/-- The members of an object decoded one after the other into the value `s`,
`step` decoding one member. -/
def decodeMembers {σ : Type} (step : σ → String → Json → Decode σ) :
    List (String × Json) → σ → Decode σ
  | [], s => .ok s
  | (k, j) :: rest, s =>
    match step s k j with
    | .ok s1 => decodeMembers step rest s1
    | .error => .error
    | .outside => .outside

/-- `json.Unmarshal` into a `string` that holds `cur`. -/
def decodeString (cur : GoString) : Json → Decode GoString
  | .null => .ok cur
  | .str s => .ok (gs s)
  | _ => .error

/-- `json.Unmarshal` into a `uint64` that holds `cur`: the literal is to be a
sequence of digits in the range of the type (`strconv.ParseUint`). -/
def decodeU64 (cur : U64) : Json → Decode U64
  | .null => .ok cur
  | .num n =>
    if n.exp = 0 ∧ 0 ≤ n.mant ∧ n.mant < 18446744073709551616 then .ok (toU64 n.mant.toNat)
    else .error
  | _ => .error

/-- One member of an object decoded into a `ComponentMetadata`. -/
def decodeMetadataMember (cur : ComponentMetadata) (name : String) (j : Json) :
    Decode ComponentMetadata :=
  if nameMatches name "name" then
    match decodeString cur.Name j with
    | .ok s => .ok { cur with Name := s }
    | .error => .error
    | .outside => .outside
  else if nameMatches name "mq_type" then
    match decodeString cur.MQType j with
    | .ok s => .ok { cur with MQType := s }
    | .error => .error
    | .outside => .outside
  else if nameMatches name "in" then
    match decodeString cur.In j with
    | .ok s => .ok { cur with In := s }
    | .error => .error
    | .outside => .outside
  else .ok cur

/-- `json.Unmarshal` into a `*ComponentMetadata` that holds `cur`: an object is
decoded into the struct pointed to, a new zero struct when the pointer is nil. -/
def decodeMetadataPtr (cur : MetadataPtr) : Json → Decode MetadataPtr
  | .null => .ok none
  | .obj l =>
    match decodeMembers decodeMetadataMember l (cur.getD ⟨[], [], []⟩) with
    | .ok m => .ok (some m)
    | .error => .error
    | .outside => .outside
  | _ => .error

/-- The elements of an array decoded into the elements of a new slice, `elem`
decoding one element into the zero value. -/
def decodeElems {α : Type} (elem : Json → Decode α) : List Json → Decode (List α)
  | [] => .ok []
  | j :: js =>
    match elem j, decodeElems elem js with
    | .ok a, .ok as => .ok (a :: as)
    | .outside, _ => .outside
    | _, .outside => .outside
    | _, _ => .error

/-- `json.Unmarshal` into a slice that holds `cur`. A null sets the nil slice,
the empty array a new empty slice. The elements of an array are decoded into
the elements of the slice at hand as far as it has room, and into new zero
elements beyond: for a nil or empty `cur` all elements are new; a second
non-empty array for a slice that already has elements is not modelled
(`outside`). -/
def decodeSlice {α : Type} (elem : Json → Decode α) (cur : Option (List α)) :
    Json → Decode (Option (List α))
  | .null => .ok none
  | .arr [] => .ok (some [])
  | .arr (j :: js) =>
    match cur with
    | some (_ :: _) => .outside
    | _ =>
      match decodeElems elem (j :: js) with
      | .ok l => .ok (some l)
      | .error => .error
      | .outside => .outside
  | _ => .error

/-- `json.Unmarshal` into a `[]*ComponentMetadata` that holds `cur`. -/
def decodeGraph (cur : Option (List MetadataPtr)) (j : Json) :
    Decode (Option (List MetadataPtr)) :=
  decodeSlice (decodeMetadataPtr none) cur j

/-- `json.Unmarshal` into a `[]string` that holds `cur`. -/
def decodeChain (cur : Option (List GoString)) (j : Json) : Decode (Option (List GoString)) :=
  decodeSlice (decodeString []) cur j

/-- `json.Unmarshal` into a `map[string]interface{}` that holds `cur`: the
members of an object are assigned into the map at hand, a new map when it is
nil. -/
def decodeContainer (cur : Container) : Json → Decode Container
  | .null => .ok none
  | .obj l =>
    match ofJsonFields l (cur.getD []) with
    | .ok m => .ok (some m)
    | .error => .error
    | .outside => .outside
  | _ => .error

/-- One element of a `[]byte` given as a JSON array of numbers, decoded into the
zero byte. -/
def decodeByte : Json → Decode Byte
  | .null => .ok 0
  | .num n =>
    if n.exp = 0 ∧ 0 ≤ n.mant ∧ n.mant < 256 then .ok (toByte n.mant.toNat) else .error
  | _ => .error

/-- `json.Unmarshal` into a `[]byte` that holds `cur`: a JSON string is
base64-decoded into a new slice (an error of the base64 decoder is an error of
`Unmarshal`); an array is decoded as into any slice. -/
def decodeBytes (cur : Option (List Byte)) : Json → Decode (Option (List Byte))
  | .str s =>
    match base64Decode s.data with
    | some b => .ok (some b)
    | none => .error
  | j => decodeSlice decodeByte cur j

/-- One member of an object decoded into the payload struct of `tmp`. -/
def decodePayloadMember (cur : MsgPayload) (name : String) (j : Json) : Decode MsgPayload :=
  if nameMatches name "code" then
    match decodeU64 cur.Code j with
    | .ok c => .ok { cur with Code := c }
    | .error => .error
    | .outside => .outside
  else if nameMatches name "message" then
    match decodeString cur.Message j with
    | .ok s => .ok { cur with Message := s }
    | .error => .error
    | .outside => .outside
  else if nameMatches name "context" then
    match decodeContainer cur.Context j with
    | .ok c => .ok { cur with Context := c }
    | .error => .error
    | .outside => .outside
  else if nameMatches name "command" then
    match decodeContainer cur.Command j with
    | .ok c => .ok { cur with Command := c }
    | .error => .error
    | .outside => .outside
  else if nameMatches name "result" then
    match decodeBytes cur.Result j with
    | .ok r => .ok { cur with Result := r }
    | .error => .error
    | .outside => .outside
  else .ok cur

/-- `json.Unmarshal` into the payload struct of `tmp` that holds `cur`. -/
def decodeMsgPayload (cur : MsgPayload) : Json → Decode MsgPayload
  | .null => .ok cur
  | .obj l => decodeMembers decodePayloadMember l cur
  | _ => .error

/-- One member of the document decoded into `tmp`. -/
def decodeMsgMember (cur : Msg) (name : String) (j : Json) : Decode Msg :=
  if nameMatches name "id" then
    match decodeString cur.Id j with
    | .ok s => .ok { cur with Id := s }
    | .error => .error
    | .outside => .outside
  else if nameMatches name "entrance" then
    match decodeMetadataPtr cur.Entrance j with
    | .ok e => .ok { cur with Entrance := e }
    | .error => .error
    | .outside => .outside
  else if nameMatches name "graph" then
    match decodeGraph cur.Graph j with
    | .ok g => .ok { cur with Graph := g }
    | .error => .error
    | .outside => .outside
  else if nameMatches name "chain" then
    match decodeChain cur.Chain j with
    | .ok c => .ok { cur with Chain := c }
    | .error => .error
    | .outside => .outside
  else if nameMatches name "payload" then
    match decodeMsgPayload cur.Payload j with
    | .ok p => .ok { cur with Payload := p }
    | .error => .error
    | .outside => .outside
  else .ok cur

/-- `json.Unmarshal(jsonStr, &tmp)` for the zero-valued `tmp`. -/
def unmarshalMsg : Json → Decode Msg
  | .null => .ok Msg.zero
  | .obj l => decodeMembers decodeMsgMember l Msg.zero
  | _ => .error

/-- `ComponentMessage.FromJson`: the receiver after the call and the error
returned. On a decoding error the error is returned and the receiver is left
as it is; otherwise every field is assigned from `tmp`, `Payload` always to a
newly allocated payload, and nil is returned. -/
def FromJson (p : ComponentMessage) (jsonStr : Json) :
    Decode (ComponentMessage × Option GoString) :=
  match unmarshalMsg jsonStr with
  | .error => .ok (p, some (gs "json: cannot unmarshal"))
  | .outside => .outside
  | .ok tmp =>
    .ok ({ Id := tmp.Id, entrance := tmp.Entrance, graph := tmp.Graph, chain := tmp.Chain,
           Payload := some ⟨tmp.Payload.Code, tmp.Payload.Message, tmp.Payload.Context,
             tmp.Payload.Command, tmp.Payload.Result⟩ }, none)

/-- The payload fields `Serialize` writes to the wire: those of `p.Payload`, and
the zero values left in `tmp` when `p.Payload` is nil. -/
def serializedPayload (p : ComponentMessage) : Payload :=
  match p.Payload with
  | some pl => pl
  | none => ⟨0, [], none, none, none⟩
/-! ## String-array accessors -/

/-- The loop `for i, vStr := range vInterfaces` of the string-array accessors,
from index `i` on with the strings appended so far: the index of the first
element that is not a string (`error`), or all the strings (`ok`). -/
def collectStrings : List GoVal → Nat → List GoString → Except Nat (List GoString)
  | [], _, tmpArray => .ok tmpArray
  | .string str :: rest, i, tmpArray => collectStrings rest (i + 1) (tmpArray ++ [str])
  | _ :: _, i, _ => .error i

/-- The elements a `range` over the slice of a successful type assertion
`v.([]interface{})` visits: those of the slice, none for the nil slice; `none`
when the assertion fails. -/
def ifaceElems (v : GoVal) : Option (List GoVal) :=
  match asIfaceSlice v with
  | some (some l) => some l
  | some none => some []
  | none => none

/-- `Payload.GetContextStringArray`: `(vals, err)`; `vals` is `none` for the nil
slice. On an element that is not a string the function returns at once, with
`vals` still nil. -/
def GetContextStringArray (p : Payload) (key : GoString) :
    Option (List GoString) × Option GoString :=
  match p.context with
  | none => (none, some "the context container is nil")
  | some ctx =>
    match ctx.lookup key with
    | none => (none, some ("the context key of " ++ key ++ " is not exist"))
    | some v =>
      match ifaceElems v with
      | some vInterfaces =>
        match collectStrings vInterfaces 0 [] with
        | .ok tmpArray => (some tmpArray, none)
        | .error i =>
          (none, some ("the context key of " ++ key ++ "\x27s value type at index of " ++
            gs (toString i) ++ " is not string"))
      | none => (none, some ("the type of context key " ++ key ++ " is not array"))

/-- `Payload.GetCommandStringArray`. -/
def GetCommandStringArray (p : Payload) (key : GoString) :
    Option (List GoString) × Option GoString :=
  match p.command with
  | none => (none, some "the command container is nil")
  | some cmd =>
    match cmd.lookup key with
    | none => (none, some ("the command key of " ++ key ++ " is not exist"))
    | some v =>
      match ifaceElems v with
      | some vInterfaces =>
        match collectStrings vInterfaces 0 [] with
        | .ok tmpArray => (some tmpArray, none)
        | .error i =>
          (none, some ("the command key of " ++ key ++ "\x27s value type at index of " ++
            gs (toString i) ++ " is not string"))
      | none => (none, some ("the type of command key " ++ key ++ " is not array"))

/-- The outcomes of a string-array accessor with results `res` on the stored
value `v`: it succeeds exactly when `v` is a `[]interface{}` whose elements
are strings only, and then returns those strings in order; a value of another
type (a `[]string` among them) gives the error `eNotArray`; a `[]interface{}`
whose first element that is not a string stands at index i (after i strings)
gives the error `eIndex i`; with an error no list is returned. -/
def StringArrayOutcomes (v : GoVal) (res : Option (List GoString) × Option GoString)
    (eNotArray : GoString) (eIndex : Nat → GoString) : Prop :=
  (res.2 = none ↔ ∃ ss : List GoString, ifaceElems v = some (ss.map GoVal.string)) ∧
  (∀ ss : List GoString, ifaceElems v = some (ss.map GoVal.string) →
    res = (some ss, none) ∧ ∀ out, res.1 = some out → out.length = ss.length) ∧
  (ifaceElems v = none → res = (none, some eNotArray)) ∧
  (∀ (ss : List GoString) (x : GoVal) (rest : List GoVal),
    ifaceElems v = some (ss.map GoVal.string ++ x :: rest) → (∀ s, x ≠ .string s) →
      res = (none, some (eIndex ss.length))) ∧
  (res.2 ≠ none → res.1 = none)
/-! ## Creating a message -/

/-- Modelled from the spec: `utils.IsStruct` of package `casper/utils`, whose
source is not at hand. The spec accepts "a single JSON-object-shaped value":
the value has the shape object. -/
def IsStruct (v : GoVal) : Bool :=
  decide (v.shape = .object)

/-- Modelled from the spec: `utils.IsStructArray` of package `casper/utils`,
whose source is not at hand. The spec accepts "an array of JSON-object-shaped
values": the value is a sequence all of whose elements have the shape object
(the elements of a `[]string` are strings). -/
def IsStructArray (v : GoVal) : Bool :=
  match v with
  | .slice l => l.all IsStruct
  | .nilSlice => true
  | .strSlice none => true
  | .strSlice (some l) => l.isEmpty
  | _ => false

/-- `Payload.setResult`, over `render`, the text layer of `json.Marshal` (the
bytes of a JSON value). A nil `v` clears the result; a `v` that is neither a
struct nor a struct array is refused with an error, the result untouched;
otherwise `p.result, err = json.Marshal(v)`, which on an error leaves the
result nil. -/
def setResult (fmtFloat : JNum → JNum) (render : Json → List Byte) (p : Payload) (v : GoVal) :
    Payload × Option GoString :=
  match v with
  | .nil => ({ p with result := none }, none)
  | _ =>
    if !IsStruct v && !IsStructArray v then
      (p, some "worker return must struct or []struct")
    else
      match marshalValue fmtFloat v with
      | some j => ({ p with result := some (render j) }, none)
      | none => ({ p with result := none }, some "json: unsupported type")

/-- `NewComponentMessage`, over the outcome `newV4` of `uuid.NewV4()` (the text
of the identifier, or `none` for its error). With an identifier the message is
built with code 0, message `OK`, empty allocated context and command, nil graph,
chain and result, and is returned next to the error of `setResult(result)`. -/
def NewComponentMessage (newV4 : Option GoString) (fmtFloat : JNum → JNum)
    (render : Json → List Byte) (entrance : MetadataPtr) (result : GoVal) :
    Option ComponentMessage × Option GoString :=
  match newV4 with
  | none => (none, some "uuid: cannot generate")
  | some msgId =>
    let payload : Payload := ⟨0, "OK", some [], some [], none⟩
    let r := setResult fmtFloat render payload result
    (some ⟨msgId, entrance, none, none, some r.1⟩, r.2)

/-! ## The HTTP handler (`handler.go`)

One execution of the function `handle` returns is modelled by the sequence of
its effects on its collaborators, in the order they happen. What the
collaborators answer is the input of the execution. Logging is left out. The
texts the handler only passes on (header value, urls, message of the reply)
are held as text.

`handler.go` is written against another version of the message API
(`NewComponentMessage()` without arguments, the exported fields `ID` and
`Payload.Result`). The call is read as `NewComponentMessage(nil, nil)` of
`component_message.go`, the only creation code of the repository, `ID` as `Id`
and `Payload.Result` as `result`. -/

/-- The payload received on the reply channel. -/
structure ReplyPayload where
  Code : U64
  Message : String
deriving DecidableEq, Repr

/-- The outcome of the `select`: the timer fires first, or a `*Payload` (nil or
not) is received on the channel. -/
inductive Reply where
  | timeout
  | load (l : Option ReplyPayload)
deriving DecidableEq, Repr

/-- What one execution of the handler gets from its collaborators. -/
structure HandlerRun where
  /-- `r.Header.Get(REQ_X_API)`. -/
  apiName : String
  /-- `p.GetApi(apiName)`: nil, or the port, given by the urls of its `OutPort`. -/
  port : Option (List String)
  /-- `ioutil.ReadAll(r.Body)`: the body, or `none` for an error. -/
  body : Option (List Byte)
  /-- `uuid.NewV4()` inside `NewComponentMessage()`: the text of the identifier,
  or `none` for an error. -/
  newV4 : Option GoString
  /-- `componentMsg.Serialize()`: the bytes, or `none` for an error. -/
  serialized : Option (List Byte)
  /-- The outcome of the `select`. -/
  reply : Reply

/-- The effects of the handler. -/
inductive Event where
  /-- `http.NotFound(w, r)`. -/
  | notFound
  /-- `w.WriteHeader(status)`. -/
  | writeHeader (status : Nat)
  /-- `w.Write` of a fixed text. -/
  | write (text : String)
  /-- `w.Write` of the marshalled `Response` built from the received payload. -/
  | writeResponse (code : U64) (message : String)
  /-- `p.AddRequest(id)`. -/
  | addRequest (id : GoString)
  /-- `p.DelRequest(id)`. -/
  | delRequest (id : GoString)
  /-- `close(ch)` of the channel `AddRequest(id)` returned. -/
  | closeChan (id : GoString)
  /-- `port.OutPort[0].socket.SendMessage` of the serialized message. -/
  | sendMessage (url : String) (msg : List Byte)
  /-- A runtime panic (nil dereference, index out of range). -/
  | panic
deriving DecidableEq, Repr

/-- The call `NewComponentMessage()` of the handler: the message (nil for
`none`) and the error. -/
def createMessage (r : HandlerRun) : Option ComponentMessage × Option GoString :=
  NewComponentMessage r.newV4 (fun t => t) (fun _ => []) none .nil

/-- The handler function returned by `handle(p)`. An empty `X-API` header or an
unknown api gives 404, an unreadable body 400. The error of
`NewComponentMessage()` is assigned to `_`; `componentMsg.Payload.Result =
reqBody` panics on a nil message and on a nil `Payload`. After `AddRequest`,
`defer p.DelRequest(id)` and then `defer close(ch)` are registered: deferred
calls run last-in first-out when the function returns or panics, so
`close(ch)` runs first and `DelRequest` after it. A serialization error gives
500 and returns; else the message is sent to `port.OutPort[0]` (a panic
without out ports) and the `select` waits for the reply or the timeout. -/
def handle (r : HandlerRun) : List Event :=
  if r.apiName = "" then [.notFound]
  else
    match r.port with
    | none => [.notFound]
    | some outPort =>
      match r.body with
      | none => [.writeHeader 400, .write "Read request body error"]
      | some _ =>
        match (createMessage r).1 with
        | none => [.panic]
        | some componentMsg =>
          match componentMsg.Payload with
          | none => [.panic]
          | some _ =>
            let id := componentMsg.Id
            let deferred : List Event := [.closeChan id, .delRequest id]
            let rest : List Event :=
              match r.serialized with
              | none => [.writeHeader 500, .write "Service Internal Error"]
              | some msgBytes =>
                match outPort with
                | [] => [.panic]
                | url :: _ =>
                  .sendMessage url msgBytes ::
                    match r.reply with
                    | .timeout =>
                      [.writeHeader 500, .write "Couldn\x27t process request in a given time"]
                    | .load none => [.panic]
                    | .load (some load) => [.writeResponse load.Code load.Message]
            .addRequest id :: rest ++ deferred

/-- Modelled from the spec: the pending-request registry of `App` (`AddRequest`,
`DelRequest`), whose source is not at hand. `Register` stores a channel under
the id, `Deregister` removes the entry and does not close the channel. The
state keeps the ids that have an entry and the ids whose channel is closed. -/
structure Registry where
  registered : List GoString
  closed : List GoString
deriving DecidableEq, Repr

/-- The effect of one event on the registry. -/
def Registry.apply (s : Registry) : Event → Registry
  | .addRequest id => { s with registered := id :: s.registered }
  | .delRequest id => { s with registered := s.registered.filter (fun x => x ≠ id) }
  | .closeChan id => { s with closed := id :: s.closed }
  | _ => s

/-- The registry after a sequence of events, from the empty registry. -/
def registryAfter (t : List Event) : Registry :=
  t.foldl Registry.apply ⟨[], []⟩

/-! ## Theorems: routing graph -/

theorem PopGraph_graph_cons (p : ComponentMessage) (h : MetadataPtr) (t : List MetadataPtr)
    (hg : p.graph = some (h :: t)) :
    (PopGraph p).1.graph = some t ∧ (PopGraph p).2 = t.headD none := by
  unfold PopGraph
  simp only [hg]
  cases t <;> simp

theorem afterPops_graph (k : Nat) :
    ∀ (p : ComponentMessage) (hs : List MetadataPtr), p.graph = some hs → k ≤ hs.length →
      (afterPops k p).graph = some (hs.drop k) := by
  induction k with
  | zero => intro p hs hg _; simpa [afterPops] using hg
  | succ k ih =>
    intro p hs hg hk
    cases hs with
    | nil => simp at hk
    | cons h t =>
      have h1 := (PopGraph_graph_cons p h t hg).1
      have := ih (PopGraph p).1 t h1 (by simpa using hk)
      simpa [afterPops] using this

/-- C1: for a graph of n >= 1 hops h_0..h_(n-1), `TopGraph` before any pop
returns h_0, the k-th successive `PopGraph` call (1 <= k < n) returns h_k, and
the n-th `PopGraph` call returns nil and leaves the graph empty. -/
theorem C1_pop_sequence (p : ComponentMessage) (hs : List MetadataPtr)
    (hg : p.graph = some hs) (hn : 1 ≤ hs.length) :
    (TopGraph p).2 = hs.get ⟨0, hn⟩ ∧
    (∀ k (_ : 1 ≤ k) (hk : k < hs.length),
        (PopGraph (afterPops (k - 1) p)).2 = hs.get ⟨k, hk⟩) ∧
    (PopGraph (afterPops (hs.length - 1) p)).2 = none ∧
    (afterPops hs.length p).graph = some [] := by
  refine ⟨?_, ?_, ?_, ?_⟩
  · cases hs with
    | nil => simp at hn
    | cons h t => simp [TopGraph, hg]
  · intro k h1 hk
    have hd := afterPops_graph (k - 1) p hs hg (by omega)
    have hlt : k - 1 < hs.length := by omega
    rw [List.drop_eq_getElem_cons hlt] at hd
    have := (PopGraph_graph_cons _ _ _ hd).2
    rw [this]
    have hk1 : k - 1 + 1 = k := by omega
    rw [hk1]
    rw [List.drop_eq_getElem_cons hk]
    simp [List.getElem?_eq_getElem hk]
  · have hd := afterPops_graph (hs.length - 1) p hs hg (by omega)
    have hlt : hs.length - 1 < hs.length := by omega
    rw [List.drop_eq_getElem_cons hlt] at hd
    have := (PopGraph_graph_cons _ _ _ hd).2
    rw [this]
    have hk1 : hs.length - 1 + 1 = hs.length := by omega
    rw [hk1]
    simp
  · have := afterPops_graph hs.length p hs hg (le_refl _)
    simpa using this

/-- Witness of C1 on a graph of two hops. -/
theorem C1_pop_sequence_witness :
    (TopGraph ⟨"id", none, some [some ⟨"a", "mq", "in-a"⟩, some ⟨"b", "mq", "in-b"⟩],
        none, none⟩).2 = some ⟨"a", "mq", "in-a"⟩ :=
  (C1_pop_sequence ⟨"id", none, some [some ⟨"a", "mq", "in-a"⟩, some ⟨"b", "mq", "in-b"⟩],
      none, none⟩ [some ⟨"a", "mq", "in-a"⟩, some ⟨"b", "mq", "in-b"⟩] rfl (by decide)).1

/-- C2: one `PopGraph` call leaves the graph equal to the previous graph without
its first hop (a graph of length zero stays as it is), returns what `TopGraph`
returns on the resulting envelope, and changes no other field; `TopGraph`
changes no field at all. -/
theorem C2_pop_frame (p : ComponentMessage) :
    (PopGraph p).1.graph = p.graph.map List.tail ∧
    (PopGraph p).2 = (TopGraph (PopGraph p).1).2 ∧
    (PopGraph p).1.Id = p.Id ∧
    (PopGraph p).1.entrance = p.entrance ∧
    (PopGraph p).1.chain = p.chain ∧
    (PopGraph p).1.Payload = p.Payload ∧
    (TopGraph p).1 = p := by
  obtain ⟨id, en, g, ch, pl⟩ := p
  rcases g with _ | (_ | ⟨h, t⟩)
  · simp [PopGraph, TopGraph]
  · simp [PopGraph, TopGraph]
  · rcases t with _ | ⟨h2, t2⟩ <;> simp [PopGraph, TopGraph]

/-! ## Theorems: maps -/

theorem lookup_cons_self (k : GoString) (v : GoVal) (rest : List (GoString × GoVal)) :
    List.lookup k ((k, v) :: rest) = some v := by
  simp [List.lookup]

theorem lookup_cons_ne (x k : GoString) (v : GoVal) (rest : List (GoString × GoVal))
    (h : x ≠ k) : List.lookup x ((k, v) :: rest) = List.lookup x rest := by
  have hb : (x == k) = false := by simpa using h
  simp [List.lookup, hb]

theorem lookup_mapSet (m : List (GoString × GoVal)) (k : GoString) (v : GoVal) (x : GoString) :
    (mapSet m k v).lookup x = if x = k then some v else m.lookup x := by
  induction m with
  | nil =>
    by_cases hx : x = k
    · subst hx; simp [mapSet, lookup_cons_self]
    · simp [mapSet, lookup_cons_ne _ _ _ _ hx, hx]
  | cons kv rest ih =>
    obtain ⟨k', v'⟩ := kv
    by_cases hk : k' = k
    · subst hk
      by_cases hx : x = k'
      · subst hx; simp [mapSet, lookup_cons_self]
      · simp [mapSet, lookup_cons_ne _ _ _ _ hx, hx]
    · by_cases hx' : x = k'
      · subst hx'
        simp [mapSet, hk, lookup_cons_self]
      · simp only [mapSet, hk, if_false, lookup_cons_ne _ _ _ _ hx', ih]

theorem mem_keys_iff_lookup (m : List (GoString × GoVal)) (x : GoString) :
    x ∈ keys m ↔ (m.lookup x).isSome = true := by
  induction m with
  | nil => simp [keys]
  | cons kv rest ih =>
    obtain ⟨k', v'⟩ := kv
    by_cases hx : x = k'
    · subst hx; simp [keys, lookup_cons_self]
    · have hk : keys ((k', v') :: rest) = k' :: keys rest := rfl
      rw [hk, List.mem_cons, lookup_cons_ne _ _ _ _ hx, ih]
      simp [hx]

theorem lookup_mergeEntries (c : List (GoString × GoVal)) :
    ∀ (old : List (GoString × GoVal)) (x : GoString), (keys c).Nodup →
      (mergeEntries old c).lookup x =
        match c.lookup x with
        | some v => some v
        | none => old.lookup x := by
  induction c with
  | nil => intro old x _; simp [mergeEntries]
  | cons kv rest ih =>
    intro old x hnd
    obtain ⟨k, v⟩ := kv
    have hk : keys ((k, v) :: rest) = k :: keys rest := rfl
    rw [hk, List.nodup_cons] at hnd
    have hstep : mergeEntries old ((k, v) :: rest) = mergeEntries (mapSet old k v) rest := by
      simp [mergeEntries]
    rw [hstep, ih (mapSet old k v) x hnd.2, lookup_mapSet]
    by_cases hx : x = k
    · subst hx
      have hnone : rest.lookup x = none := by
        have h1 := (mem_keys_iff_lookup rest x).not.mp hnd.1
        cases hl : rest.lookup x with
        | none => rfl
        | some w => rw [hl] at h1; simp at h1
      simp [lookup_cons_self, hnone]
    · simp [lookup_cons_ne _ _ _ _ hx, hx]

theorem appendEach_eq (c : List GoVal) : ∀ old : List GoVal, appendEach old c = old ++ c := by
  induction c with
  | nil => intro old; simp [appendEach]
  | cons x rest ih =>
    intro old
    have hstep : appendEach old (x :: rest) = appendEach (old ++ [x]) rest := by
      simp [appendEach]
    rw [hstep, ih]
    simp

theorem typeOf_ne_of_shape_ne (a b : GoVal) (h : a.shape ≠ b.shape) : a.typeOf ≠ b.typeOf := by
  cases a <;> cases b <;> simp [GoVal.shape, GoVal.typeOf] at h ⊢

/-! ## Theorems: command container -/

theorem entry_some_iff (c : Container) (k : GoString) (v : GoVal) :
    c.entry k = some v ↔ ∃ m, c = some m ∧ m.lookup k = some v := by
  cases c with
  | none => simp [Container.entry]
  | some m => simp [Container.entry]

/-- Two allocated `map[string]interface{}` values: when the command store holds
m_old under k, after `AppendCommand(k, m_new)` the entry under k is a mapping
whose key set is the union of both key sets, where every key of m_new has its
value from m_new and every key only in m_old keeps its value. -/
theorem AppendCommand_iface_maps (p : Payload) (k : GoString)
    (m_old m_new : List (GoString × GoVal))
    (he : p.command.entry k = some (.map m_old)) (hnd : (keys m_new).Nodup) :
    ∃ p' m', AppendCommand p k (.map m_new) = some p' ∧
      p'.command.entry k = some (.map m') ∧
      (∀ x, x ∈ keys m' ↔ x ∈ keys m_old ∨ x ∈ keys m_new) ∧
      (∀ x v, m_new.lookup x = some v → m'.lookup x = some v) ∧
      (∀ x, x ∉ keys m_new → m'.lookup x = m_old.lookup x) := by
  obtain ⟨cmd, hc, hl⟩ := (entry_some_iff _ _ _).mp he
  cases m_new with
  | nil =>
    refine ⟨{ p with command := some cmd }, m_old, ?_, ?_, ?_, ?_, ?_⟩
    · simp [AppendCommand, hc, hl, GoVal.typeOf, GoType.Kind, asIfaceMap]
    · simp [Container.entry, hl]
    · intro x; simp [keys]
    · intro x v hv; simp at hv
    · intro x _; rfl
  | cons e es =>
    refine ⟨{ p with command := some (mapSet cmd k (.map (mergeEntries m_old (e :: es)))) },
      mergeEntries m_old (e :: es), ?_, ?_, ?_, ?_, ?_⟩
    · simp [AppendCommand, hc, hl, GoVal.typeOf, GoType.Kind, asIfaceMap]
    · simp [Container.entry, lookup_mapSet]
    · intro x
      rw [mem_keys_iff_lookup, mem_keys_iff_lookup, mem_keys_iff_lookup,
        lookup_mergeEntries (e :: es) m_old x hnd]
      cases List.lookup x (e :: es) <;> simp
    · intro x v hv
      rw [lookup_mergeEntries (e :: es) m_old x hnd, hv]
    · intro x hx
      rw [lookup_mergeEntries (e :: es) m_old x hnd]
      have h1 := (mem_keys_iff_lookup (e :: es) x).not.mp hx
      cases hl2 : List.lookup x (e :: es) with
      | none => rfl
      | some w => rw [hl2] at h1; simp at h1

/-- C6 on the code: with a `map[string]string` stored under `k`, appending a
`map[string]string` panics at the type assertion to `map[string]interface{}`;
with the nil `map[string]interface{}` stored, appending a non-empty mapping
panics at the assignment into the nil map; with the allocated mapping
`{a: 1, b: 0}` stored, appending `{b: 2, c: true}` gives `{a: 1, b: 2, c: true}`. -/
theorem C6_append_mapping_panics :
    AppendCommand ⟨0, "OK", none, some [("k", .strMap (some [("a", "1")]))], none⟩ "k"
      (.strMap (some [("b", "2")])) = none ∧
    AppendCommand ⟨0, "OK", none, some [("k", .nilMap)], none⟩ "k"
      (.map [("b", .int 2)]) = none ∧
    AppendCommand ⟨0, "OK", none, some [("k", .map [("a", .int 1), ("b", .int 0)])], none⟩ "k"
      (.map [("b", .int 2), ("c", .bool true)]) =
      some ⟨0, "OK", none,
        some [("k", .map [("a", .int 1), ("b", .int 2), ("c", .bool true)])], none⟩ := by
  exact ⟨rfl, rfl, rfl⟩

/-- Two allocated `[]interface{}` values: when the command store holds s_old
under k, after `AppendCommand(k, s_new)` the entry under k is s_old followed by
s_new, of length len(s_old) + len(s_new); appending the empty sequence leaves
the entry equal to s_old. -/
theorem AppendCommand_iface_slices (p : Payload) (k : GoString) (s_old s_new : List GoVal)
    (he : p.command.entry k = some (.slice s_old)) :
    (∃ p', AppendCommand p k (.slice s_new) = some p' ∧
      p'.command.entry k = some (.slice (s_old ++ s_new)) ∧
      (s_old ++ s_new).length = s_old.length + s_new.length) ∧
    (∃ p', AppendCommand p k (.slice []) = some p' ∧
      p'.command.entry k = some (.slice s_old)) := by
  obtain ⟨cmd, hc, hl⟩ := (entry_some_iff _ _ _).mp he
  have hempty : ∃ p', AppendCommand p k (.slice []) = some p' ∧
      p'.command.entry k = some (.slice s_old) := by
    refine ⟨{ p with command := some cmd }, ?_, ?_⟩
    · simp [AppendCommand, hc, hl, GoVal.typeOf, GoType.Kind, asIfaceSlice]
    · simp [Container.entry, hl]
  refine ⟨?_, hempty⟩
  cases s_new with
  | nil =>
    obtain ⟨p', h1, h2⟩ := hempty
    exact ⟨p', h1, by simpa using h2, by simp⟩
  | cons x xs =>
    refine ⟨{ p with command := some (mapSet cmd k (.slice (s_old ++ x :: xs))) }, ?_, ?_, ?_⟩
    · simp [AppendCommand, hc, hl, GoVal.typeOf, GoType.Kind, asIfaceSlice, appendEach_eq]
    · simp [Container.entry, lookup_mapSet]
    · simp

/-- C7 on the code: with a `[]string` stored under `k`, appending a `[]string`
panics at the type assertion to `[]interface{}`; with the `[]interface{}`
sequence `[1, 2]` stored, appending `[3, "x"]` gives `[1, 2, 3, "x"]`, and
appending the empty sequence leaves `[1, 2]`. -/
theorem C7_append_sequence_panics :
    AppendCommand ⟨0, "OK", none, some [("k", .strSlice (some ["a"]))], none⟩ "k"
      (.strSlice (some ["b"])) = none ∧
    AppendCommand ⟨0, "OK", none, some [("k", .slice [.int 1, .int 2])], none⟩ "k"
      (.slice [.int 3, .string "x"]) =
      some ⟨0, "OK", none, some [("k", .slice [.int 1, .int 2, .int 3, .string "x"])], none⟩ ∧
    AppendCommand ⟨0, "OK", none, some [("k", .slice [.int 1, .int 2])], none⟩ "k"
      (.slice []) =
      some ⟨0, "OK", none, some [("k", .slice [.int 1, .int 2])], none⟩ := by
  exact ⟨rfl, rfl, rfl⟩

/-- C8: when k holds v_old and v_new has another shape, `AppendCommand(k, v_new)`
leaves the whole payload as it is (the entry under k and every other entry),
whereas `SetCommand(k, v_new)` makes the entry v_new; and when a key has no
entry, `AppendCommand` does what `SetCommand` does. -/
theorem C8_append_mismatch (p : Payload) (k : GoString) (v_old v_new : GoVal)
    (he : p.command.entry k = some v_old) (hs : v_old.shape ≠ v_new.shape) :
    AppendCommand p k v_new = some p ∧
    (SetCommand p k v_new).command.entry k = some v_new ∧
    (∀ (q : Payload) (key : GoString) (v : GoVal), q.command.entry key = none →
      AppendCommand q key v = some (SetCommand q key v)) := by
  obtain ⟨cmd, hc, hl⟩ := (entry_some_iff _ _ _).mp he
  have ht := typeOf_ne_of_shape_ne v_old v_new hs
  refine ⟨?_, ?_, ?_⟩
  · obtain ⟨c, m, ctx, cm, r⟩ := p
    simp only at hc
    subst hc
    simp [AppendCommand, hl, ht]
  · simp [SetCommand, Container.entry, lookup_mapSet]
  · intro q key v hq
    cases hqc : q.command with
    | none => simp [AppendCommand, SetCommand, hqc]
    | some m =>
      have hm : m.lookup key = none := by simpa [Container.entry, hqc] using hq
      simp [AppendCommand, SetCommand, hqc, hm]

/-- Witness of C8: a sequence appended to a key that holds a mapping. -/
theorem C8_append_mismatch_witness :
    AppendCommand ⟨0, "OK", none, some [("k", .map [("a", .int 1)])], none⟩ "k"
        (.slice [.int 3]) =
      some ⟨0, "OK", none, some [("k", .map [("a", .int 1)])], none⟩ :=
  (C8_append_mismatch ⟨0, "OK", none, some [("k", .map [("a", .int 1)])], none⟩ "k"
    (.map [("a", .int 1)]) (.slice [.int 3]) rfl (by decide)).1

/-! ## Theorems: typed accessors -/

theorem GetContextString_not_string (p : Payload) (key : GoString) (m : List (GoString × GoVal))
    (v : GoVal) (hc : p.context = some m) (hl : m.lookup key = some v)
    (hv : ∀ s, v ≠ .string s) : GetContextString p key = (gs "", none) := by
  unfold GetContextString
  rw [hc]
  simp only [hl]

theorem GetCommandString_not_string (p : Payload) (key : GoString) (m : List (GoString × GoVal))
    (v : GoVal) (hc : p.command = some m) (hl : m.lookup key = some v)
    (hv : ∀ s, v ≠ .string s) : GetCommandString p key = (gs "", none) := by
  unfold GetCommandString
  rw [hc]
  simp only [hl]

/-- C9 on the code: with the integer 5 stored under `k` in an initialized
container, `GetContextString` and `GetCommandString` return the empty string
and the nil error, where `GetContextInt` and `GetCommandInt` on a stored string
return their wrong-type error; a stored string is returned with no error. -/
theorem C9_string_getters_at_int :
    GetContextString ⟨0, "OK", some [("k", .int 5)], some [], none⟩ "k" = (gs "", none) ∧
    GetCommandString ⟨0, "OK", some [], some [("k", .int 5)], none⟩ "k" = (gs "", none) ∧
    GetContextInt ⟨0, "OK", some [("k", .string "v")], some [], none⟩ "k" =
      (0, some (gs "the type of context key k is not int")) ∧
    GetCommandInt ⟨0, "OK", some [], some [("k", .string "v")], none⟩ "k" =
      (0, some (gs "the type of command key k is not int")) ∧
    GetContextString ⟨0, "OK", some [("k", .string "v")], some [], none⟩ "k" = (gs "v", none) ∧
    GetCommandString ⟨0, "OK", some [], some [("k", .string "v")], none⟩ "k" = (gs "v", none) := by
  refine ⟨?_, ?_, ?_, ?_, ?_, ?_⟩ <;> decide

theorem ctxNil_ne_ctxMissing (key s : GoString) :
    gs "the context container is nil" ≠ gs "the context key of " ++ key ++ s := by
  intro h
  have h3 := congrArg (fun l => l.get? 12) h
  simp [gs] at h3

theorem ctxNil_ne_ctxWrong (key s : GoString) :
    gs "the context container is nil" ≠ gs "the type of context key " ++ key ++ s := by
  intro h
  have h3 := congrArg (fun l => l.get? 4) h
  simp [gs] at h3

theorem ctxMissing_ne_ctxWrong (key s t : GoString) :
    gs "the context key of " ++ key ++ s ≠ gs "the type of context key " ++ key ++ t := by
  intro h
  have h3 := congrArg (fun l => l.get? 4) h
  simp [gs] at h3

theorem cmdNil_ne_cmdMissing (key s : GoString) :
    gs "the command container is nil" ≠ gs "the command key of " ++ key ++ s := by
  intro h
  have h3 := congrArg (fun l => l.get? 12) h
  simp [gs] at h3

theorem cmdNil_ne_cmdWrong (key s : GoString) :
    gs "the command container is nil" ≠ gs "the type of command key " ++ key ++ s := by
  intro h
  have h3 := congrArg (fun l => l.get? 4) h
  simp [gs] at h3

theorem cmdMissing_ne_cmdWrong (key s t : GoString) :
    gs "the command key of " ++ key ++ s ≠ gs "the type of command key " ++ key ++ t := by
  intro h
  have h3 := congrArg (fun l => l.get? 4) h
  simp [gs] at h3

/-- An accessor that follows the four-way case split has the four outcomes. -/
theorem fourOutcomes_of_cases (c : Container) (key : GoString) (assert : GoVal → Option Int)
    (res : Int × Option GoString) (eNil eMissing eWrong : GoString)
    (h12 : eNil ≠ eMissing) (h13 : eNil ≠ eWrong) (h23 : eMissing ≠ eWrong)
    (hres : res =
      match c with
      | none => (0, some eNil)
      | some m =>
        match m.lookup key with
        | none => (0, some eMissing)
        | some v =>
          match assert v with
          | some n => (n, none)
          | none => (0, some eWrong)) :
    FourOutcomes c key assert res eNil eMissing eWrong := by
  subst hres
  unfold FourOutcomes
  cases c with
  | none =>
    refine ⟨by simp, ?_, ?_, ?_, by simp, by simp, h12, h13, h23⟩
    · intro m hm; cases hm
    · intro m v hm; cases hm
    · intro m v n hm; cases hm
  | some m =>
    cases hl : m.lookup key with
    | none =>
      refine ⟨by simp [hl, Ne.symm h12], ?_, ?_, ?_, by simp [hl], by simp [hl], h12, h13, h23⟩
      · intro m' hm; cases hm; simp [hl]
      · intro m' v hm hv; cases hm; rw [hl] at hv; cases hv
      · intro m' v n hm hv; cases hm; rw [hl] at hv; cases hv
    | some v =>
      cases ha : assert v with
      | none =>
        refine ⟨by simp [hl, ha, Ne.symm h13], ?_, ?_, ?_, by simp [hl, ha], by simp [hl, ha],
          h12, h13, h23⟩
        · intro m' hm; cases hm; simp [hl, ha, Ne.symm h23]
        · intro m' v' hm hv; cases hm; rw [hl] at hv; cases hv; simp [hl, ha]
        · intro m' v' n hm hv hn; cases hm; rw [hl] at hv; cases hv; rw [ha] at hn; cases hn
      | some n =>
        refine ⟨by simp [hl, ha], ?_, ?_, ?_, by simp [hl, ha], by simp [hl, ha], h12, h13, h23⟩
        · intro m' hm; cases hm; simp [hl, ha]
        · intro m' v' hm hv; cases hm; rw [hl] at hv; cases hv; simp [hl, ha]
        · intro m' v' n' hm hv hn; cases hm; rw [hl] at hv; cases hv; rw [ha] at hn; cases hn
          simp [hl, ha]

theorem GetContextInt_outcomes (p : Payload) (key : GoString) :
    FourOutcomes p.context key asInt (GetContextInt p key)
      "the context container is nil"
      ("the context key of " ++ key ++ " is not exist")
      ("the type of context key " ++ key ++ " is not int") := by
  apply fourOutcomes_of_cases _ _ _ _ _ _ _ (ctxNil_ne_ctxMissing _ _)
    (ctxNil_ne_ctxWrong _ _) (ctxMissing_ne_ctxWrong _ _ _)
  unfold GetContextInt
  cases p.context with
  | none => rfl
  | some m =>
    dsimp only
    cases m.lookup key with
    | none => rfl
    | some v => cases v <;> rfl

theorem GetContextInt32_outcomes (p : Payload) (key : GoString) :
    FourOutcomes p.context key asInt32 (GetContextInt32 p key)
      "the context container is nil"
      ("the context key of " ++ key ++ " is not exist")
      ("the type of context key " ++ key ++ " is not int32") := by
  apply fourOutcomes_of_cases _ _ _ _ _ _ _ (ctxNil_ne_ctxMissing _ _)
    (ctxNil_ne_ctxWrong _ _) (ctxMissing_ne_ctxWrong _ _ _)
  unfold GetContextInt32
  cases p.context with
  | none => rfl
  | some m =>
    dsimp only
    cases m.lookup key with
    | none => rfl
    | some v => cases v <;> rfl

theorem GetContextInt64_outcomes (p : Payload) (key : GoString) :
    FourOutcomes p.context key asInt64 (GetContextInt64 p key)
      "the context container is nil"
      ("the context key of " ++ key ++ " is not exist")
      ("the type of context key " ++ key ++ " is not int64") := by
  apply fourOutcomes_of_cases _ _ _ _ _ _ _ (ctxNil_ne_ctxMissing _ _)
    (ctxNil_ne_ctxWrong _ _) (ctxMissing_ne_ctxWrong _ _ _)
  unfold GetContextInt64
  cases p.context with
  | none => rfl
  | some m =>
    dsimp only
    cases m.lookup key with
    | none => rfl
    | some v => cases v <;> rfl

theorem GetCommandInt_outcomes (p : Payload) (key : GoString) :
    FourOutcomes p.command key asInt (GetCommandInt p key)
      "the command container is nil"
      ("the command key of " ++ key ++ " is not exist")
      ("the type of command key " ++ key ++ " is not int") := by
  apply fourOutcomes_of_cases _ _ _ _ _ _ _ (cmdNil_ne_cmdMissing _ _)
    (cmdNil_ne_cmdWrong _ _) (cmdMissing_ne_cmdWrong _ _ _)
  unfold GetCommandInt
  cases p.command with
  | none => rfl
  | some m =>
    dsimp only
    cases m.lookup key with
    | none => rfl
    | some v => cases v <;> rfl

theorem GetCommandInt32_outcomes (p : Payload) (key : GoString) :
    FourOutcomes p.command key asInt32 (GetCommandInt32 p key)
      "the command container is nil"
      ("the command key of " ++ key ++ " is not exist")
      ("the type of command key " ++ key ++ " is not int32") := by
  apply fourOutcomes_of_cases _ _ _ _ _ _ _ (cmdNil_ne_cmdMissing _ _)
    (cmdNil_ne_cmdWrong _ _) (cmdMissing_ne_cmdWrong _ _ _)
  unfold GetCommandInt32
  cases p.command with
  | none => rfl
  | some m =>
    dsimp only
    cases m.lookup key with
    | none => rfl
    | some v => cases v <;> rfl

theorem GetCommandInt64_outcomes (p : Payload) (key : GoString) :
    FourOutcomes p.command key asInt64 (GetCommandInt64 p key)
      "the command container is nil"
      ("the command key of " ++ key ++ " is not exist")
      ("the type of command key " ++ key ++ " is not int64") := by
  apply fourOutcomes_of_cases _ _ _ _ _ _ _ (cmdNil_ne_cmdMissing _ _)
    (cmdNil_ne_cmdWrong _ _) (cmdMissing_ne_cmdWrong _ _ _)
  unfold GetCommandInt64
  cases p.command with
  | none => rfl
  | some m =>
    dsimp only
    cases m.lookup key with
    | none => rfl
    | some v => cases v <;> rfl

/-- C10: each of the six integer accessors has exactly four mutually exclusive
outcomes: the container-is-nil error iff the container is nil; otherwise the
key-does-not-exist error iff the key is absent; otherwise the wrong-type error
iff the value is not of the requested integer type; otherwise the stored
integer with no error. The three errors are pairwise different messages, and
with an error the returned value is 0. -/
theorem C10_int_getters (p : Payload) (key : GoString) :
    FourOutcomes p.context key asInt (GetContextInt p key)
      "the context container is nil"
      ("the context key of " ++ key ++ " is not exist")
      ("the type of context key " ++ key ++ " is not int") ∧
    FourOutcomes p.context key asInt32 (GetContextInt32 p key)
      "the context container is nil"
      ("the context key of " ++ key ++ " is not exist")
      ("the type of context key " ++ key ++ " is not int32") ∧
    FourOutcomes p.context key asInt64 (GetContextInt64 p key)
      "the context container is nil"
      ("the context key of " ++ key ++ " is not exist")
      ("the type of context key " ++ key ++ " is not int64") ∧
    FourOutcomes p.command key asInt (GetCommandInt p key)
      "the command container is nil"
      ("the command key of " ++ key ++ " is not exist")
      ("the type of command key " ++ key ++ " is not int") ∧
    FourOutcomes p.command key asInt32 (GetCommandInt32 p key)
      "the command container is nil"
      ("the command key of " ++ key ++ " is not exist")
      ("the type of command key " ++ key ++ " is not int32") ∧
    FourOutcomes p.command key asInt64 (GetCommandInt64 p key)
      "the command container is nil"
      ("the command key of " ++ key ++ " is not exist")
      ("the type of command key " ++ key ++ " is not int64") :=
  ⟨GetContextInt_outcomes p key, GetContextInt32_outcomes p key, GetContextInt64_outcomes p key,
    GetCommandInt_outcomes p key, GetCommandInt32_outcomes p key,
    GetCommandInt64_outcomes p key⟩
/-! ## Theorems: base64 -/

theorem b64Index_b64Char : ∀ i : Fin 64, b64Index (b64Char i.val) = some i.val := by
  decide

theorem b64Char_ne_pad : ∀ i : Fin 64, b64Char i.val ≠ '=' := by
  decide

theorem alphabet_not_linebreak :
    ∀ c ∈ '=' :: encodeStd, (decide (c ≠ '\r' ∧ c ≠ '\n')) = true := by
  decide

theorem alphabet_byte_char : ∀ c ∈ '=' :: encodeStd, byteToChar (charToByte c) = c := by
  decide

theorem b64Index_of_lt (n : Nat) (h : n < 64) : b64Index (b64Char n) = some n :=
  b64Index_b64Char ⟨n, h⟩

theorem b64Char_ne_pad_of_lt (n : Nat) (h : n < 64) : b64Char n ≠ '=' :=
  b64Char_ne_pad ⟨n, h⟩

theorem b64Char_mem (n : Nat) : b64Char n ∈ '=' :: encodeStd := by
  by_cases h : n < 64
  · have : ∀ i : Fin 64, b64Char i.val ∈ '=' :: encodeStd := by decide
    exact this ⟨n, h⟩
  · have hlen : encodeStd.length ≤ n := by
      have : encodeStd.length = 64 := by decide
      omega
    simp [b64Char, List.getD, List.getElem?_eq_none hlen]

theorem base64Encode_mem : ∀ (b : List Byte), ∀ c ∈ base64Encode b, c ∈ '=' :: encodeStd
  | [] => by simp [base64Encode]
  | [a] => by
    intro c hc
    simp only [base64Encode, List.mem_cons, List.mem_singleton] at hc
    rcases hc with h | h | h | h | h
    · rw [h]; exact b64Char_mem _
    · rw [h]; exact b64Char_mem _
    · rw [h]; exact List.mem_cons_self _ _
    · rw [h]; exact List.mem_cons_self _ _
    · cases h
  | [a, b] => by
    intro c hc
    simp only [base64Encode, List.mem_cons, List.mem_singleton] at hc
    rcases hc with h | h | h | h | h
    · rw [h]; exact b64Char_mem _
    · rw [h]; exact b64Char_mem _
    · rw [h]; exact b64Char_mem _
    · rw [h]; exact List.mem_cons_self _ _
    · cases h
  | a :: b :: c' :: rest => by
    intro c hc
    simp only [base64Encode, List.mem_cons] at hc
    rcases hc with h | h | h | h | h
    · rw [h]; exact b64Char_mem _
    · rw [h]; exact b64Char_mem _
    · rw [h]; exact b64Char_mem _
    · rw [h]; exact b64Char_mem _
    · exact base64Encode_mem rest c h

theorem toByte_val (a : Byte) : toByte a.val = a := by
  apply Fin.ext
  simp [toByte, Nat.mod_eq_of_lt a.isLt]

theorem quantum_bytes (a b c : Nat) (ha : a < 256) (hb : b < 256) (hc : c < 256) :
    (a / 4 * 4 + (a % 4 * 16 + b / 16) / 16) % 256 = a ∧
    ((a % 4 * 16 + b / 16) % 16 * 16 + (b % 16 * 4 + c / 64) / 4) % 256 = b ∧
    ((b % 16 * 4 + c / 64) % 4 * 64 + c % 64) % 256 = c := by
  omega

theorem decodeQuanta_encode : ∀ b : List Byte, decodeQuanta (base64Encode b) = some b
  | [] => by simp [base64Encode, decodeQuanta]
  | [a] => by
    have ha := a.isLt
    have h0 : b64Index (b64Char (a.val / 4)) = some (a.val / 4) := b64Index_of_lt _ (by omega)
    have h1 : b64Index (b64Char (a.val % 4 * 16)) = some (a.val % 4 * 16) :=
      b64Index_of_lt _ (by omega)
    have hb : toByte (a.val / 4 * 4 + a.val % 4 * 16 / 16) = a := by
      have : a.val / 4 * 4 + a.val % 4 * 16 / 16 = a.val := by omega
      rw [this, toByte_val]
    simp only [base64Encode, decodeQuanta, h0, h1, hb, and_self, if_true]
  | [a, b] => by
    have ha := a.isLt
    have hb := b.isLt
    have h0 : b64Index (b64Char (a.val / 4)) = some (a.val / 4) := b64Index_of_lt _ (by omega)
    have h1 : b64Index (b64Char (a.val % 4 * 16 + b.val / 16)) = some (a.val % 4 * 16 + b.val / 16) :=
      b64Index_of_lt _ (by omega)
    have h2 : b64Index (b64Char (b.val % 16 * 4)) = some (b.val % 16 * 4) :=
      b64Index_of_lt _ (by omega)
    have n2 : b64Char (b.val % 16 * 4) ≠ '=' := b64Char_ne_pad_of_lt _ (by omega)
    have e0 : toByte (a.val / 4 * 4 + (a.val % 4 * 16 + b.val / 16) / 16) = a := by
      have : a.val / 4 * 4 + (a.val % 4 * 16 + b.val / 16) / 16 = a.val := by omega
      rw [this, toByte_val]
    have e1 : toByte ((a.val % 4 * 16 + b.val / 16) % 16 * 16 + b.val % 16 * 4 / 4) = b := by
      have : (a.val % 4 * 16 + b.val / 16) % 16 * 16 + b.val % 16 * 4 / 4 = b.val := by omega
      rw [this, toByte_val]
    simp only [base64Encode, decodeQuanta, h0, h1, h2, n2, e0, e1, if_true, if_false]
  | a :: b :: c :: rest => by
    have ih := decodeQuanta_encode rest
    have ha := a.isLt
    have hb := b.isLt
    have hc := c.isLt
    have h0 : b64Index (b64Char (a.val / 4)) = some (a.val / 4) := b64Index_of_lt _ (by omega)
    have h1 : b64Index (b64Char (a.val % 4 * 16 + b.val / 16)) = some (a.val % 4 * 16 + b.val / 16) :=
      b64Index_of_lt _ (by omega)
    have h2 : b64Index (b64Char (b.val % 16 * 4 + c.val / 64)) = some (b.val % 16 * 4 + c.val / 64) :=
      b64Index_of_lt _ (by omega)
    have h3 : b64Index (b64Char (c.val % 64)) = some (c.val % 64) := b64Index_of_lt _ (by omega)
    have n2 : b64Char (b.val % 16 * 4 + c.val / 64) ≠ '=' := b64Char_ne_pad_of_lt _ (by omega)
    have n3 : b64Char (c.val % 64) ≠ '=' := b64Char_ne_pad_of_lt _ (by omega)
    have e0 : toByte (a.val / 4 * 4 + (a.val % 4 * 16 + b.val / 16) / 16) = a := by
      have : a.val / 4 * 4 + (a.val % 4 * 16 + b.val / 16) / 16 = a.val := by omega
      rw [this, toByte_val]
    have e1 : toByte ((a.val % 4 * 16 + b.val / 16) % 16 * 16 + (b.val % 16 * 4 + c.val / 64) / 4)
        = b := by
      have : (a.val % 4 * 16 + b.val / 16) % 16 * 16 + (b.val % 16 * 4 + c.val / 64) / 4 = b.val := by
        omega
      rw [this, toByte_val]
    have e2 : toByte ((b.val % 16 * 4 + c.val / 64) % 4 * 64 + c.val % 64) = c := by
      have : (b.val % 16 * 4 + c.val / 64) % 4 * 64 + c.val % 64 = c.val := by omega
      rw [this, toByte_val]
    simp only [base64Encode, decodeQuanta, h0, h1, h2, h3, n2, n3, if_false, ih, e0, e1, e2]

/-- Decoding the encoding of a byte string gives the byte string back. -/
theorem base64Decode_encode (b : List Byte) : base64Decode (base64Encode b) = some b := by
  unfold base64Decode
  have hf : (base64Encode b).filter (fun c => c ≠ '\r' ∧ c ≠ '\n') = base64Encode b := by
    rw [List.filter_eq_self]
    intro c hc
    exact alphabet_not_linebreak c (base64Encode_mem b c hc)
  rw [hf, decodeQuanta_encode]

/-! ## Theorems: decoding the result -/

theorem decodeQuanta_bad_head (c : Char) (hc : b64Index c = none) (l : List Char) :
    decodeQuanta (c :: l) = none := by
  rcases l with _ | ⟨c1, _ | ⟨c2, _ | ⟨c3, rest⟩⟩⟩ <;> simp [decodeQuanta, hc]

theorem base64Decode_bad_head (c : Char) (hc : b64Index c = none)
    (hl : c ≠ '\r' ∧ c ≠ '\n') (l : List Char) : base64Decode (c :: l) = none := by
  unfold base64Decode
  have : (c :: l).filter (fun c => c ≠ '\r' ∧ c ≠ '\n') =
      c :: l.filter (fun c => c ≠ '\r' ∧ c ≠ '\n') := by
    simp [List.filter_cons, hl]
  rw [this, decodeQuanta_bad_head c hc]

theorem map_byteToChar_encode (b : List Byte) :
    ((base64Encode b).map charToByte).map byteToChar = base64Encode b := by
  rw [List.map_map]
  conv_rhs => rw [← List.map_id (base64Encode b)]
  apply List.map_congr_left
  intro c hc
  exact alphabet_byte_char c (base64Encode_mem b c hc)

theorem strip_quotes (l : List Byte) :
    ((quote :: (l ++ [quote])).take ((quote :: (l ++ [quote])).length - 1)).drop 1 = l := by
  have : (quote :: (l ++ [quote])).length - 1 = (quote :: l).length := by simp
  rw [this]
  have h2 : quote :: (l ++ [quote]) = (quote :: l) ++ [quote] := rfl
  rw [h2, List.take_left]
  rfl

/-- C3: for a byte string b that starts as the JSON encoding of an object or of
an array does (`{` or `[`), `UnmarshalResult` on the result b and on the result
quote, base64(b), quote both hand exactly the bytes b to the JSON decoder, so
both have the decoded target and the error of decoding b. -/
theorem C3_unmarshal_both_encodings {T E : Type} (unmarshal : List Byte → T → T × Option E)
    (p1 p2 : Payload) (b : List Byte) (v : T)
    (hb : b.head? = some 0x7b ∨ b.head? = some 0x5b)
    (h1 : p1.result = some b)
    (h2 : p2.result = some (quote :: ((base64Encode b).map charToByte ++ [quote]))) :
    (∃ q1, UnmarshalResult unmarshal p1 v = some (q1, unmarshal b v)) ∧
    (∃ q2, UnmarshalResult unmarshal p2 v = some (q2, unmarshal b v)) := by
  constructor
  · cases b with
    | nil => simp at hb
    | cons c rest =>
      have hc : c = 0x7b ∨ c = 0x5b := by simpa using hb
      have hq : c ≠ quote := by
        rcases hc with h | h <;> rw [h] <;> decide
      have hd : base64Decode ((c :: rest).map byteToChar) = none := by
        rw [List.map_cons]
        rcases hc with h | h <;> rw [h] <;> exact base64Decode_bad_head _ (by decide) (by decide) _
      refine ⟨{ p1 with result := some (c :: rest) }, ?_⟩
      simp only [UnmarshalResult, h1, hq, if_false, hd]
  · have hlen : 1 ≤ (quote :: ((base64Encode b).map charToByte ++ [quote])).length - 1 := by
      simp
    refine ⟨{ p2 with result := some ((base64Encode b).map charToByte) }, ?_⟩
    simp only [UnmarshalResult, h2, if_true, hlen, strip_quotes, map_byteToChar_encode,
      base64Decode_encode]

/-- Witness of C3 on b = `{}`, whose base64 text is `e30=`. -/
theorem C3_unmarshal_both_encodings_witness :
    (∃ q1, UnmarshalResult (fun (d : List Byte) (_ : List Byte) => (d, (none : Option String)))
        ⟨0, "OK", none, none, some [0x7b, 0x7d]⟩ [] = some (q1, ([0x7b, 0x7d], none))) ∧
    (∃ q2, UnmarshalResult (fun (d : List Byte) (_ : List Byte) => (d, (none : Option String)))
        ⟨0, "OK", none, none, some [0x22, 0x65, 0x33, 0x30, 0x3d, 0x22]⟩ [] =
          some (q2, ([0x7b, 0x7d], none))) :=
  C3_unmarshal_both_encodings (fun d _ => (d, none))
    ⟨0, "OK", none, none, some [0x7b, 0x7d]⟩
    ⟨0, "OK", none, none, some [0x22, 0x65, 0x33, 0x30, 0x3d, 0x22]⟩
    [0x7b, 0x7d] [] (Or.inl rfl) rfl (by decide)

/-! ## Theorems: wire codec -/

theorem toValidUTF8_gs (s : String) : toValidUTF8 (gs s) = s := by
  have h : ∀ l : List Char,
      (l.map StrUnit.char).map (fun u =>
        match u with
        | .char c => c
        | .byte _ => replacementChar) = l := by
    intro l
    induction l with
    | nil => rfl
    | cons c t ih => simp only [List.map_cons, ih]
  unfold toValidUTF8 gs
  rw [h]

theorem coerceUTF8_of_valid (s : GoString) (h : validUTF8 s = true) : coerceUTF8 s = s := by
  unfold coerceUTF8 toValidUTF8 gs
  dsimp only
  induction s with
  | nil => rfl
  | cons u t ih =>
    have h2 : validUTF8 [u] = true ∧ validUTF8 t = true := by
      simpa [validUTF8, List.all_cons] using h
    cases u with
    | char c => simp only [List.map_cons, ih h2.2]
    | byte b => simp [validUTF8] at h2

theorem gs_injective (a b : String) (h : gs a = gs b) : a = b := by
  have := congrArg toValidUTF8 h
  rwa [toValidUTF8_gs, toValidUTF8_gs] at this

theorem mapSet_append (m : List (GoString × GoVal)) (k : GoString) (v : GoVal)
    (h : k ∉ keys m) : mapSet m k v = m ++ [(k, v)] := by
  induction m with
  | nil => rfl
  | cons kv rest ih =>
    obtain ⟨k', v'⟩ := kv
    have hk : keys ((k', v') :: rest) = k' :: keys rest := rfl
    rw [hk, List.mem_cons, not_or] at h
    have hne : k' ≠ k := fun e => h.1 e.symm
    simp only [mapSet, hne, if_false, ih h.2, List.cons_append]

theorem keys_append (a b : List (GoString × GoVal)) : keys (a ++ b) = keys a ++ keys b := by
  simp [keys]

mutual
theorem ofJson_ok : ∀ j : Json, inRangeNums j = true → ∃ v, ofJson j = .ok v
  | .null, _ => ⟨_, rfl⟩
  | .bool _, _ => ⟨_, rfl⟩
  | .num n, h => by
    have hn : floatOverflows n = false := by simpa [inRangeNums] using h
    exact ⟨.float64 n, by simp [ofJson, hn]⟩
  | .str _, _ => ⟨_, rfl⟩
  | .arr l, h => by
    have hl : inRangeNumsList l = true := by simpa [inRangeNums] using h
    obtain ⟨vs, hvs⟩ := ofJsonList_ok l hl
    exact ⟨.slice vs, by simp [ofJson, hvs]⟩
  | .obj l, h => by
    have hl : inRangeNumsFields l = true := by simpa [inRangeNums] using h
    obtain ⟨m, hm⟩ := ofJsonFields_ok l hl []
    exact ⟨.map m, by simp [ofJson, hm]⟩
theorem ofJsonList_ok : ∀ l : List Json, inRangeNumsList l = true → ∃ vs, ofJsonList l = .ok vs
  | [], _ => ⟨[], rfl⟩
  | j :: js, h => by
    have h2 : inRangeNums j = true ∧ inRangeNumsList js = true := by
      simpa [inRangeNumsList] using h
    obtain ⟨v, hv⟩ := ofJson_ok j h2.1
    obtain ⟨vs, hvs⟩ := ofJsonList_ok js h2.2
    exact ⟨v :: vs, by simp [ofJsonList, hv, hvs]⟩
theorem ofJsonFields_ok : ∀ l : List (String × Json), inRangeNumsFields l = true →
    ∀ acc, ∃ m, ofJsonFields l acc = .ok m
  | [], _ => fun acc => ⟨acc, rfl⟩
  | (k, j) :: js, h => by
    intro acc
    have h2 : inRangeNums j = true ∧ inRangeNumsFields js = true := by
      simpa [inRangeNumsFields] using h
    obtain ⟨v, hv⟩ := ofJson_ok j h2.1
    obtain ⟨m, hm⟩ := ofJsonFields_ok js h2.2 (mapSet acc (gs k) v)
    exact ⟨m, by simp [ofJsonFields, hv, hm]⟩
end

mutual
theorem marshalValue_ofJson (fmtFloat : JNum → JNum) :
    ∀ j : Json, stableNums fmtFloat j = true → distinctNames j = true →
      ∃ v, ofJson j = .ok v ∧ marshalValue fmtFloat v = some j
  | .null, _, _ => ⟨_, rfl, rfl⟩
  | .bool _, _, _ => ⟨_, rfl, rfl⟩
  | .num n, h, _ => by
    have hn : fmtFloat n = n ∧ floatOverflows n = false := by simpa [stableNums] using h
    exact ⟨.float64 n, by simp [ofJson, hn.2], by simp [marshalValue, hn.1]⟩
  | .str s, _, _ => ⟨.string (gs s), rfl, by simp [marshalValue, toValidUTF8_gs]⟩
  | .arr l, h, hd => by
    have hl : stableNumsList fmtFloat l = true := by simpa [stableNums] using h
    have hdl : distinctNamesList l = true := by simpa [distinctNames] using hd
    obtain ⟨vs, hvs, hm⟩ := marshalValues_ofJsonList fmtFloat l hl hdl
    exact ⟨.slice vs, by simp [ofJson, hvs], by simp [marshalValue, hm]⟩
  | .obj l, h, hd => by
    have hl : stableNumsFields fmtFloat l = true := by simpa [stableNums] using h
    have hdl : distinctNamesFields l [] = true := by simpa [distinctNames] using hd
    obtain ⟨vs, hvs, hm⟩ := marshalEntries_ofJsonFields fmtFloat l hl [] [] hdl
      (by intro k hk; simp [keys] at hk)
    have hvs2 : ofJsonFields l [] = .ok vs := by simpa using hvs
    exact ⟨.map vs, by simp [ofJson, hvs2], by simp [marshalValue, hm]⟩
theorem marshalValues_ofJsonList (fmtFloat : JNum → JNum) :
    ∀ l : List Json, stableNumsList fmtFloat l = true → distinctNamesList l = true →
      ∃ vs, ofJsonList l = .ok vs ∧ marshalValues fmtFloat vs = some l
  | [], _, _ => ⟨[], rfl, rfl⟩
  | j :: js, h, hd => by
    have h2 : stableNums fmtFloat j = true ∧ stableNumsList fmtFloat js = true := by
      simpa [stableNumsList] using h
    have hd2 : distinctNames j = true ∧ distinctNamesList js = true := by
      simpa [distinctNamesList] using hd
    obtain ⟨v, hv, hm⟩ := marshalValue_ofJson fmtFloat j h2.1 hd2.1
    obtain ⟨vs, hvs, hms⟩ := marshalValues_ofJsonList fmtFloat js h2.2 hd2.2
    exact ⟨v :: vs, by simp [ofJsonList, hv, hvs], by simp [marshalValues, hm, hms]⟩
theorem marshalEntries_ofJsonFields (fmtFloat : JNum → JNum) :
    ∀ l : List (String × Json), stableNumsFields fmtFloat l = true →
      ∀ (seen : List String) (acc : List (GoString × GoVal)),
        distinctNamesFields l seen = true →
        (∀ k, gs k ∈ keys acc → k ∈ seen) →
        ∃ vs, ofJsonFields l acc = .ok (acc ++ vs) ∧ marshalEntries fmtFloat vs = some l
  | [], _ => fun _ acc _ _ => ⟨[], by simp [ofJsonFields], rfl⟩
  | (k, j) :: js, h => by
    intro seen acc hd hacc
    have h2 : stableNums fmtFloat j = true ∧ stableNumsFields fmtFloat js = true := by
      simpa [stableNumsFields] using h
    have hd2 : (k ∉ seen ∧ distinctNames j = true) ∧ distinctNamesFields js (k :: seen) = true := by
      simpa [distinctNamesFields] using hd
    obtain ⟨v, hv, hm⟩ := marshalValue_ofJson fmtFloat j h2.1 hd2.1.2
    have hk : gs k ∉ keys acc := fun hmem => hd2.1.1 (hacc k hmem)
    have hacc2 : ∀ k2, gs k2 ∈ keys (acc ++ [(gs k, v)]) → k2 ∈ k :: seen := by
      intro k2 hmem
      rw [keys_append, List.mem_append] at hmem
      rcases hmem with hmem | hmem
      · exact List.mem_cons_of_mem _ (hacc k2 hmem)
      · have : gs k2 = gs k := by simpa [keys] using hmem
        rw [gs_injective _ _ this]
        exact List.mem_cons_self _ _
    obtain ⟨vs, hvs, hms⟩ :=
      marshalEntries_ofJsonFields fmtFloat js h2.2 (k :: seen) (acc ++ [(gs k, v)]) hd2.2 hacc2
    refine ⟨(gs k, v) :: vs, ?_, ?_⟩
    · simp only [ofJsonFields, hv, mapSet_append acc (gs k) v hk, hvs]
      simp
    · simp [marshalEntries, hm, hms, toValidUTF8_gs]
end

theorem decodeMembers_cons_ok {σ : Type} (step : σ → String → Json → Decode σ)
    (k : String) (j : Json) (rest : List (String × Json)) (s s1 : σ)
    (h : step s k j = .ok s1) :
    decodeMembers step ((k, j) :: rest) s = decodeMembers step rest s1 := by
  simp only [decodeMembers, h]

theorem decodeMetadataPtr_marshal (m : MetadataPtr) :
    decodeMetadataPtr none (marshalMetadataPtr m) = .ok (m.map coerceMetadata) := by
  cases m with
  | none => rfl
  | some c => rfl

theorem decodeElems_graph (l : List MetadataPtr) :
    decodeElems (decodeMetadataPtr none) (l.map marshalMetadataPtr) =
      .ok (l.map (Option.map coerceMetadata)) := by
  induction l with
  | nil => rfl
  | cons m ms ih => simp only [List.map_cons, decodeElems, decodeMetadataPtr_marshal, ih]

theorem decodeGraph_marshal (g : Option (List MetadataPtr)) :
    decodeGraph none (marshalGraph g) =
      .ok (g.map (List.map (Option.map coerceMetadata))) := by
  cases g with
  | none => rfl
  | some l =>
    cases l with
    | nil => rfl
    | cons m ms =>
      have h := decodeElems_graph (m :: ms)
      simp only [List.map_cons] at h
      simp only [marshalGraph, decodeGraph, List.map_cons, decodeSlice, h, Option.map_some']

theorem decodeElems_chain (l : List GoString) :
    decodeElems (decodeString []) (marshalStrings l) = .ok (l.map coerceUTF8) := by
  unfold marshalStrings
  induction l with
  | nil => rfl
  | cons m ms ih =>
    have h2 : decodeString [] (Json.str (toValidUTF8 m)) = .ok (coerceUTF8 m) := rfl
    simp only [List.map_cons, decodeElems, h2, ih]

theorem decodeChain_marshal (g : Option (List GoString)) :
    decodeChain none (marshalChain g) = .ok (g.map (List.map coerceUTF8)) := by
  cases g with
  | none => rfl
  | some l =>
    cases l with
    | nil => rfl
    | cons m ms =>
      have h := decodeElems_chain (m :: ms)
      unfold marshalStrings at h
      simp only [List.map_cons] at h
      simp only [marshalChain, marshalStrings, decodeChain, List.map_cons, decodeSlice, h,
        Option.map_some']

theorem decodeU64_marshal (cur n : U64) : decodeU64 cur (marshalU64 n) = .ok n := by
  have h := n.isLt
  have h1 : (0 : Int) ≤ (n.val : Int) := Int.ofNat_nonneg _
  have h2 : ((n.val : Nat) : Int) < 18446744073709551616 := by exact_mod_cast h
  have h3 : toU64 n.val = n := by
    apply Fin.ext
    simp [toU64, Nat.mod_eq_of_lt h]
  simp [decodeU64, marshalU64, h2, h3]

theorem decodeBytes_marshal (cur r : Option (List Byte)) :
    decodeBytes cur (marshalBytes r) = .ok r := by
  cases r with
  | none => rfl
  | some b => simp [marshalBytes, decodeBytes, base64Decode_encode]

theorem decodeContainer_marshal (fmtFloat : JNum → JNum) (c : Container) (cj : Json)
    (h : marshalContainer fmtFloat c = some cj) (hr : inRangeNums cj = true) :
    ∃ c', decodeContainer none cj = .ok c' ∧
      (stableNums fmtFloat cj = true → distinctNames cj = true →
        marshalContainer fmtFloat c' = some cj) := by
  cases c with
  | none =>
    have hcj : cj = .null := by simpa [marshalContainer] using h.symm
    subst hcj
    exact ⟨none, rfl, fun _ _ => rfl⟩
  | some m =>
    cases hm : marshalEntries fmtFloat m with
    | none => simp [marshalContainer, hm] at h
    | some js =>
      have hcj : cj = .obj js := by simpa [marshalContainer, hm] using h.symm
      subst hcj
      have hr2 : inRangeNumsFields js = true := by simpa [inRangeNums] using hr
      obtain ⟨m', hm'⟩ := ofJsonFields_ok js hr2 []
      refine ⟨some m', by simp [decodeContainer, hm'], ?_⟩
      intro hst hd
      have hst2 : stableNumsFields fmtFloat js = true := by simpa [stableNums] using hst
      have hd2 : distinctNamesFields js [] = true := by simpa [distinctNames] using hd
      obtain ⟨vs, hvs, hms⟩ := marshalEntries_ofJsonFields fmtFloat js hst2 [] [] hd2
        (by intro k hk; simp [keys] at hk)
      have hvs2 : ofJsonFields js [] = .ok vs := by simpa using hvs
      rw [hm'] at hvs2
      cases hvs2
      simp [marshalContainer, hms]

theorem decodePayloadMember_code (code : U64) (message : GoString) (context command : Container)
    (result : Option (List Byte)) (j : Json) :
    decodePayloadMember ⟨code, message, context, command, result⟩ "code" j =
      match decodeU64 code j with
      | .ok x => .ok ⟨x, message, context, command, result⟩
      | .error => .error
      | .outside => .outside := by
  have hn : nameMatches "code" "code" = true := by
    decide
  have h1 := hn
  unfold decodePayloadMember
  simp only [h1, if_true, if_false, Bool.false_eq_true]

theorem decodePayloadMember_message (code : U64) (message : GoString) (context command : Container)
    (result : Option (List Byte)) (j : Json) :
    decodePayloadMember ⟨code, message, context, command, result⟩ "message" j =
      match decodeString message j with
      | .ok x => .ok ⟨code, x, context, command, result⟩
      | .error => .error
      | .outside => .outside := by
  have hn : nameMatches "message" "code" = false ∧ nameMatches "message" "message" = true := by
    decide
  obtain ⟨h1, h2⟩ := hn
  unfold decodePayloadMember
  simp only [h1, h2, if_true, if_false, Bool.false_eq_true]

theorem decodePayloadMember_context (code : U64) (message : GoString) (context command : Container)
    (result : Option (List Byte)) (j : Json) :
    decodePayloadMember ⟨code, message, context, command, result⟩ "context" j =
      match decodeContainer context j with
      | .ok x => .ok ⟨code, message, x, command, result⟩
      | .error => .error
      | .outside => .outside := by
  have hn : nameMatches "context" "code" = false ∧ nameMatches "context" "message" = false ∧ nameMatches "context" "context" = true := by
    decide
  obtain ⟨h1, h2, h3⟩ := hn
  unfold decodePayloadMember
  simp only [h1, h2, h3, if_true, if_false, Bool.false_eq_true]

theorem decodePayloadMember_command (code : U64) (message : GoString) (context command : Container)
    (result : Option (List Byte)) (j : Json) :
    decodePayloadMember ⟨code, message, context, command, result⟩ "command" j =
      match decodeContainer command j with
      | .ok x => .ok ⟨code, message, context, x, result⟩
      | .error => .error
      | .outside => .outside := by
  have hn : nameMatches "command" "code" = false ∧ nameMatches "command" "message" = false ∧ nameMatches "command" "context" = false ∧ nameMatches "command" "command" = true := by
    decide
  obtain ⟨h1, h2, h3, h4⟩ := hn
  unfold decodePayloadMember
  simp only [h1, h2, h3, h4, if_true, if_false, Bool.false_eq_true]

theorem decodePayloadMember_result (code : U64) (message : GoString) (context command : Container)
    (result : Option (List Byte)) (j : Json) :
    decodePayloadMember ⟨code, message, context, command, result⟩ "result" j =
      match decodeBytes result j with
      | .ok x => .ok ⟨code, message, context, command, x⟩
      | .error => .error
      | .outside => .outside := by
  have hn : nameMatches "result" "code" = false ∧ nameMatches "result" "message" = false ∧ nameMatches "result" "context" = false ∧ nameMatches "result" "command" = false ∧ nameMatches "result" "result" = true := by
    decide
  obtain ⟨h1, h2, h3, h4, h5⟩ := hn
  unfold decodePayloadMember
  simp only [h1, h2, h3, h4, h5, if_true, if_false, Bool.false_eq_true]

theorem decodeMsgMember_id (id : GoString) (entrance : MetadataPtr) (graph : Option (List MetadataPtr))
    (chain : Option (List GoString)) (payload : MsgPayload) (j : Json) :
    decodeMsgMember ⟨id, entrance, graph, chain, payload⟩ "id" j =
      match decodeString id j with
      | .ok x => .ok ⟨x, entrance, graph, chain, payload⟩
      | .error => .error
      | .outside => .outside := by
  have hn : nameMatches "id" "id" = true := by
    decide
  have h1 := hn
  unfold decodeMsgMember
  simp only [h1, if_true, if_false, Bool.false_eq_true]

theorem decodeMsgMember_entrance (id : GoString) (entrance : MetadataPtr) (graph : Option (List MetadataPtr))
    (chain : Option (List GoString)) (payload : MsgPayload) (j : Json) :
    decodeMsgMember ⟨id, entrance, graph, chain, payload⟩ "entrance" j =
      match decodeMetadataPtr entrance j with
      | .ok x => .ok ⟨id, x, graph, chain, payload⟩
      | .error => .error
      | .outside => .outside := by
  have hn : nameMatches "entrance" "id" = false ∧ nameMatches "entrance" "entrance" = true := by
    decide
  obtain ⟨h1, h2⟩ := hn
  unfold decodeMsgMember
  simp only [h1, h2, if_true, if_false, Bool.false_eq_true]

theorem decodeMsgMember_graph (id : GoString) (entrance : MetadataPtr) (graph : Option (List MetadataPtr))
    (chain : Option (List GoString)) (payload : MsgPayload) (j : Json) :
    decodeMsgMember ⟨id, entrance, graph, chain, payload⟩ "graph" j =
      match decodeGraph graph j with
      | .ok x => .ok ⟨id, entrance, x, chain, payload⟩
      | .error => .error
      | .outside => .outside := by
  have hn : nameMatches "graph" "id" = false ∧ nameMatches "graph" "entrance" = false ∧ nameMatches "graph" "graph" = true := by
    decide
  obtain ⟨h1, h2, h3⟩ := hn
  unfold decodeMsgMember
  simp only [h1, h2, h3, if_true, if_false, Bool.false_eq_true]

theorem decodeMsgMember_chain (id : GoString) (entrance : MetadataPtr) (graph : Option (List MetadataPtr))
    (chain : Option (List GoString)) (payload : MsgPayload) (j : Json) :
    decodeMsgMember ⟨id, entrance, graph, chain, payload⟩ "chain" j =
      match decodeChain chain j with
      | .ok x => .ok ⟨id, entrance, graph, x, payload⟩
      | .error => .error
      | .outside => .outside := by
  have hn : nameMatches "chain" "id" = false ∧ nameMatches "chain" "entrance" = false ∧ nameMatches "chain" "graph" = false ∧ nameMatches "chain" "chain" = true := by
    decide
  obtain ⟨h1, h2, h3, h4⟩ := hn
  unfold decodeMsgMember
  simp only [h1, h2, h3, h4, if_true, if_false, Bool.false_eq_true]

theorem decodeMsgMember_payload (id : GoString) (entrance : MetadataPtr) (graph : Option (List MetadataPtr))
    (chain : Option (List GoString)) (payload : MsgPayload) (j : Json) :
    decodeMsgMember ⟨id, entrance, graph, chain, payload⟩ "payload" j =
      match decodeMsgPayload payload j with
      | .ok x => .ok ⟨id, entrance, graph, chain, x⟩
      | .error => .error
      | .outside => .outside := by
  have hn : nameMatches "payload" "id" = false ∧ nameMatches "payload" "entrance" = false ∧ nameMatches "payload" "graph" = false ∧ nameMatches "payload" "chain" = false ∧ nameMatches "payload" "payload" = true := by
    decide
  obtain ⟨h1, h2, h3, h4, h5⟩ := hn
  unfold decodeMsgMember
  simp only [h1, h2, h3, h4, h5, if_true, if_false, Bool.false_eq_true]

theorem decodeMsgPayload_wire (code : U64) (msg : GoString) (cj mj : Json)
    (result : Option (List Byte)) (ctx cmd : Container)
    (h3 : decodeContainer none cj = .ok ctx) (h4 : decodeContainer none mj = .ok cmd) :
    decodeMsgPayload MsgPayload.zero
      (.obj [("code", marshalU64 code), ("message", .str (toValidUTF8 msg)), ("context", cj),
        ("command", mj), ("result", marshalBytes result)]) =
      .ok ⟨code, coerceUTF8 msg, ctx, cmd, result⟩ := by
  have e1 : decodePayloadMember ⟨0, [], none, none, none⟩ "code" (marshalU64 code) =
      .ok ⟨code, [], none, none, none⟩ := by
    rw [decodePayloadMember_code, decodeU64_marshal]
  have e2 : decodePayloadMember ⟨code, [], none, none, none⟩ "message"
      (.str (toValidUTF8 msg)) = .ok ⟨code, coerceUTF8 msg, none, none, none⟩ := by
    rw [decodePayloadMember_message]
    rfl
  have e3 : decodePayloadMember ⟨code, coerceUTF8 msg, none, none, none⟩ "context" cj =
      .ok ⟨code, coerceUTF8 msg, ctx, none, none⟩ := by
    rw [decodePayloadMember_context]
    rw [h3]
  have e4 : decodePayloadMember ⟨code, coerceUTF8 msg, ctx, none, none⟩ "command" mj =
      .ok ⟨code, coerceUTF8 msg, ctx, cmd, none⟩ := by
    rw [decodePayloadMember_command]
    rw [h4]
  have e5 : decodePayloadMember ⟨code, coerceUTF8 msg, ctx, cmd, none⟩ "result"
      (marshalBytes result) = .ok ⟨code, coerceUTF8 msg, ctx, cmd, result⟩ := by
    rw [decodePayloadMember_result, decodeBytes_marshal]
  have e0 : ∀ l, decodeMsgPayload MsgPayload.zero (.obj l) =
      decodeMembers decodePayloadMember l ⟨0, [], none, none, none⟩ := fun _ => rfl
  rw [e0]
  rw [decodeMembers_cons_ok _ _ _ _ _ _ e1, decodeMembers_cons_ok _ _ _ _ _ _ e2,
    decodeMembers_cons_ok _ _ _ _ _ _ e3, decodeMembers_cons_ok _ _ _ _ _ _ e4,
    decodeMembers_cons_ok _ _ _ _ _ _ e5]
  rfl

theorem unmarshalMsg_wire (tmp : Msg) (cj mj : Json) (ctx cmd : Container)
    (h3 : decodeContainer none cj = .ok ctx) (h4 : decodeContainer none mj = .ok cmd) :
    unmarshalMsg
      (.obj [("id", .str (toValidUTF8 tmp.Id)),
        ("entrance", marshalMetadataPtr tmp.Entrance),
        ("graph", marshalGraph tmp.Graph),
        ("chain", marshalChain tmp.Chain),
        ("payload", .obj [("code", marshalU64 tmp.Payload.Code),
          ("message", .str (toValidUTF8 tmp.Payload.Message)),
          ("context", cj),
          ("command", mj),
          ("result", marshalBytes tmp.Payload.Result)])]) =
      .ok ⟨coerceUTF8 tmp.Id, tmp.Entrance.map coerceMetadata,
        tmp.Graph.map (List.map (Option.map coerceMetadata)),
        tmp.Chain.map (List.map coerceUTF8),
        ⟨tmp.Payload.Code, coerceUTF8 tmp.Payload.Message, ctx, cmd, tmp.Payload.Result⟩⟩ := by
  have e1 : decodeMsgMember ⟨[], none, none, none, MsgPayload.zero⟩ "id"
      (.str (toValidUTF8 tmp.Id)) =
      .ok ⟨coerceUTF8 tmp.Id, none, none, none, MsgPayload.zero⟩ := by
    rw [decodeMsgMember_id]
    rfl
  have e2 : decodeMsgMember ⟨coerceUTF8 tmp.Id, none, none, none, MsgPayload.zero⟩ "entrance"
      (marshalMetadataPtr tmp.Entrance) =
      .ok ⟨coerceUTF8 tmp.Id, tmp.Entrance.map coerceMetadata, none, none, MsgPayload.zero⟩ := by
    rw [decodeMsgMember_entrance]
    rw [decodeMetadataPtr_marshal]
  have e3 : decodeMsgMember
      ⟨coerceUTF8 tmp.Id, tmp.Entrance.map coerceMetadata, none, none, MsgPayload.zero⟩ "graph"
      (marshalGraph tmp.Graph) =
      .ok ⟨coerceUTF8 tmp.Id, tmp.Entrance.map coerceMetadata,
        tmp.Graph.map (List.map (Option.map coerceMetadata)), none, MsgPayload.zero⟩ := by
    rw [decodeMsgMember_graph]
    rw [decodeGraph_marshal]
  have e4 : decodeMsgMember
      ⟨coerceUTF8 tmp.Id, tmp.Entrance.map coerceMetadata,
        tmp.Graph.map (List.map (Option.map coerceMetadata)), none, MsgPayload.zero⟩ "chain"
      (marshalChain tmp.Chain) =
      .ok ⟨coerceUTF8 tmp.Id, tmp.Entrance.map coerceMetadata,
        tmp.Graph.map (List.map (Option.map coerceMetadata)),
        tmp.Chain.map (List.map coerceUTF8), MsgPayload.zero⟩ := by
    rw [decodeMsgMember_chain]
    rw [decodeChain_marshal]
  have e5 : decodeMsgMember
      ⟨coerceUTF8 tmp.Id, tmp.Entrance.map coerceMetadata,
        tmp.Graph.map (List.map (Option.map coerceMetadata)),
        tmp.Chain.map (List.map coerceUTF8), MsgPayload.zero⟩ "payload"
      (.obj [("code", marshalU64 tmp.Payload.Code),
        ("message", .str (toValidUTF8 tmp.Payload.Message)), ("context", cj), ("command", mj),
        ("result", marshalBytes tmp.Payload.Result)]) =
      .ok ⟨coerceUTF8 tmp.Id, tmp.Entrance.map coerceMetadata,
        tmp.Graph.map (List.map (Option.map coerceMetadata)),
        tmp.Chain.map (List.map coerceUTF8),
        ⟨tmp.Payload.Code, coerceUTF8 tmp.Payload.Message, ctx, cmd, tmp.Payload.Result⟩⟩ := by
    rw [decodeMsgMember_payload]
    rw [decodeMsgPayload_wire _ _ _ _ _ _ _ h3 h4]
  have e0 : ∀ l, unmarshalMsg (.obj l) =
      decodeMembers decodeMsgMember l ⟨[], none, none, none, MsgPayload.zero⟩ := fun _ => rfl
  rw [e0]
  rw [decodeMembers_cons_ok _ _ _ _ _ _ e1, decodeMembers_cons_ok _ _ _ _ _ _ e2,
    decodeMembers_cons_ok _ _ _ _ _ _ e3, decodeMembers_cons_ok _ _ _ _ _ _ e4,
    decodeMembers_cons_ok _ _ _ _ _ _ e5]
  rfl

/-- The document `json.Marshal(tmp)` writes. -/
theorem marshalMsg_wire (fmtFloat : JNum → JNum) (tmp : Msg) (w : Json)
    (h : marshalMsg fmtFloat tmp = some w) :
    ∃ cj mj, marshalContainer fmtFloat tmp.Payload.Context = some cj ∧
      marshalContainer fmtFloat tmp.Payload.Command = some mj ∧
      w = .obj [("id", .str (toValidUTF8 tmp.Id)),
        ("entrance", marshalMetadataPtr tmp.Entrance),
        ("graph", marshalGraph tmp.Graph),
        ("chain", marshalChain tmp.Chain),
        ("payload", .obj [("code", marshalU64 tmp.Payload.Code),
          ("message", .str (toValidUTF8 tmp.Payload.Message)),
          ("context", cj),
          ("command", mj),
          ("result", marshalBytes tmp.Payload.Result)])] := by
  cases hc : marshalContainer fmtFloat tmp.Payload.Context with
  | none => simp [marshalMsg, hc] at h
  | some cj =>
    cases hm : marshalContainer fmtFloat tmp.Payload.Command with
    | none => simp [marshalMsg, hc, hm] at h
    | some mj =>
      simp only [marshalMsg, hc, hm, Option.some.injEq] at h
      exact ⟨cj, mj, rfl, rfl, h.symm⟩

theorem Serialize_eq_marshalMsg (fmtFloat : JNum → JNum) (e : ComponentMessage) :
    Serialize fmtFloat e = marshalMsg fmtFloat
      ⟨e.Id, e.entrance, e.graph, e.chain,
        ⟨(serializedPayload e).Code, (serializedPayload e).Message,
          (serializedPayload e).context, (serializedPayload e).command,
          (serializedPayload e).result⟩⟩ := by
  unfold Serialize serializedPayload
  cases e.Payload <;> rfl

/-- C4, as the code has it: for every envelope whose payload result is present,
the wire member `payload.result` that `Serialize` emits is a JSON string, whose
text is the standard base64 encoding of the stored result bytes (and decodes
back to them). -/
theorem C4_result_emitted_as_base64_string (fmtFloat : JNum → JNum) (e : ComponentMessage)
    (pl : Payload) (r : List Byte) (w : Json)
    (hp : e.Payload = some pl) (hr : pl.result = some r) (hs : Serialize fmtFloat e = some w) :
    wireResult w = some (Json.str (String.mk (base64Encode r))) ∧
    base64Decode (String.mk (base64Encode r)).data = some r := by
  rw [Serialize_eq_marshalMsg] at hs
  obtain ⟨cj, mj, -, -, hw⟩ := marshalMsg_wire fmtFloat _ w hs
  have hsp : (serializedPayload e).result = some r := by
    simp [serializedPayload, hp, hr]
  refine ⟨?_, base64Decode_encode r⟩
  rw [hw]
  have hres : ∀ (a b c d x y cj mj res : Json),
      wireResult (.obj [("id", a), ("entrance", b), ("graph", c), ("chain", d),
        ("payload", .obj [("code", x), ("message", y), ("context", cj), ("command", mj),
          ("result", res)])]) = some res := by
    intro a b c d x y cj mj res
    rfl
  rw [hres]
  simp only [hsp, marshalBytes]

/-- Witness of the amended C4 on the stored result `{}`. -/
theorem C4_result_emitted_as_base64_string_witness :
    wireResult (.obj [("id", .str "id"), ("entrance", .null), ("graph", .null),
        ("chain", .null),
        ("payload", .obj [("code", .num ⟨0, 0⟩), ("message", .str "OK"), ("context", .obj []),
          ("command", .obj []), ("result", .str "e30=")])]) =
      some (Json.str (String.mk (base64Encode [0x7b, 0x7d]))) ∧
    base64Decode (String.mk (base64Encode [0x7b, 0x7d])).data = some [0x7b, 0x7d] :=
  C4_result_emitted_as_base64_string (fun t => t)
    ⟨"id", none, none, none, some ⟨0, "OK", some [], some [], some [0x7b, 0x7d]⟩⟩
    ⟨0, "OK", some [], some [], some [0x7b, 0x7d]⟩ [0x7b, 0x7d] _ rfl rfl rfl

/-- C4 fails as stated: for the stored result `{}` (the bytes 0x7b 0x7d, raw
JSON of the empty object) `Serialize` emits `payload.result` as the JSON string
`"e30="`, the base64 text of those bytes, and not as the object. -/
theorem C4_counterexample :
    Serialize (fun t => t)
        ⟨"id", none, none, none, some ⟨0, "OK", some [], some [], some [0x7b, 0x7d]⟩⟩ =
      some (.obj [("id", .str "id"), ("entrance", .null), ("graph", .null), ("chain", .null),
        ("payload", .obj [("code", .num ⟨0, 0⟩), ("message", .str "OK"), ("context", .obj []),
          ("command", .obj []), ("result", .str "e30=")])]) ∧
    wireResult (.obj [("id", .str "id"), ("entrance", .null), ("graph", .null),
        ("chain", .null),
        ("payload", .obj [("code", .num ⟨0, 0⟩), ("message", .str "OK"), ("context", .obj []),
          ("command", .obj []), ("result", .str "e30=")])]) = some (Json.str "e30=") ∧
    base64Decode "e30=".data = some [0x7b, 0x7d] ∧
    Json.str "e30=" ≠ Json.obj [] := by
  refine ⟨rfl, rfl, by decide, ?_⟩
  intro h
  cases h

/-- C5, as the code has it: when `Serialize` succeeds on e, with every number
literal of the document in the range of `float64` (as it is for the integers
and the finite `float64` values of Go), `FromJson` on the document
succeeds and gives the id, entrance, graph and chain of e with every byte that
is not valid UTF-8 replaced by U+FFFD (so as they are when they are valid
UTF-8), and a non-nil payload with the code and result bytes `Serialize` wrote
(those of e's payload, the zero values when e has none) and the message
likewise read back; its context and command are decoded from the JSON values
those of e encode to, and encode to the same JSON values again when every
number literal in them is one that decoding into `float64` and encoding gives
back and no two members of one object have the same name. -/
theorem C5_serialize_fromjson (fmtFloat : JNum → JNum) (e recv : ComponentMessage) (w : Json)
    (hs : Serialize fmtFloat e = some w) (hr : inRangeNums w = true) :
    ∃ pl' cj mj,
      FromJson recv w = .ok (⟨coerceUTF8 e.Id, e.entrance.map coerceMetadata,
        e.graph.map (List.map (Option.map coerceMetadata)),
        e.chain.map (List.map coerceUTF8), some pl'⟩, none) ∧
      pl'.Code = (serializedPayload e).Code ∧
      pl'.Message = coerceUTF8 (serializedPayload e).Message ∧
      pl'.result = (serializedPayload e).result ∧
      marshalContainer fmtFloat (serializedPayload e).context = some cj ∧
      marshalContainer fmtFloat (serializedPayload e).command = some mj ∧
      wireContext w = some cj ∧ wireCommand w = some mj ∧
      (stableNums fmtFloat cj = true → distinctNames cj = true →
        marshalContainer fmtFloat pl'.context = some cj) ∧
      (stableNums fmtFloat mj = true → distinctNames mj = true →
        marshalContainer fmtFloat pl'.command = some mj) ∧
      (∀ s, validUTF8 s = true → coerceUTF8 s = s) := by
  rw [Serialize_eq_marshalMsg] at hs
  obtain ⟨cj, mj, hc, hm, hw⟩ := marshalMsg_wire fmtFloat _ w hs
  subst hw
  have hr2 : inRangeNums cj = true ∧ inRangeNums mj = true := by
    simp only [inRangeNums, inRangeNumsFields, Bool.and_eq_true] at hr
    exact ⟨hr.2.2.2.2.1.2.2.1, hr.2.2.2.2.1.2.2.2.1⟩
  obtain ⟨ctx, hctx, hctx2⟩ := decodeContainer_marshal fmtFloat _ cj hc hr2.1
  obtain ⟨cmd, hcmd, hcmd2⟩ := decodeContainer_marshal fmtFloat _ mj hm hr2.2
  have hu := unmarshalMsg_wire
    ⟨e.Id, e.entrance, e.graph, e.chain,
      ⟨(serializedPayload e).Code, (serializedPayload e).Message,
        (serializedPayload e).context, (serializedPayload e).command,
        (serializedPayload e).result⟩⟩ cj mj ctx cmd hctx hcmd
  refine ⟨⟨(serializedPayload e).Code, coerceUTF8 (serializedPayload e).Message, ctx, cmd,
    (serializedPayload e).result⟩, cj, mj, ?_, rfl, rfl, rfl, hc, hm, rfl, rfl, hctx2, hcmd2,
    coerceUTF8_of_valid⟩
  unfold FromJson
  rw [hu]

/-- Witness of the amended C5 on an envelope with one hop, a context holding a
string and a list, and the result `{}`. -/
theorem C5_serialize_fromjson_witness :
    ∃ pl' cj mj,
      FromJson ⟨"", none, none, none, none⟩
        (.obj [("id", .str "id"), ("entrance", .null),
          ("graph", .arr [.obj [("name", .str "a"), ("mq_type", .str "mq"), ("in", .str "x")]]),
          ("chain", .arr [.str "c"]),
          ("payload", .obj [("code", .num ⟨7, 0⟩), ("message", .str "OK"),
            ("context", .obj [("u", .str "v"), ("l", .arr [.null, .bool true])]),
            ("command", .null), ("result", .str "e30=")])]) =
        .ok (⟨"id", none, some [some ⟨"a", "mq", "x"⟩], some ["c"], some pl'⟩, none) ∧
      pl'.Code = 7 ∧ pl'.Message = gs "OK" ∧ pl'.result = some [0x7b, 0x7d] ∧
      marshalContainer (fun t => t)
        (some [("u", .string "v"), ("l", .slice [.nil, .bool true])]) = some cj ∧
      marshalContainer (fun t => t) none = some mj ∧
      wireContext (.obj [("id", .str "id"), ("entrance", .null),
          ("graph", .arr [.obj [("name", .str "a"), ("mq_type", .str "mq"), ("in", .str "x")]]),
          ("chain", .arr [.str "c"]),
          ("payload", .obj [("code", .num ⟨7, 0⟩), ("message", .str "OK"),
            ("context", .obj [("u", .str "v"), ("l", .arr [.null, .bool true])]),
            ("command", .null), ("result", .str "e30=")])]) = some cj ∧
      wireCommand (.obj [("id", .str "id"), ("entrance", .null),
          ("graph", .arr [.obj [("name", .str "a"), ("mq_type", .str "mq"), ("in", .str "x")]]),
          ("chain", .arr [.str "c"]),
          ("payload", .obj [("code", .num ⟨7, 0⟩), ("message", .str "OK"),
            ("context", .obj [("u", .str "v"), ("l", .arr [.null, .bool true])]),
            ("command", .null), ("result", .str "e30=")])]) = some mj ∧
      (stableNums (fun t => t) cj = true → distinctNames cj = true →
        marshalContainer (fun t => t) pl'.context = some cj) ∧
      (stableNums (fun t => t) mj = true → distinctNames mj = true →
        marshalContainer (fun t => t) pl'.command = some mj) ∧
      (∀ s, validUTF8 s = true → coerceUTF8 s = s) :=
  C5_serialize_fromjson (fun t => t)
    ⟨"id", none, some [some ⟨"a", "mq", "x"⟩], some ["c"],
      some ⟨7, "OK", some [("u", .string "v"), ("l", .slice [.nil, .bool true])], none,
        some [0x7b, 0x7d]⟩⟩
    ⟨"", none, none, none, none⟩ _ rfl rfl

/-- C5 fails as stated, in four ways. An envelope whose `Payload` is nil
serializes without error, and `FromJson` on the document gives an envelope with
a payload (code 0, empty message) where e has none. The id that is the single
byte 0xff, not valid UTF-8, is written as U+FFFD and comes back as that
character. The context entry `n` holding the `int64` 9007199254740993 comes
back as a `float64`, which encodes to 9007199254740992. The context keys that
are the single bytes 0xfe and 0xff are both written as U+FFFD, and one entry
comes back. -/
theorem C5_counterexample :
    (Serialize (fun t => t) ⟨"id", none, none, none, none⟩ =
        some (.obj [("id", .str "id"), ("entrance", .null), ("graph", .null), ("chain", .null),
          ("payload", .obj [("code", .num ⟨0, 0⟩), ("message", .str ""), ("context", .null),
            ("command", .null), ("result", .null)])]) ∧
      FromJson ⟨"", none, none, none, none⟩
        (.obj [("id", .str "id"), ("entrance", .null), ("graph", .null), ("chain", .null),
          ("payload", .obj [("code", .num ⟨0, 0⟩), ("message", .str ""), ("context", .null),
            ("command", .null), ("result", .null)])]) =
        .ok (⟨"id", none, none, none, some ⟨0, "", none, none, none⟩⟩, none)) ∧
    (Serialize (fun t => t)
        ⟨[.byte 0xff], none, none, none, some ⟨0, "OK", some [], some [], none⟩⟩ =
        some (.obj [("id", .str (String.mk [replacementChar])), ("entrance", .null),
          ("graph", .null), ("chain", .null),
          ("payload", .obj [("code", .num ⟨0, 0⟩), ("message", .str "OK"), ("context", .obj []),
            ("command", .obj []), ("result", .null)])]) ∧
      FromJson ⟨"", none, none, none, none⟩
        (.obj [("id", .str (String.mk [replacementChar])), ("entrance", .null),
          ("graph", .null), ("chain", .null),
          ("payload", .obj [("code", .num ⟨0, 0⟩), ("message", .str "OK"), ("context", .obj []),
            ("command", .obj []), ("result", .null)])]) =
        .ok (⟨[.char replacementChar], none, none, none,
          some ⟨0, "OK", some [], some [], none⟩⟩, none) ∧
      ([.char replacementChar] : GoString) ≠ [.byte 0xff]) ∧
    (Serialize fmtFloatExample
        ⟨"id", none, none, none,
          some ⟨0, "OK", some [("n", .int64 9007199254740993)], some [], none⟩⟩ =
        some (.obj [("id", .str "id"), ("entrance", .null), ("graph", .null), ("chain", .null),
          ("payload", .obj [("code", .num ⟨0, 0⟩), ("message", .str "OK"),
            ("context", .obj [("n", .num ⟨9007199254740993, 0⟩)]),
            ("command", .obj []), ("result", .null)])]) ∧
      FromJson ⟨"", none, none, none, none⟩
        (.obj [("id", .str "id"), ("entrance", .null), ("graph", .null), ("chain", .null),
          ("payload", .obj [("code", .num ⟨0, 0⟩), ("message", .str "OK"),
            ("context", .obj [("n", .num ⟨9007199254740993, 0⟩)]),
            ("command", .obj []), ("result", .null)])]) =
        .ok (⟨"id", none, none, none,
          some ⟨0, "OK", some [("n", .float64 ⟨9007199254740993, 0⟩)], some [], none⟩⟩,
          none) ∧
      marshalContainer fmtFloatExample (some [("n", .float64 ⟨9007199254740993, 0⟩)]) =
        some (.obj [("n", .num ⟨9007199254740992, 0⟩)]) ∧
      Json.obj [("n", .num ⟨9007199254740992, 0⟩)] ≠
        Json.obj [("n", .num ⟨9007199254740993, 0⟩)]) ∧
    (Serialize (fun t => t)
        ⟨"id", none, none, none,
          some ⟨0, "OK", some [([.byte 0xfe], .int 1), ([.byte 0xff], .int 2)], some [],
            none⟩⟩ =
        some (.obj [("id", .str "id"), ("entrance", .null), ("graph", .null), ("chain", .null),
          ("payload", .obj [("code", .num ⟨0, 0⟩), ("message", .str "OK"),
            ("context", .obj [(String.mk [replacementChar], .num ⟨1, 0⟩),
              (String.mk [replacementChar], .num ⟨2, 0⟩)]),
            ("command", .obj []), ("result", .null)])]) ∧
      FromJson ⟨"", none, none, none, none⟩
        (.obj [("id", .str "id"), ("entrance", .null), ("graph", .null), ("chain", .null),
          ("payload", .obj [("code", .num ⟨0, 0⟩), ("message", .str "OK"),
            ("context", .obj [(String.mk [replacementChar], .num ⟨1, 0⟩),
              (String.mk [replacementChar], .num ⟨2, 0⟩)]),
            ("command", .obj []), ("result", .null)])]) =
        .ok (⟨"id", none, none, none,
          some ⟨0, "OK", some [([.char replacementChar], .float64 ⟨2, 0⟩)], some [], none⟩⟩,
          none) ∧
      marshalContainer (fun t => t) (some [([.char replacementChar], .float64 ⟨2, 0⟩)]) =
        some (.obj [(String.mk [replacementChar], .num ⟨2, 0⟩)]) ∧
      Json.obj [(String.mk [replacementChar], .num ⟨2, 0⟩)] ≠
        Json.obj [(String.mk [replacementChar], .num ⟨1, 0⟩),
          (String.mk [replacementChar], .num ⟨2, 0⟩)]) := by
  refine ⟨⟨rfl, rfl⟩, ⟨rfl, rfl, by decide⟩, ⟨rfl, rfl, rfl, ?_⟩, ⟨rfl, rfl, rfl, ?_⟩⟩
  · intro h
    have h2 : (9007199254740992 : Int) = 9007199254740993 := by
      injection h with h
      injection h with h _
      injection h with _ h
      injection h with h
      injection h with h
    omega
  · intro h
    injection h with h
    injection h with _ h
    cases h
/-! ## Theorems: numbers after decoding -/

theorem ofJson_noInteger (j : Json) (v : GoVal) (h : ofJson j = .ok v) : noInteger v = true := by
  cases j with
  | null => simp only [ofJson, Decode.ok.injEq] at h; subst h; rfl
  | bool b => simp only [ofJson, Decode.ok.injEq] at h; subst h; rfl
  | num n =>
    simp only [ofJson] at h
    split at h
    · cases h
    · simp only [Decode.ok.injEq] at h; subst h; rfl
  | str s => simp only [ofJson, Decode.ok.injEq] at h; subst h; rfl
  | arr l =>
    simp only [ofJson] at h
    split at h
    · simp only [Decode.ok.injEq] at h; subst h; rfl
    · cases h
    · cases h
  | obj l =>
    simp only [ofJson] at h
    split at h
    · simp only [Decode.ok.injEq] at h; subst h; rfl
    · cases h
    · cases h

theorem mem_mapSet (m : List (GoString × GoVal)) (k : GoString) (v : GoVal)
    (kv : GoString × GoVal) (h : kv ∈ mapSet m k v) : kv ∈ m ∨ kv = (k, v) := by
  induction m with
  | nil =>
    simp only [mapSet, List.mem_singleton] at h
    exact Or.inr h
  | cons a rest ih =>
    obtain ⟨k', v'⟩ := a
    by_cases hk : k' = k
    · simp only [mapSet, hk, if_true, List.mem_cons] at h
      rcases h with h | h
      · exact Or.inr h
      · exact Or.inl (List.mem_cons_of_mem _ h)
    · simp only [mapSet, hk, if_false, List.mem_cons] at h
      rcases h with h | h
      · exact Or.inl (h ▸ List.mem_cons_self _ _)
      · rcases ih h with h2 | h2
        · exact Or.inl (List.mem_cons_of_mem _ h2)
        · exact Or.inr h2

theorem ofJsonFields_noInteger (l : List (String × Json)) :
    ∀ (acc m : List (GoString × GoVal)), (∀ kv ∈ acc, noInteger kv.2 = true) →
      ofJsonFields l acc = .ok m → ∀ kv ∈ m, noInteger kv.2 = true := by
  induction l with
  | nil =>
    intro acc m hacc h
    simp only [ofJsonFields, Decode.ok.injEq] at h
    subst h
    exact hacc
  | cons a rest ih =>
    intro acc m hacc h
    obtain ⟨k, j⟩ := a
    simp only [ofJsonFields] at h
    cases hv : ofJson j with
    | ok v =>
      rw [hv] at h
      refine ih (mapSet acc (gs k) v) m ?_ h
      intro kv hkv
      rcases mem_mapSet acc (gs k) v kv hkv with h1 | h1
      · exact hacc kv h1
      · rw [h1]; exact ofJson_noInteger j v hv
    | error => rw [hv] at h; cases h
    | outside => rw [hv] at h; cases h

theorem decodeContainer_noIntegers (cur c : Container) (j : Json) (hcur : cur.noIntegers)
    (h : decodeContainer cur j = .ok c) : c.noIntegers := by
  cases j with
  | null =>
    simp only [decodeContainer, Decode.ok.injEq] at h
    subst h
    intro m hm
    cases hm
  | obj l =>
    simp only [decodeContainer] at h
    cases hf : ofJsonFields l (cur.getD []) with
    | ok m =>
      rw [hf] at h
      simp only [Decode.ok.injEq] at h
      subst h
      intro m2 hm2
      cases hm2
      refine ofJsonFields_noInteger l (cur.getD []) m ?_ hf
      cases cur with
      | none => intro kv hkv; simp at hkv
      | some m0 => exact hcur m0 rfl
    | error => rw [hf] at h; cases h
    | outside => rw [hf] at h; cases h
  | bool b => simp [decodeContainer] at h
  | num n => simp [decodeContainer] at h
  | str s => simp [decodeContainer] at h
  | arr l => simp [decodeContainer] at h

theorem decodeMembers_inv {σ : Type} (step : σ → String → Json → Decode σ) (P : σ → Prop)
    (hstep : ∀ s k j s1, P s → step s k j = .ok s1 → P s1) :
    ∀ (l : List (String × Json)) (s s1 : σ), P s → decodeMembers step l s = .ok s1 → P s1 := by
  intro l
  induction l with
  | nil =>
    intro s s1 hs h
    simp only [decodeMembers, Decode.ok.injEq] at h
    subst h
    exact hs
  | cons a rest ih =>
    intro s s1 hs h
    obtain ⟨k, j⟩ := a
    simp only [decodeMembers] at h
    cases hm : step s k j with
    | ok s2 =>
      rw [hm] at h
      exact ih s2 s1 (hstep s k j s2 hs hm) h
    | error => rw [hm] at h; cases h
    | outside => rw [hm] at h; cases h

theorem decodePayloadMember_noIntegers (cur p : MsgPayload) (name : String) (j : Json)
    (hcur : cur.Context.noIntegers ∧ cur.Command.noIntegers)
    (h : decodePayloadMember cur name j = .ok p) :
    p.Context.noIntegers ∧ p.Command.noIntegers := by
  unfold decodePayloadMember at h
  split at h
  · cases hd : decodeU64 cur.Code j with
    | ok x => rw [hd] at h; simp only [Decode.ok.injEq] at h; subst h; exact hcur
    | error => rw [hd] at h; cases h
    | outside => rw [hd] at h; cases h
  · split at h
    · cases hd : decodeString cur.Message j with
      | ok x => rw [hd] at h; simp only [Decode.ok.injEq] at h; subst h; exact hcur
      | error => rw [hd] at h; cases h
      | outside => rw [hd] at h; cases h
    · split at h
      · cases hd : decodeContainer cur.Context j with
        | ok x =>
          rw [hd] at h
          simp only [Decode.ok.injEq] at h
          subst h
          exact ⟨decodeContainer_noIntegers _ _ _ hcur.1 hd, hcur.2⟩
        | error => rw [hd] at h; cases h
        | outside => rw [hd] at h; cases h
      · split at h
        · cases hd : decodeContainer cur.Command j with
          | ok x =>
            rw [hd] at h
            simp only [Decode.ok.injEq] at h
            subst h
            exact ⟨hcur.1, decodeContainer_noIntegers _ _ _ hcur.2 hd⟩
          | error => rw [hd] at h; cases h
          | outside => rw [hd] at h; cases h
        · split at h
          · cases hd : decodeBytes cur.Result j with
            | ok x => rw [hd] at h; simp only [Decode.ok.injEq] at h; subst h; exact hcur
            | error => rw [hd] at h; cases h
            | outside => rw [hd] at h; cases h
          · simp only [Decode.ok.injEq] at h; subst h; exact hcur

theorem decodeMsgPayload_noIntegers (cur p : MsgPayload) (j : Json)
    (hcur : cur.Context.noIntegers ∧ cur.Command.noIntegers)
    (h : decodeMsgPayload cur j = .ok p) :
    p.Context.noIntegers ∧ p.Command.noIntegers := by
  cases j with
  | null => simp only [decodeMsgPayload, Decode.ok.injEq] at h; subst h; exact hcur
  | obj l =>
    simp only [decodeMsgPayload] at h
    exact decodeMembers_inv decodePayloadMember
      (fun s => s.Context.noIntegers ∧ s.Command.noIntegers)
      (fun s k j s1 hs hm => decodePayloadMember_noIntegers s s1 k j hs hm) l cur p hcur h
  | bool b => simp [decodeMsgPayload] at h
  | num n => simp [decodeMsgPayload] at h
  | str s => simp [decodeMsgPayload] at h
  | arr l => simp [decodeMsgPayload] at h

theorem decodeMsgMember_noIntegers (cur p : Msg) (name : String) (j : Json)
    (hcur : cur.Payload.Context.noIntegers ∧ cur.Payload.Command.noIntegers)
    (h : decodeMsgMember cur name j = .ok p) :
    p.Payload.Context.noIntegers ∧ p.Payload.Command.noIntegers := by
  unfold decodeMsgMember at h
  split at h
  · cases hd : decodeString cur.Id j with
    | ok x => rw [hd] at h; simp only [Decode.ok.injEq] at h; subst h; exact hcur
    | error => rw [hd] at h; cases h
    | outside => rw [hd] at h; cases h
  · split at h
    · cases hd : decodeMetadataPtr cur.Entrance j with
      | ok x => rw [hd] at h; simp only [Decode.ok.injEq] at h; subst h; exact hcur
      | error => rw [hd] at h; cases h
      | outside => rw [hd] at h; cases h
    · split at h
      · cases hd : decodeGraph cur.Graph j with
        | ok x => rw [hd] at h; simp only [Decode.ok.injEq] at h; subst h; exact hcur
        | error => rw [hd] at h; cases h
        | outside => rw [hd] at h; cases h
      · split at h
        · cases hd : decodeChain cur.Chain j with
          | ok x => rw [hd] at h; simp only [Decode.ok.injEq] at h; subst h; exact hcur
          | error => rw [hd] at h; cases h
          | outside => rw [hd] at h; cases h
        · split at h
          · cases hd : decodeMsgPayload cur.Payload j with
            | ok x =>
              rw [hd] at h
              simp only [Decode.ok.injEq] at h
              subst h
              exact decodeMsgPayload_noIntegers _ _ _ hcur hd
            | error => rw [hd] at h; cases h
            | outside => rw [hd] at h; cases h
          · simp only [Decode.ok.injEq] at h; subst h; exact hcur

theorem noIntegers_none : Container.noIntegers none := by
  intro m hm
  cases hm

theorem unmarshalMsg_noIntegers (w : Json) (tmp : Msg) (h : unmarshalMsg w = .ok tmp) :
    tmp.Payload.Context.noIntegers ∧ tmp.Payload.Command.noIntegers := by
  cases w with
  | null =>
    simp only [unmarshalMsg, Decode.ok.injEq] at h
    subst h
    exact ⟨noIntegers_none, noIntegers_none⟩
  | obj l =>
    simp only [unmarshalMsg] at h
    exact decodeMembers_inv decodeMsgMember
      (fun s => s.Payload.Context.noIntegers ∧ s.Payload.Command.noIntegers)
      (fun s k j s1 hs hm => decodeMsgMember_noIntegers s s1 k j hs hm) l Msg.zero tmp
      ⟨noIntegers_none, noIntegers_none⟩ h
  | bool b => simp [unmarshalMsg] at h
  | num n => simp [unmarshalMsg] at h
  | str s => simp [unmarshalMsg] at h
  | arr l => simp [unmarshalMsg] at h

theorem lookup_mem (m : List (GoString × GoVal)) (k : GoString) (v : GoVal)
    (h : m.lookup k = some v) : (k, v) ∈ m := by
  induction m with
  | nil => simp at h
  | cons a rest ih =>
    obtain ⟨k', v'⟩ := a
    by_cases hk : k = k'
    · subst hk
      rw [lookup_cons_self] at h
      cases h
      exact List.mem_cons_self _ _
    · rw [lookup_cons_ne _ _ _ _ hk] at h
      exact List.mem_cons_of_mem _ (ih h)

/-- On a container without integers an accessor that follows the four-way case
split returns an error and the value 0. -/
theorem int_getter_fails (c : Container) (k : GoString) (assert : GoVal → Option Int)
    (res : Int × Option GoString) (eNil eMissing eWrong : GoString)
    (hc : c.noIntegers) (ha : ∀ v, noInteger v = true → assert v = none)
    (hf : FourOutcomes c k assert res eNil eMissing eWrong) :
    res.2 ≠ none ∧ res.1 = 0 := by
  obtain ⟨h1, h2, h3, -, -, h6, -⟩ := hf
  have hne : res.2 ≠ none := by
    cases hcc : c with
    | none =>
      rw [h1.mpr hcc]
      simp
    | some m =>
      cases hl : m.lookup k with
      | none =>
        rw [(h2 m hcc).mpr hl]
        simp
      | some v =>
        have hv : noInteger v = true := hc m hcc (k, v) (lookup_mem m k v hl)
        rw [(h3 m v hcc hl).mpr (ha v hv)]
        simp
  exact ⟨hne, h6 hne⟩

theorem noInteger_asserts (v : GoVal) (h : noInteger v = true) :
    asInt v = none ∧ asInt32 v = none ∧ asInt64 v = none := by
  cases v <;> simp [noInteger, asInt, asInt32, asInt64] at h ⊢

/-- C11 on the code: in an envelope obtained by `FromJson`, whatever the
document and the key, none of the six integer accessors returns without an
error, and each returns the value 0: a number of the document is decoded into
a `float64`, on which the type assertions to `int`, `int32` and `int64` fail. -/
theorem C11_int_getters_fail_after_FromJson (recv e : ComponentMessage) (w : Json)
    (k : GoString) (hf : FromJson recv w = .ok (e, none)) :
    ∃ pl, e.Payload = some pl ∧
      ((GetContextInt pl k).2 ≠ none ∧ (GetContextInt pl k).1 = 0) ∧
      ((GetContextInt32 pl k).2 ≠ none ∧ (GetContextInt32 pl k).1 = 0) ∧
      ((GetContextInt64 pl k).2 ≠ none ∧ (GetContextInt64 pl k).1 = 0) ∧
      ((GetCommandInt pl k).2 ≠ none ∧ (GetCommandInt pl k).1 = 0) ∧
      ((GetCommandInt32 pl k).2 ≠ none ∧ (GetCommandInt32 pl k).1 = 0) ∧
      ((GetCommandInt64 pl k).2 ≠ none ∧ (GetCommandInt64 pl k).1 = 0) := by
  unfold FromJson at hf
  cases hu : unmarshalMsg w with
  | error => rw [hu] at hf; simp at hf
  | outside => rw [hu] at hf; cases hf
  | ok tmp =>
    rw [hu] at hf
    simp only [Decode.ok.injEq, Prod.mk.injEq, and_true] at hf
    subst hf
    obtain ⟨hctx, hcmd⟩ := unmarshalMsg_noIntegers w tmp hu
    refine ⟨_, rfl, ?_, ?_, ?_, ?_, ?_, ?_⟩
    · exact int_getter_fails _ k asInt _ _ _ _ hctx (fun v hv => (noInteger_asserts v hv).1)
        (GetContextInt_outcomes _ k)
    · exact int_getter_fails _ k asInt32 _ _ _ _ hctx (fun v hv => (noInteger_asserts v hv).2.1)
        (GetContextInt32_outcomes _ k)
    · exact int_getter_fails _ k asInt64 _ _ _ _ hctx (fun v hv => (noInteger_asserts v hv).2.2)
        (GetContextInt64_outcomes _ k)
    · exact int_getter_fails _ k asInt _ _ _ _ hcmd (fun v hv => (noInteger_asserts v hv).1)
        (GetCommandInt_outcomes _ k)
    · exact int_getter_fails _ k asInt32 _ _ _ _ hcmd (fun v hv => (noInteger_asserts v hv).2.1)
        (GetCommandInt32_outcomes _ k)
    · exact int_getter_fails _ k asInt64 _ _ _ _ hcmd (fun v hv => (noInteger_asserts v hv).2.2)
        (GetCommandInt64_outcomes _ k)

/-- Witness of C11 on the document with `"k": 5` in `payload.context` and in
`payload.command`: `FromJson` succeeds and the six integer accessors return 0
with the wrong-type error, not 5. On the same document the accessors of other
types serve the decoded values: the string under `s` and the array of strings
under `a` are returned. A later member `"Context": null` sets the context to
nil, and the accessor returns the container-is-nil error. -/
theorem C11_int_getters_fail_after_FromJson_witness :
    (∃ pl, (some ⟨0, [], some [("k", .float64 ⟨5, 0⟩), ("s", .string "v"),
          ("a", .slice [.string "x", .string "y"])],
        some [("k", .float64 ⟨5, 0⟩)], none⟩ : Option Payload) = some pl ∧
      ((GetContextInt pl "k").2 ≠ none ∧ (GetContextInt pl "k").1 = 0) ∧
      ((GetContextInt32 pl "k").2 ≠ none ∧ (GetContextInt32 pl "k").1 = 0) ∧
      ((GetContextInt64 pl "k").2 ≠ none ∧ (GetContextInt64 pl "k").1 = 0) ∧
      ((GetCommandInt pl "k").2 ≠ none ∧ (GetCommandInt pl "k").1 = 0) ∧
      ((GetCommandInt32 pl "k").2 ≠ none ∧ (GetCommandInt32 pl "k").1 = 0) ∧
      ((GetCommandInt64 pl "k").2 ≠ none ∧ (GetCommandInt64 pl "k").1 = 0)) ∧
    FromJson ⟨"", none, none, none, none⟩
      (.obj [("payload", .obj [
        ("context", .obj [("k", .num ⟨5, 0⟩), ("s", .str "v"), ("a", .arr [.str "x", .str "y"])]),
        ("command", .obj [("k", .num ⟨5, 0⟩)])])]) =
      .ok (⟨"", none, none, none,
        some ⟨0, "", some [("k", .float64 ⟨5, 0⟩), ("s", .string "v"),
            ("a", .slice [.string "x", .string "y"])],
          some [("k", .float64 ⟨5, 0⟩)], none⟩⟩, none) ∧
    GetContextInt ⟨0, "", some [("k", .float64 ⟨5, 0⟩), ("s", .string "v"),
        ("a", .slice [.string "x", .string "y"])], some [("k", .float64 ⟨5, 0⟩)], none⟩ "k" =
      (0, some (gs "the type of context key k is not int")) ∧
    GetContextInt32 ⟨0, "", some [("k", .float64 ⟨5, 0⟩), ("s", .string "v"),
        ("a", .slice [.string "x", .string "y"])], some [("k", .float64 ⟨5, 0⟩)], none⟩ "k" =
      (0, some (gs "the type of context key k is not int32")) ∧
    GetContextInt64 ⟨0, "", some [("k", .float64 ⟨5, 0⟩), ("s", .string "v"),
        ("a", .slice [.string "x", .string "y"])], some [("k", .float64 ⟨5, 0⟩)], none⟩ "k" =
      (0, some (gs "the type of context key k is not int64")) ∧
    GetCommandInt ⟨0, "", some [("k", .float64 ⟨5, 0⟩), ("s", .string "v"),
        ("a", .slice [.string "x", .string "y"])], some [("k", .float64 ⟨5, 0⟩)], none⟩ "k" =
      (0, some (gs "the type of command key k is not int")) ∧
    GetCommandInt32 ⟨0, "", some [("k", .float64 ⟨5, 0⟩), ("s", .string "v"),
        ("a", .slice [.string "x", .string "y"])], some [("k", .float64 ⟨5, 0⟩)], none⟩ "k" =
      (0, some (gs "the type of command key k is not int32")) ∧
    GetCommandInt64 ⟨0, "", some [("k", .float64 ⟨5, 0⟩), ("s", .string "v"),
        ("a", .slice [.string "x", .string "y"])], some [("k", .float64 ⟨5, 0⟩)], none⟩ "k" =
      (0, some (gs "the type of command key k is not int64")) ∧
    GetContextString ⟨0, "", some [("k", .float64 ⟨5, 0⟩), ("s", .string "v"),
        ("a", .slice [.string "x", .string "y"])], some [("k", .float64 ⟨5, 0⟩)], none⟩ "s" =
      (gs "v", none) ∧
    GetContextStringArray ⟨0, "", some [("k", .float64 ⟨5, 0⟩), ("s", .string "v"),
        ("a", .slice [.string "x", .string "y"])], some [("k", .float64 ⟨5, 0⟩)], none⟩ "a" =
      (some [gs "x", gs "y"], none) ∧
    FromJson ⟨"", none, none, none, none⟩
      (.obj [("payload", .obj [("context", .obj [("k", .num ⟨5, 0⟩)]), ("Context", .null)])]) =
      .ok (⟨"", none, none, none, some ⟨0, "", none, none, none⟩⟩, none) ∧
    GetContextInt ⟨0, "", none, none, none⟩ "k" =
      (0, some (gs "the context container is nil")) :=
  ⟨C11_int_getters_fail_after_FromJson ⟨"", none, none, none, none⟩
      ⟨"", none, none, none,
        some ⟨0, "", some [("k", .float64 ⟨5, 0⟩), ("s", .string "v"),
            ("a", .slice [.string "x", .string "y"])],
          some [("k", .float64 ⟨5, 0⟩)], none⟩⟩
      (.obj [("payload", .obj [
        ("context", .obj [("k", .num ⟨5, 0⟩), ("s", .str "v"), ("a", .arr [.str "x", .str "y"])]),
        ("command", .obj [("k", .num ⟨5, 0⟩)])])]) "k" rfl,
    rfl, rfl, rfl, rfl, rfl, rfl, rfl, rfl, rfl, rfl, rfl⟩
/-! ## Theorems: string-array accessors -/

theorem collectStrings_strings (ss : List GoString) :
    ∀ (i : Nat) (acc : List GoString) (tail : List GoVal),
      collectStrings (ss.map GoVal.string ++ tail) i acc =
        collectStrings tail (i + ss.length) (acc ++ ss) := by
  induction ss with
  | nil => intro i acc tail; simp
  | cons s rest ih =>
    intro i acc tail
    have h1 : collectStrings ((s :: rest).map GoVal.string ++ tail) i acc =
        collectStrings (rest.map GoVal.string ++ tail) (i + 1) (acc ++ [s]) := rfl
    have h2 : i + 1 + rest.length = i + (s :: rest).length := by
      simp only [List.length_cons]; omega
    have h3 : acc ++ [s] ++ rest = acc ++ s :: rest := by simp
    rw [h1, ih, h2, h3]

theorem collectStrings_bad (x : GoVal) (hx : ∀ s, x ≠ .string s) (rest : List GoVal)
    (i : Nat) (acc : List GoString) : collectStrings (x :: rest) i acc = .error i := by
  cases x <;> first | rfl | exact absurd rfl (hx _)

theorem collectStrings_split (l : List GoVal) :
    (∃ ss : List GoString, l = ss.map GoVal.string) ∨
    (∃ (ss : List GoString) (x : GoVal) (rest : List GoVal),
      l = ss.map GoVal.string ++ x :: rest ∧ ∀ s, x ≠ .string s) := by
  induction l with
  | nil => exact Or.inl ⟨[], rfl⟩
  | cons a t ih =>
    by_cases ha : ∃ s, a = .string s
    · obtain ⟨s, rfl⟩ := ha
      rcases ih with ⟨ss, hss⟩ | ⟨ss, x, rest, hl, hx⟩
      · exact Or.inl ⟨s :: ss, by simp [hss]⟩
      · exact Or.inr ⟨s :: ss, x, rest, by simp [hl], hx⟩
    · refine Or.inr ⟨[], a, t, rfl, ?_⟩
      intro s hs
      exact ha ⟨s, hs⟩

theorem strings_ne_split (ss ss2 : List GoString) (x : GoVal) (rest : List GoVal)
    (hx : ∀ s, x ≠ .string s) :
    ss2.map GoVal.string ≠ ss.map GoVal.string ++ x :: rest := by
  induction ss generalizing ss2 with
  | nil =>
    cases ss2 with
    | nil => simp
    | cons a t =>
      intro h
      simp only [List.map_cons, List.map_nil, List.nil_append, List.cons.injEq] at h
      exact hx a h.1.symm
  | cons s t ih =>
    cases ss2 with
    | nil => simp
    | cons a t2 =>
      intro h
      simp only [List.map_cons, List.cons_append, List.cons.injEq] at h
      exact ih t2 h.2

theorem split_length_unique (ss ss2 : List GoString) (x x2 : GoVal) (rest rest2 : List GoVal)
    (hx : ∀ s, x ≠ .string s) (hx2 : ∀ s, x2 ≠ .string s)
    (h : ss.map GoVal.string ++ x :: rest = ss2.map GoVal.string ++ x2 :: rest2) :
    ss.length = ss2.length := by
  induction ss generalizing ss2 with
  | nil =>
    cases ss2 with
    | nil => rfl
    | cons a t =>
      simp only [List.map_cons, List.map_nil, List.nil_append, List.cons_append,
        List.cons.injEq] at h
      exact absurd h.1 (hx a)
  | cons s t ih =>
    cases ss2 with
    | nil =>
      simp only [List.map_cons, List.map_nil, List.nil_append, List.cons_append,
        List.cons.injEq] at h
      exact absurd h.1.symm (hx2 s)
    | cons a t2 =>
      simp only [List.map_cons, List.cons_append, List.cons.injEq] at h
      simp only [List.length_cons, ih t2 h.2]

theorem map_string_injective (a b : List GoString)
    (h : a.map GoVal.string = b.map GoVal.string) : a = b := by
  induction a generalizing b with
  | nil => cases b with
    | nil => rfl
    | cons x t => simp at h
  | cons x t ih =>
    cases b with
    | nil => simp at h
    | cons y t2 =>
      simp only [List.map_cons, List.cons.injEq, GoVal.string.injEq] at h
      rw [h.1, ih t2 h.2]

/-- A string-array accessor that follows the case split on the stored value
has the outcomes of `StringArrayOutcomes`. -/
theorem stringArrayOutcomes_of_cases (v : GoVal)
    (res : Option (List GoString) × Option GoString)
    (eNotArray : GoString) (eIndex : Nat → GoString)
    (hres : res =
      match ifaceElems v with
      | some l =>
        match collectStrings l 0 [] with
        | .ok tmpArray => (some tmpArray, none)
        | .error i => (none, some (eIndex i))
      | none => (none, some eNotArray)) :
    StringArrayOutcomes v res eNotArray eIndex := by
  subst hres
  unfold StringArrayOutcomes
  cases hv : ifaceElems v with
  | some l =>
    rcases collectStrings_split l with ⟨ss, rfl⟩ | ⟨ss, x, rest, rfl, hx⟩
    · have hc : collectStrings (ss.map GoVal.string) 0 [] = .ok ss := by
        have := collectStrings_strings ss 0 [] []
        simpa [collectStrings] using this
      dsimp only
      rw [hc]
      refine ⟨⟨fun _ => ⟨ss, rfl⟩, fun _ => rfl⟩, ?_, ?_, ?_, ?_⟩
      · intro ss2 h2
        have : ss = ss2 := map_string_injective _ _ (Option.some.inj h2)
        subst this
        refine ⟨rfl, ?_⟩
        intro out ho
        cases ho
        rfl
      · intro h; cases h
      · intro ss2 x rest h2 hx
        exact absurd (Option.some.inj h2) (strings_ne_split ss2 ss x rest hx)
      · intro h; exact absurd rfl h
    · have hc : collectStrings (ss.map GoVal.string ++ x :: rest) 0 [] = .error ss.length := by
        rw [collectStrings_strings, collectStrings_bad x hx]
        simp
      dsimp only
      rw [hc]
      refine ⟨⟨fun h => (by cases h), ?_⟩, ?_, ?_, ?_, fun _ => rfl⟩
      · rintro ⟨ss2, h2⟩
        exact absurd (Option.some.inj h2).symm (strings_ne_split ss ss2 x rest hx)
      · intro ss2 h2
        exact absurd (Option.some.inj h2).symm (strings_ne_split ss ss2 x rest hx)
      · intro h; cases h
      · intro ss2 x2 rest2 h2 hx2
        have hlen : ss2.length = ss.length :=
          (split_length_unique ss ss2 x x2 rest rest2 hx hx2 (Option.some.inj h2)).symm
        rw [hlen]
  | none =>
    dsimp only
    refine ⟨⟨fun h => (by cases h), ?_⟩, ?_, fun _ => rfl, ?_, fun _ => rfl⟩
    · rintro ⟨ss, h⟩; cases h
    · intro ss h; cases h
    · intro ss x rest h _; cases h

/-- With an initialized container and key k present, `GetContextStringArray` and
`GetCommandStringArray` succeed iff the stored value is of the type
`[]interface{}` and all its elements are strings, and then return exactly
those strings in order (same length; the empty and the nil `[]interface{}`
give the empty list); a value of any other type, a `[]string` included, gives
the not-array error; a `[]interface{}` with an element that is not a string
gives the error naming the smallest such index, and no list is returned. -/
theorem string_array_getters_outcomes (p : Payload) (key : GoString) :
    (∀ m v, p.context = some m → m.lookup key = some v →
      StringArrayOutcomes v (GetContextStringArray p key)
        ("the type of context key " ++ key ++ " is not array")
        (fun i => "the context key of " ++ key ++ "\x27s value type at index of " ++
          gs (toString i) ++ " is not string")) ∧
    (∀ m v, p.command = some m → m.lookup key = some v →
      StringArrayOutcomes v (GetCommandStringArray p key)
        ("the type of command key " ++ key ++ " is not array")
        (fun i => "the command key of " ++ key ++ "\x27s value type at index of " ++
          gs (toString i) ++ " is not string")) ∧
    (∀ l : Option (List GoString), ifaceElems (.strSlice l) = none) ∧
    ifaceElems .nilSlice = some [] ∧
    (∀ l : List GoVal, ifaceElems (.slice l) = some l) := by
  refine ⟨?_, ?_, fun _ => rfl, rfl, fun _ => rfl⟩
  · intro m v hc hl
    apply stringArrayOutcomes_of_cases
    unfold GetContextStringArray
    rw [hc]
    dsimp only
    rw [hl]
  · intro m v hc hl
    apply stringArrayOutcomes_of_cases
    unfold GetCommandStringArray
    rw [hc]
    dsimp only
    rw [hl]

/-- C12 on the code: with the `[]string` holding `a` and `b` stored under `k`, a
sequence all of whose elements are strings, both accessors return the
not-array error and no list; with the same strings stored as a
`[]interface{}` they return them. -/
theorem C12_string_slice_is_not_array :
    GetContextStringArray ⟨0, "OK", some [("k", .strSlice (some ["a", "b"]))], some [], none⟩
        "k" = (none, some (gs "the type of context key k is not array")) ∧
    GetCommandStringArray ⟨0, "OK", some [], some [("k", .strSlice (some ["a", "b"]))], none⟩
        "k" = (none, some (gs "the type of command key k is not array")) ∧
    GetContextStringArray ⟨0, "OK", some [("k", .slice [.string "a", .string "b"])], some [],
        none⟩ "k" = (some [gs "a", gs "b"], none) ∧
    GetCommandStringArray ⟨0, "OK", some [], some [("k", .slice [.string "a", .string "b"])],
        none⟩ "k" = (some [gs "a", gs "b"], none) := by
  refine ⟨?_, ?_, ?_, ?_⟩ <;> decide
/-! ## Theorems: creating a message -/

theorem IsStruct_cases :
    IsStruct .nil = false ∧ (∀ b, IsStruct (.bool b) = false) ∧
    (∀ n, IsStruct (.int n) = false) ∧ (∀ n, IsStruct (.int32 n) = false) ∧
    (∀ n, IsStruct (.int64 n) = false) ∧ (∀ n, IsStruct (.float64 n) = false) ∧
    (∀ s, IsStruct (.string s) = false) ∧ (∀ l, IsStruct (.slice l) = false) ∧
    IsStruct .nilSlice = false ∧ (∀ m, IsStruct (.map m) = true) ∧
    IsStruct .nilMap = true ∧ (∀ l, IsStruct (.strSlice l) = false) ∧
    (∀ m, IsStruct (.strMap m) = true) ∧ IsStruct .chan = false :=
  ⟨rfl, fun _ => rfl, fun _ => rfl, fun _ => rfl, fun _ => rfl, fun _ => rfl, fun _ => rfl,
    fun _ => rfl, rfl, fun _ => rfl, rfl, fun _ => rfl, fun _ => rfl, rfl⟩

/-- What `setResult` returns, by the three tests it makes. -/
theorem setResult_cases (fmtFloat : JNum → JNum) (render : Json → List Byte) (p : Payload)
    (v : GoVal) :
    (v.shape = .null → setResult fmtFloat render p v = ({ p with result := none }, none)) ∧
    (v.shape ≠ .null → IsStruct v = false → IsStructArray v = false →
      setResult fmtFloat render p v = (p, some (gs "worker return must struct or []struct"))) ∧
    (∀ j, v.shape ≠ .null → (IsStruct v = true ∨ IsStructArray v = true) →
      marshalValue fmtFloat v = some j →
      setResult fmtFloat render p v = ({ p with result := some (render j) }, none)) ∧
    (v.shape ≠ .null → (IsStruct v = true ∨ IsStructArray v = true) →
      marshalValue fmtFloat v = none →
      setResult fmtFloat render p v =
        ({ p with result := none }, some (gs "json: unsupported type"))) := by
  refine ⟨?_, ?_, ?_, ?_⟩
  · intro h
    cases v <;> first | rfl | (simp [GoVal.shape] at h)
  · intro h hs ha
    cases v <;> first | (simp [GoVal.shape] at h; done) | simp [setResult, hs, ha]
  · intro j h hsa hm
    have hb : (!IsStruct v && !IsStructArray v) = false := by
      rcases hsa with h1 | h1 <;> simp [h1]
    cases v <;> first | (simp [GoVal.shape] at h; done) | simp [setResult, hb, hm]
  · intro h hsa hm
    have hb : (!IsStruct v && !IsStructArray v) = false := by
      rcases hsa with h1 | h1 <;> simp [h1]
    cases v <;> first | (simp [GoVal.shape] at h; done) | simp [setResult, hb, hm]

/-- C13, as the code has it (with `uuid.NewV4` giving the identifier `msgId`):
`NewComponentMessage` returns an error iff v is non-nil and either is neither a
single object-shaped value nor an array of object-shaped values, or has no
JSON encoding; for a nil v there is no error and the result is absent; for an
accepted v with the JSON encoding j the result is the text of j; and without
an error the payload has code 0, message `OK`, allocated empty context and
command, and the envelope has nil graph and chain. -/
theorem C13_create (msgId : GoString) (fmtFloat : JNum → JNum) (render : Json → List Byte)
    (entrance : MetadataPtr) (v : GoVal) :
    ((NewComponentMessage (some msgId) fmtFloat render entrance v).2 ≠ none ↔
      v.shape ≠ .null ∧
        ((IsStruct v = false ∧ IsStructArray v = false) ∨ marshalValue fmtFloat v = none)) ∧
    (v.shape = .null →
      NewComponentMessage (some msgId) fmtFloat render entrance v =
        (some ⟨msgId, entrance, none, none, some ⟨0, "OK", some [], some [], none⟩⟩, none)) ∧
    (∀ j, v.shape ≠ .null → (IsStruct v = true ∨ IsStructArray v = true) →
      marshalValue fmtFloat v = some j →
      NewComponentMessage (some msgId) fmtFloat render entrance v =
        (some ⟨msgId, entrance, none, none, some ⟨0, "OK", some [], some [], some (render j)⟩⟩,
          none)) ∧
    ((NewComponentMessage (some msgId) fmtFloat render entrance v).2 = none →
      ∃ r, NewComponentMessage (some msgId) fmtFloat render entrance v =
        (some ⟨msgId, entrance, none, none, some ⟨0, "OK", some [], some [], r⟩⟩, none)) ∧
    (IsStruct (.string "s") = false ∧ IsStructArray (.string "s") = false ∧
      IsStruct (.int 1) = false ∧ IsStructArray (.int 1) = false) := by
  obtain ⟨h1, h2, h3, h4⟩ :=
    setResult_cases fmtFloat render ⟨0, "OK", some [], some [], none⟩ v
  have hN : NewComponentMessage (some msgId) fmtFloat render entrance v =
      (some ⟨msgId, entrance, none, none,
        some (setResult fmtFloat render ⟨0, "OK", some [], some [], none⟩ v).1⟩,
        (setResult fmtFloat render ⟨0, "OK", some [], some [], none⟩ v).2) := rfl
  by_cases hnull : v.shape = .null
  · have e1 := h1 hnull
    refine ⟨?_, ?_, ?_, ?_, ⟨rfl, rfl, rfl, rfl⟩⟩
    · rw [hN, e1]; simp [hnull]
    · intro _; rw [hN, e1]
    · intro j hv; exact absurd hnull hv
    · intro _; exact ⟨none, by rw [hN, e1]⟩
  · by_cases hsa : IsStruct v = true ∨ IsStructArray v = true
    · cases hm : marshalValue fmtFloat v with
      | some j =>
        have e3 := h3 j hnull hsa hm
        have hnot : ¬ (IsStruct v = false ∧ IsStructArray v = false) := by
          rcases hsa with h | h <;> simp [h]
        refine ⟨?_, ?_, ?_, ?_, ⟨rfl, rfl, rfl, rfl⟩⟩
        · rw [hN, e3]; simp [hnot]
        · intro h; exact absurd h hnull
        · intro j2 _ _ hj2
          cases hj2
          rw [hN, e3]
        · intro _; exact ⟨some (render j), by rw [hN, e3]⟩
      | none =>
        have e4 := h4 hnull hsa hm
        refine ⟨?_, ?_, ?_, ?_, ⟨rfl, rfl, rfl, rfl⟩⟩
        · rw [hN, e4]; simp [hnull]
        · intro h; exact absurd h hnull
        · intro j2 _ _ hj2; cases hj2
        · intro he; rw [hN, e4] at he; simp at he
    · have hs : IsStruct v = false := by
        cases h : IsStruct v with
        | false => rfl
        | true => exact absurd (Or.inl h) hsa
      have ha : IsStructArray v = false := by
        cases h : IsStructArray v with
        | false => rfl
        | true => exact absurd (Or.inr h) hsa
      have e2 := h2 hnull hs ha
      refine ⟨?_, ?_, ?_, ?_, ⟨rfl, rfl, rfl, rfl⟩⟩
      · rw [hN, e2]; simp [hnull, hs, ha]
      · intro h; exact absurd h hnull
      · intro j2 _ h _; exact absurd h hsa
      · intro he; rw [hN, e2] at he; simp at he

/-- C13 fails as stated: for the object-shaped value that holds a channel,
which `json.Marshal` cannot encode, `NewComponentMessage` returns an error
although the value is a single object-shaped value. -/
theorem C13_counterexample :
    IsStruct (.map [("c", .chan)]) = true ∧
    NewComponentMessage (some "id") (fun t => t) (fun _ => []) none (.map [("c", .chan)]) =
      (some ⟨"id", none, none, none, some ⟨0, "OK", some [], some [], none⟩⟩,
        some (gs "json: unsupported type")) := by
  exact ⟨rfl, rfl⟩

/-! ## Theorems: the result bytes in `UnmarshalResult` -/

/-- C14 on the code: for the result `"{}` (a quote, `{`, `}`), which starts with
a quote and does not end with one, `UnmarshalResult` removes the first and the
last byte all the same: the decoder is handed the single byte `{` and the
stored result becomes that byte. A result wrapped in a pair of quotes is
stripped of both, and a result that does not start with a quote is handed on
as it is. -/
theorem C14_strip_tests_first_byte_only :
    UnmarshalResult (fun (d : List Byte) (_ : List Byte) => (d, (none : Option String)))
        ⟨0, "OK", none, none, some [0x22, 0x7b, 0x7d]⟩ [] =
      some (⟨0, "OK", none, none, some [0x7b]⟩, [0x7b], none) ∧
    UnmarshalResult (fun (d : List Byte) (_ : List Byte) => (d, (none : Option String)))
        ⟨0, "OK", none, none, some [0x22, 0x7b, 0x7d, 0x22]⟩ [] =
      some (⟨0, "OK", none, none, some [0x7b, 0x7d]⟩, [0x7b, 0x7d], none) ∧
    UnmarshalResult (fun (d : List Byte) (_ : List Byte) => (d, (none : Option String)))
        ⟨0, "OK", none, none, some [0x7b, 0x7d, 0x22]⟩ [] =
      some (⟨0, "OK", none, none, some [0x7b, 0x7d, 0x22]⟩, [0x7b, 0x7d, 0x22], none) := by
  exact ⟨rfl, rfl, rfl⟩

/-- C18 on the code: `FromJson` gives a present result of length 0 for the wire
value `"result": ""`, and `UnmarshalResult` on it panics at `p.result[0]`
(index out of range); on the result that is the single quote byte it panics at
`p.result[1:0]` (slice bounds out of range). -/
theorem C18_unmarshal_result_panics :
    FromJson ⟨"", none, none, none, none⟩
      (.obj [("id", .str "id"),
        ("payload", .obj [("code", .num ⟨0, 0⟩), ("message", .str "OK"),
          ("result", .str "")])]) =
      .ok (⟨"id", none, none, none, some ⟨0, "OK", none, none, some []⟩⟩, none) ∧
    UnmarshalResult (fun (d : List Byte) (_ : List Byte) => (d, (none : Option String)))
        ⟨0, "OK", none, none, some []⟩ [] = none ∧
    UnmarshalResult (fun (d : List Byte) (_ : List Byte) => (d, (none : Option String)))
        ⟨0, "OK", none, none, some [0x22]⟩ [] = none := by
  exact ⟨rfl, rfl, rfl⟩

/-- C19 on the code: with nil stored under `k`, `AppendCommand("k", nil)` panics
(`reflect.TypeOf(nil)` is the nil `Type`, on which `Kind` is called); with the
`int` 1 stored, appending the `int` 2 returns with the entry unchanged. -/
theorem C19_append_nil_to_nil_panics :
    AppendCommand ⟨0, "OK", none, some [("k", .nil)], none⟩ "k" .nil = none ∧
    AppendCommand ⟨0, "OK", none, some [("k", .int 1)], none⟩ "k" (.int 2) =
      some ⟨0, "OK", none, some [("k", .int 1)], none⟩ := by
  exact ⟨rfl, rfl⟩

theorem UnmarshalResult_no_quote {T E : Type} (unmarshal : List Byte → T → T × Option E)
    (p : Payload) (v : T) (b0 : Byte) (rest : List Byte)
    (hr : p.result = some (b0 :: rest)) (hb : b0 ≠ quote) :
    UnmarshalResult unmarshal p v =
      match base64Decode ((b0 :: rest).map byteToChar) with
      | none => some (p, unmarshal (b0 :: rest) v)
      | some dst => some (p, unmarshal dst v) := by
  obtain ⟨c, m, ctx, cmd, r⟩ := p
  simp only at hr
  subst hr
  simp only [UnmarshalResult, hb, if_false]

theorem UnmarshalResult_quote {T E : Type} (unmarshal : List Byte → T → T × Option E)
    (p q : Payload) (v : T) (out : T × Option E) (rest : List Byte)
    (hr : p.result = some (quote :: rest))
    (h : UnmarshalResult unmarshal p v = some (q, out)) :
    q = { p with result := some rest.dropLast } := by
  cases rest with
  | nil => simp [UnmarshalResult, hr] at h
  | cons a t =>
    have hlen : 1 ≤ (quote :: a :: t).length - 1 := by simp
    have hstrip : ((quote :: a :: t).take ((quote :: a :: t).length - 1)).drop 1 =
        (a :: t).dropLast := by
      rw [List.dropLast_eq_take]
      simp
    simp only [UnmarshalResult, hr, if_true, hlen, hstrip] at h
    cases hd : base64Decode (List.map byteToChar (a :: t).dropLast) with
    | none =>
      rw [hd] at h
      simp only [Option.some.injEq, Prod.mk.injEq] at h
      exact h.1.symm
    | some dst =>
      rw [hd] at h
      simp only [Option.some.injEq, Prod.mk.injEq] at h
      exact h.1.symm

theorem dropLast_append_quote (mid : List Byte) : (mid ++ [quote]).dropLast = mid := by
  simp

/-- C20, as the code has it: when `UnmarshalResult` returns, the fields other
than the result are as before; if the result is absent or does not start with a
quote, the bytes `GetResult` returns are the same after the call as before it
and a second call gives the same outcome; if the result is wrapped in a pair of
quotes, the stored result has become the bytes between the two quotes. -/
theorem C20_unmarshal_result_frame {T E : Type} (unmarshal : List Byte → T → T × Option E)
    (p q : Payload) (v : T) (out : T × Option E)
    (h : UnmarshalResult unmarshal p v = some (q, out)) :
    q.Code = p.Code ∧ q.Message = p.Message ∧ q.context = p.context ∧
    q.command = p.command ∧
    ((∀ rest, p.result ≠ some (quote :: rest)) →
      GetResult q = GetResult p ∧ UnmarshalResult unmarshal q v = some (q, out)) ∧
    (∀ mid, p.result = some (quote :: (mid ++ [quote])) → GetResult q = some mid) := by
  have hq : (∀ rest, p.result ≠ some (quote :: rest)) → q = p := by
    intro hn
    cases hr : p.result with
    | none =>
      simp only [UnmarshalResult, hr, Option.some.injEq, Prod.mk.injEq] at h
      exact h.1.symm
    | some r =>
      cases r with
      | nil => simp [UnmarshalResult, hr] at h
      | cons b0 rest =>
        have hb : b0 ≠ quote := by
          intro hb
          exact hn rest (by rw [hr, hb])
        rw [UnmarshalResult_no_quote unmarshal p v b0 rest hr hb] at h
        cases hd : base64Decode ((b0 :: rest).map byteToChar) with
        | none =>
          rw [hd] at h
          simp only [Option.some.injEq, Prod.mk.injEq] at h
          exact h.1.symm
        | some dst =>
          rw [hd] at h
          simp only [Option.some.injEq, Prod.mk.injEq] at h
          exact h.1.symm
  have hfields : q.Code = p.Code ∧ q.Message = p.Message ∧ q.context = p.context ∧
      q.command = p.command := by
    by_cases hn : ∀ rest, p.result ≠ some (quote :: rest)
    · rw [hq hn]; exact ⟨rfl, rfl, rfl, rfl⟩
    · have hn2 : ∃ rest, p.result = some (quote :: rest) := by
        by_contra hc
        exact hn (fun rest hr => hc ⟨rest, hr⟩)
      obtain ⟨rest, hr⟩ := hn2
      rw [UnmarshalResult_quote unmarshal p q v out rest hr h]
      exact ⟨rfl, rfl, rfl, rfl⟩
  refine ⟨hfields.1, hfields.2.1, hfields.2.2.1, hfields.2.2.2, ?_, ?_⟩
  · intro hn
    have := hq hn
    subst this
    exact ⟨rfl, h⟩
  · intro mid hr
    rw [UnmarshalResult_quote unmarshal p q v out (mid ++ [quote]) hr h]
    show some (mid ++ [quote]).dropLast = some mid
    rw [dropLast_append_quote]

/-- Witness of the amended C20 on the quoted result `"e30="`. -/
theorem C20_unmarshal_result_frame_witness :
    (0 : U64) = 0 ∧ gs "OK" = gs "OK" ∧ (none : Container) = none ∧ (none : Container) = none ∧
    ((∀ rest, (some [0x22, 0x65, 0x33, 0x30, 0x3d, 0x22] : Option (List Byte)) ≠
        some (quote :: rest)) →
      GetResult ⟨0, "OK", none, none, some [0x65, 0x33, 0x30, 0x3d]⟩ =
        GetResult ⟨0, "OK", none, none, some [0x22, 0x65, 0x33, 0x30, 0x3d, 0x22]⟩ ∧
      UnmarshalResult (fun (d : List Byte) (_ : List Byte) => (d, (none : Option String)))
        ⟨0, "OK", none, none, some [0x65, 0x33, 0x30, 0x3d]⟩ [] =
        some (⟨0, "OK", none, none, some [0x65, 0x33, 0x30, 0x3d]⟩, [0x7b, 0x7d], none)) ∧
    (∀ mid, (some [0x22, 0x65, 0x33, 0x30, 0x3d, 0x22] : Option (List Byte)) =
        some (quote :: (mid ++ [quote])) →
      GetResult ⟨0, "OK", none, none, some [0x65, 0x33, 0x30, 0x3d]⟩ = some mid) :=
  C20_unmarshal_result_frame (fun d _ => (d, none))
    ⟨0, "OK", none, none, some [0x22, 0x65, 0x33, 0x30, 0x3d, 0x22]⟩
    ⟨0, "OK", none, none, some [0x65, 0x33, 0x30, 0x3d]⟩ [] ([0x7b, 0x7d], none) rfl

/-- C20 fails as stated: on the quoted result `"e30="` the call leaves `e30=`
stored, so `GetResult` differs after the call; and on the doubly quoted result
`""e30=""` the first call hands the decoder the bytes `"e30="` and the second
call the bytes `{}`. -/
theorem C20_counterexample :
    (UnmarshalResult (fun (d : List Byte) (_ : List Byte) => (d, (none : Option String)))
        ⟨0, "OK", none, none, some [0x22, 0x65, 0x33, 0x30, 0x3d, 0x22]⟩ []).map
      (fun r => GetResult r.1) = some (some [0x65, 0x33, 0x30, 0x3d]) ∧
    GetResult ⟨0, "OK", none, none, some [0x22, 0x65, 0x33, 0x30, 0x3d, 0x22]⟩ ≠
      some [0x65, 0x33, 0x30, 0x3d] ∧
    UnmarshalResult (fun (d : List Byte) (_ : List Byte) => (d, (none : Option String)))
        ⟨0, "OK", none, none, some [0x22, 0x22, 0x65, 0x33, 0x30, 0x3d, 0x22, 0x22]⟩ [] =
      some (⟨0, "OK", none, none, some [0x22, 0x65, 0x33, 0x30, 0x3d, 0x22]⟩,
        [0x22, 0x65, 0x33, 0x30, 0x3d, 0x22], none) ∧
    UnmarshalResult (fun (d : List Byte) (_ : List Byte) => (d, (none : Option String)))
        ⟨0, "OK", none, none, some [0x22, 0x65, 0x33, 0x30, 0x3d, 0x22]⟩ [] =
      some (⟨0, "OK", none, none, some [0x65, 0x33, 0x30, 0x3d]⟩, [0x7b, 0x7d], none) := by
  refine ⟨rfl, ?_, rfl, rfl⟩
  decide

/-! ## Theorems: the HTTP handler -/

theorem createMessage_some (r : HandlerRun) (id : GoString) (h : r.newV4 = some id) :
    createMessage r =
      (some ⟨id, none, none, none, some ⟨0, "OK", some [], some [], none⟩⟩, none) := by
  unfold createMessage
  rw [h]
  rfl

theorem createMessage_none (r : HandlerRun) (h : r.newV4 = none) :
    createMessage r = (none, some (gs "uuid: cannot generate")) := by
  unfold createMessage
  rw [h]
  rfl

/-- C15: an execution that reaches `AddRequest(id)` has, when the handler is
left, called `DelRequest(id)` exactly once and closed the channel exactly
once, on the serialization-failure, timeout and reply paths (and on a panic
after the registration); an execution that returns before registering (missing
or unknown `X-API`, unreadable body) registers, deregisters and closes
nothing. -/
theorem C15_cleanup_exactly_once (r : HandlerRun) :
    (∀ id, Event.addRequest id ∈ handle r →
      (handle r).count (.addRequest id) = 1 ∧
      (handle r).count (.delRequest id) = 1 ∧
      (handle r).count (.closeChan id) = 1 ∧
      ∃ rest, handle r = .addRequest id :: rest ++ [.closeChan id, .delRequest id]) ∧
    ((r.apiName = "" ∨ r.port = none ∨ r.body = none) →
      ∀ id, Event.addRequest id ∉ handle r ∧ Event.delRequest id ∉ handle r ∧
        Event.closeChan id ∉ handle r) ∧
    (∀ id outPort body, r.apiName ≠ "" → r.port = some outPort → r.body = some body →
      r.newV4 = some id →
      (r.serialized = none →
        handle r = [.addRequest id, .writeHeader 500, .write "Service Internal Error",
          .closeChan id, .delRequest id]) ∧
      (∀ msg url urls, r.serialized = some msg → outPort = url :: urls → r.reply = .timeout →
        handle r = [.addRequest id, .sendMessage url msg, .writeHeader 500,
          .write "Couldn\x27t process request in a given time", .closeChan id,
          .delRequest id]) ∧
      (∀ msg url urls load, r.serialized = some msg → outPort = url :: urls →
        r.reply = .load (some load) →
        handle r = [.addRequest id, .sendMessage url msg,
          .writeResponse load.Code load.Message, .closeChan id, .delRequest id])) := by
  refine ⟨?_, ?_, ?_⟩
  · intro id hmem
    rcases hv : r.newV4 with _ | id0
    · have hc := createMessage_none r hv
      obtain ⟨apiName, port, body, newV4, serialized, reply⟩ := r
      unfold handle at hmem
      rw [hc] at hmem
      by_cases ha : apiName = ""
      · simp [ha] at hmem
      · rcases port with _ | outPort
        · simp [ha] at hmem
        · rcases body with _ | b <;> simp [ha] at hmem
    · have hc := createMessage_some r id0 hv
      obtain ⟨apiName, port, body, newV4, serialized, reply⟩ := r
      unfold handle at hmem ⊢
      rw [hc] at hmem ⊢
      by_cases ha : apiName = ""
      · simp [ha] at hmem
      · rcases port with _ | outPort
        · simp [ha] at hmem
        · rcases body with _ | b
          · simp [ha] at hmem
          · rcases serialized with _ | msg
            · simp [ha] at hmem
              subst hmem
              simp [ha, List.count_cons]
              exact ⟨[.writeHeader 500, .write "Service Internal Error"], rfl⟩
            · rcases outPort with _ | ⟨url, urls⟩
              · simp [ha] at hmem
                subst hmem
                simp [ha, List.count_cons]
                exact ⟨[.panic], rfl⟩
              · rcases reply with _ | (_ | load)
                · simp [ha] at hmem
                  subst hmem
                  simp [ha, List.count_cons]
                  exact ⟨[.sendMessage url msg, .writeHeader 500,
                    .write "Couldn\x27t process request in a given time"], rfl⟩
                · simp [ha] at hmem
                  subst hmem
                  simp [ha, List.count_cons]
                  exact ⟨[.sendMessage url msg, .panic], rfl⟩
                · simp [ha] at hmem
                  subst hmem
                  simp [ha, List.count_cons]
                  exact ⟨[.sendMessage url msg, .writeResponse load.Code load.Message], rfl⟩
  · intro h id
    unfold handle
    by_cases ha : r.apiName = ""
    · simp [ha]
    · rcases h with h | h | h
      · exact absurd h ha
      · simp [ha, h]
      · rcases hp : r.port with _ | outPort <;> simp [ha, h]
  · intro id outPort b ha hp hb hc
    have hcm := createMessage_some r id hc
    refine ⟨?_, ?_, ?_⟩
    · intro hs
      unfold handle
      rw [hcm]
      simp [ha, hp, hb, hs]
    · intro msg url urls hs ho hr
      subst ho
      unfold handle
      rw [hcm]
      simp [ha, hp, hb, hs, hr]
    · intro msg url urls load hs ho hr
      subst ho
      unfold handle
      rw [hcm]
      simp [ha, hp, hb, hs, hr]

/-- C16 on the code: in the execution that registers `id`, sends the message and
receives a reply, `close(ch)` runs before `DelRequest("id")`; after the first
four effects the registry still has the entry of `id` and its channel is
closed, and only the last effect removes the entry. -/
theorem C16_close_runs_before_deregister :
    handle ⟨"svcA", some ["tcp://next"], some [0x7b, 0x7d], some "id",
        some [0x7b, 0x7d], .load (some ⟨0, "OK"⟩)⟩ =
      [.addRequest "id", .sendMessage "tcp://next" [0x7b, 0x7d], .writeResponse 0 "OK",
        .closeChan "id", .delRequest "id"] ∧
    registryAfter ((handle ⟨"svcA", some ["tcp://next"], some [0x7b, 0x7d], some "id",
        some [0x7b, 0x7d], .load (some ⟨0, "OK"⟩)⟩).take 4) = ⟨["id"], ["id"]⟩ ∧
    registryAfter (handle ⟨"svcA", some ["tcp://next"], some [0x7b, 0x7d], some "id",
        some [0x7b, 0x7d], .load (some ⟨0, "OK"⟩)⟩) = ⟨[], ["id"]⟩ := by
  refine ⟨?_, ?_, ?_⟩ <;> decide

/-- C17: when `NewComponentMessage()` returns an error, or the serialization
returns an error, no message is handed to the transport: the trace of the
handler has no `SendMessage`. With a creation error the message is nil and the
handler panics on its first use, before `AddRequest`; with a serialization
error the handler answers 500 and returns. -/
theorem C17_no_send_on_error (r : HandlerRun)
    (h : (createMessage r).2 ≠ none ∨ r.serialized = none) :
    (∀ url msg, Event.sendMessage url msg ∉ handle r) ∧
    ((createMessage r).2 ≠ none → r.apiName ≠ "" → r.port ≠ none → r.body ≠ none →
      handle r = [.panic]) := by
  constructor
  · intro url msg
    rcases hv : r.newV4 with _ | id0
    · have hc := createMessage_none r hv
      unfold handle
      rw [hc]
      by_cases ha : r.apiName = ""
      · simp [ha]
      · rcases hp : r.port with _ | outPort
        · simp [ha]
        · rcases hb : r.body with _ | b <;> simp [ha]
    · have hc := createMessage_some r id0 hv
      have hs : r.serialized = none := by
        rcases h with h | h
        · rw [hc] at h; exact absurd rfl h
        · exact h
      unfold handle
      rw [hc]
      by_cases ha : r.apiName = ""
      · simp [ha]
      · rcases hp : r.port with _ | outPort
        · simp [ha]
        · rcases hb : r.body with _ | b <;> simp [ha, hs]
  · intro he ha hp hb
    rcases hv : r.newV4 with _ | id0
    · have hc := createMessage_none r hv
      unfold handle
      rw [hc]
      rcases hp2 : r.port with _ | outPort
      · exact absurd hp2 hp
      · rcases hb2 : r.body with _ | b
        · exact absurd hb2 hb
        · simp [ha]
    · have hc := createMessage_some r id0 hv
      rw [hc] at he
      exact absurd rfl he

/-- Witness of C17: the identifier cannot be generated; and the message is
created but its serialization fails. -/
theorem C17_no_send_on_error_witness :
    ((∀ url msg, Event.sendMessage url msg ∉
        handle ⟨"svcA", some ["tcp://next"], some [0x7b, 0x7d], none, some [0x7b, 0x7d],
          .timeout⟩) ∧
      ((createMessage ⟨"svcA", some ["tcp://next"], some [0x7b, 0x7d], none,
          some [0x7b, 0x7d], .timeout⟩).2 ≠ none → ("svcA" : String) ≠ "" →
        (some ["tcp://next"] : Option (List String)) ≠ none →
        (some [0x7b, 0x7d] : Option (List Byte)) ≠ none →
        handle ⟨"svcA", some ["tcp://next"], some [0x7b, 0x7d], none, some [0x7b, 0x7d],
          .timeout⟩ = [.panic])) ∧
    handle ⟨"svcA", some ["tcp://next"], some [0x7b, 0x7d], none, some [0x7b, 0x7d],
      .timeout⟩ = [.panic] ∧
    handle ⟨"svcA", some ["tcp://next"], some [0x7b, 0x7d], some "id", none, .timeout⟩ =
      [.addRequest "id", .writeHeader 500, .write "Service Internal Error", .closeChan "id",
        .delRequest "id"] :=
  ⟨C17_no_send_on_error
      ⟨"svcA", some ["tcp://next"], some [0x7b, 0x7d], none, some [0x7b, 0x7d], .timeout⟩
      (Or.inl (by decide)),
    by decide, by decide⟩
end Casper
